import Mathlib

/-!
Verification development for the GBF container codec (the gbin Rust crate).

The Rust sources in src/codec.rs, src/header.rs, src/value.rs and
src/error.rs are shallowly embedded below.  Machine integers are
modelled as `Nat`/`Int` with explicit range checks where the source
performs checked arithmetic (the target platform is 64-bit, so `usize`
is a 64-bit unsigned integer).  Rust `String`s that participate in the
payload encoding are modelled as their UTF-8 byte lists; field and
struct-key names are modelled as character lists (Rust `BTreeMap<String,_>`
orders keys by UTF-8 bytes, which coincides with code-point order).
Fallible Rust functions returning `Result` are modelled with `Except`.
The zlib deflate/inflate pair (the external flate2 crate) is kept
abstract: theorems that involve it are parametric in the compressor and
take inflate-inverts-deflate as a hypothesis.  JSON serialization of the
header (the external serde_json crate) is likewise kept abstract where
it occurs.
-/

namespace GBin

/-- Bytes are natural numbers; all encoders emit values below 256. -/
abbrev Byte := Nat

/-- Names (Rust `String` keys and field names) as character lists. -/
abbrev Name := List Char

/-- Model of `GbfError` from src/error.rs.  I/O and JSON-parse errors
cannot arise in the pure model and are omitted; message payloads are
abbreviated forms of the source's formatted messages. -/
inductive GbfErr where
  | format (msg : String)
  | unsupported (msg : String)
  | headerCrcMismatch (expected got : List Byte)
  | fileSizeMismatch (expected got : Nat)
  | varNotFound (p : Name)
  | fieldOutOfBounds (name : Name) (offset csize payloadLen : Nat)
  | decompressionFailed (name : Name) (msg : String)
  | fieldSizeMismatch (name : Name) (expected got : Nat)
  | fieldCrcMismatch (name : Name) (expected got : Nat)
  deriving Repr, DecidableEq

/-- Model of `NumericClass` from src/value.rs. -/
inductive NumericClass where
  | double | single | int8 | uint8 | int16 | uint16
  | int32 | uint32 | int64 | uint64
  deriving Repr, DecidableEq

/-- Source: `NumericClass::bytes_per_element`. -/
def NumericClass.bytesPerElement : NumericClass → Nat
  | .double => 8 | .single => 4
  | .int8 => 1 | .uint8 => 1
  | .int16 => 2 | .uint16 => 2
  | .int32 => 4 | .uint32 => 4
  | .int64 => 8 | .uint64 => 8

/-- Source: `NumericClass::as_matlab_class`. -/
def NumericClass.asMatlabClass : NumericClass → String
  | .double => "double" | .single => "single"
  | .int8 => "int8" | .uint8 => "uint8"
  | .int16 => "int16" | .uint16 => "uint16"
  | .int32 => "int32" | .uint32 => "uint32"
  | .int64 => "int64" | .uint64 => "uint64"

/-- ASCII lower-casing of a character, as Rust `to_ascii_lowercase`. -/
def lowerChar (c : Char) : Char :=
  if 65 ≤ c.toNat ∧ c.toNat ≤ 90 then Char.ofNat (c.toNat + 32) else c

/-- ASCII lower-casing of a string, as Rust `to_ascii_lowercase`. -/
def asciiLower (s : String) : String :=
  String.mk (s.data.map lowerChar)

/-- Rust `str::eq_ignore_ascii_case`. -/
def eqIgnoreAsciiCase (a b : String) : Bool :=
  asciiLower a = asciiLower b

/-- Source: `NumericClass::from_matlab_class` (lower-cases, then matches). -/
def NumericClass.fromMatlabClass (s : String) : Option NumericClass :=
  let t := asciiLower s
  if t = "double" then some .double
  else if t = "single" then some .single
  else if t = "int8" then some .int8
  else if t = "uint8" then some .uint8
  else if t = "int16" then some .int16
  else if t = "uint16" then some .uint16
  else if t = "int32" then some .int32
  else if t = "uint32" then some .uint32
  else if t = "int64" then some .int64
  else if t = "uint64" then some .uint64
  else none

/-- Model of `NumericArray` (src/value.rs).  The Rust field `class` is a
reserved word in Lean and is called `nclass` here. -/
structure NumericArray where
  nclass : NumericClass
  shape : List Nat
  complex : Bool
  real_le : List Byte
  imag_le : Option (List Byte)
  deriving Repr, DecidableEq

/-- Model of `LogicalArray` (src/value.rs). -/
structure LogicalArray where
  shape : List Nat
  data : List Byte
  deriving Repr, DecidableEq

/-- Model of `CharArray` (src/value.rs); entries are u16 code units. -/
structure CharArray where
  shape : List Nat
  data : List Nat
  deriving Repr, DecidableEq

/-- Model of `StringArray` (src/value.rs); each present element is the
UTF-8 byte list of the Rust `String`. -/
structure StringArray where
  shape : List Nat
  data : List (Option (List Byte))
  deriving Repr, DecidableEq

/-- Model of `DateTimeArray` (src/value.rs); tz, locale and format are
optional UTF-8 byte lists. -/
structure DateTimeArray where
  shape : List Nat
  tz : Option (List Byte)
  locale : Option (List Byte)
  format : Option (List Byte)
  is_nat : List Byte
  year : List Int
  month : List Byte
  day : List Byte
  ms_day : List Int
  deriving Repr, DecidableEq

/-- Model of `DurationArray` (src/value.rs). -/
structure DurationArray where
  shape : List Nat
  is_nan : List Byte
  ms : List Int
  deriving Repr, DecidableEq

/-- Model of `CalendarDurationArray` (src/value.rs). -/
structure CalendarDurationArray where
  shape : List Nat
  is_missing : List Byte
  months : List Int
  days : List Int
  time_ms : List Int
  deriving Repr, DecidableEq

/-- Model of `CategoricalArray` (src/value.rs). -/
structure CategoricalArray where
  shape : List Nat
  categories : List (List Byte)
  codes : List Nat
  deriving Repr, DecidableEq

/-- Model of `GbfValue` (src/value.rs).  A `BTreeMap<String, GbfValue>`
is modelled as an association list sorted strictly by key. -/
inductive GbfValue where
  | struct (m : List (Name × GbfValue))
  | numeric (a : NumericArray)
  | logical (a : LogicalArray)
  | char (a : CharArray)
  | string (a : StringArray)
  | dateTime (a : DateTimeArray)
  | duration (a : DurationArray)
  | calendarDuration (a : CalendarDurationArray)
  | categorical (a : CategoricalArray)
  | emptyStruct
  deriving Repr

/-- Association-list form of `BTreeMap<String, GbfValue>`. -/
abbrev Smap := List (Name × GbfValue)

/-- Strict lexicographic order on names, matching the byte-wise order
Rust's `BTreeMap<String, _>` uses. -/
def nameLt : Name → Name → Bool
  | [], [] => false
  | [], _ :: _ => true
  | _ :: _, [] => false
  | a :: as1, b :: bs1 => if a < b then true else if b < a then false else nameLt as1 bs1

/-- `BTreeMap::get`. -/
def mlookup (k : Name) : Smap → Option GbfValue
  | [] => none
  | (k2, v) :: t => if k = k2 then some v else mlookup k t

/-- `BTreeMap::insert` (replaces an existing binding), on the sorted
association-list representation. -/
def minsert (k : Name) (v : GbfValue) : Smap → Smap
  | [] => [(k, v)]
  | (k2, v2) :: t =>
    if nameLt k k2 then (k, v) :: (k2, v2) :: t
    else if k = k2 then (k, v) :: t
    else (k2, v2) :: minsert k v t

/-- Source: `mul_usize` (src/codec.rs).  `usize` is 64-bit. -/
def mulUsize (a b : Nat) : Except GbfErr Nat :=
  if a * b < 2 ^ 64 then .ok (a * b)
  else .error (.format ("usize multiplication overflow"))

/-- Source: `checked_add_u64` (src/codec.rs). -/
def checkedAddU64 (a b : Nat) : Except GbfErr Nat :=
  if a + b < 2 ^ 64 then .ok (a + b)
  else .error (.format ("u64 addition overflow"))

/-- Source: `element_count_checked` (src/codec.rs). -/
def elementCountChecked (shape : List Nat) : Except GbfErr Nat :=
  if shape = [] then .ok 0
  else if shape.any (fun d => d = 0) then .ok 0
  else shape.foldlM mulUsize 1

/-- Little-endian bytes of a u16 (`u16::to_le_bytes`). -/
def u16le (x : Nat) : List Byte := [x % 256, x / 256 % 256]

/-- Little-endian bytes of a u32 (`u32::to_le_bytes`). -/
def u32le (x : Nat) : List Byte :=
  [x % 256, x / 2 ^ 8 % 256, x / 2 ^ 16 % 256, x / 2 ^ 24 % 256]

/-- Little-endian bytes of a u64 (`u64::to_le_bytes`). -/
def u64le (x : Nat) : List Byte :=
  [x % 256, x / 2 ^ 8 % 256, x / 2 ^ 16 % 256, x / 2 ^ 24 % 256,
   x / 2 ^ 32 % 256, x / 2 ^ 40 % 256, x / 2 ^ 48 % 256, x / 2 ^ 56 % 256]

/-- Two's-complement representative of an integer in `w` bits. -/
def twosComp (w : Nat) (x : Int) : Nat := (x % ((2 : Int) ^ w)).toNat

/-- Little-endian bytes of an i16 (`i16::to_le_bytes`). -/
def i16le (x : Int) : List Byte := u16le (twosComp 16 x)

/-- Little-endian bytes of an i32 (`i32::to_le_bytes`). -/
def i32le (x : Int) : List Byte := u32le (twosComp 32 x)

/-- Little-endian bytes of an i64 (`i64::to_le_bytes`). -/
def i64le (x : Int) : List Byte := u64le (twosComp 64 x)

/-- Range test on bytes, used by the UTF-8 validator. -/
def inRange (lo hi b : Nat) : Bool := Nat.ble lo b && Nat.ble b hi

/-- UTF-8 continuation byte (0x80..0xBF). -/
def contByte (b : Byte) : Bool := inRange 128 191 b

/-- Validity of a byte list as UTF-8, the check performed by Rust's
`std::str::from_utf8` (RFC 3629 table). -/
def validUtf8 : List Byte → Bool
  | [] => true
  | b :: t =>
    if Nat.ble b 127 then validUtf8 t
    else if inRange 194 223 b then
      match t with
      | c :: t2 => contByte c && validUtf8 t2
      | [] => false
    else if b = 224 then
      match t with
      | c :: d :: t2 => inRange 160 191 c && contByte d && validUtf8 t2
      | _ => false
    else if inRange 225 236 b then
      match t with
      | c :: d :: t2 => contByte c && contByte d && validUtf8 t2
      | _ => false
    else if b = 237 then
      match t with
      | c :: d :: t2 => inRange 128 159 c && contByte d && validUtf8 t2
      | _ => false
    else if inRange 238 239 b then
      match t with
      | c :: d :: t2 => contByte c && contByte d && validUtf8 t2
      | _ => false
    else if b = 240 then
      match t with
      | c :: d :: e :: t2 => inRange 144 191 c && contByte d && contByte e && validUtf8 t2
      | _ => false
    else if inRange 241 243 b then
      match t with
      | c :: d :: e :: t2 => contByte c && contByte d && contByte e && validUtf8 t2
      | _ => false
    else if b = 244 then
      match t with
      | c :: d :: e :: t2 => inRange 128 143 c && contByte d && contByte e && validUtf8 t2
      | _ => false
    else false

/-- Result record of `encode_leaf`: the source returns the tuple
`(raw_bytes, kind, class_name, shape(u64), complex, encoding)`. -/
structure EncLeaf where
  raw : List Byte
  kind : String
  className : String
  shape : List Nat
  complex : Bool
  encoding : String
  deriving Repr, DecidableEq

/-- Per-element body of the `String` arm of `encode_leaf`:
`[miss_flag u8][len u32 LE][utf8 bytes]` for each element. -/
def encStringElems : List (Option (List Byte)) → Except GbfErr (List Byte)
  | [] => .ok []
  | none :: t => do
    let rest ← encStringElems t
    .ok (1 :: (u32le 0 ++ rest))
  | some s :: t =>
    if s.length < 2 ^ 32 then do
      let rest ← encStringElems t
      .ok (0 :: (u32le s.length ++ (s ++ rest)))
    else .error (.unsupported ("string too large"))

/-- Category-table body of the `Categorical` arm of `encode_leaf`:
`[len u32][utf8 bytes]` for each category. -/
def encCats : List (List Byte) → Except GbfErr (List Byte)
  | [] => .ok []
  | c :: t =>
    if c.length < 2 ^ 32 then do
      let rest ← encCats t
      .ok (u32le c.length ++ (c ++ rest))
    else .error (.unsupported ("category string too large"))

/-- Source: `encode_leaf` (src/codec.rs).  The `name` argument only
feeds error messages in the source and is unused in the model's
abbreviated messages. -/
def encodeLeaf (v : GbfValue) : Except GbfErr EncLeaf :=
  match v with
  | .numeric arr => do
    let n ← elementCountChecked arr.shape
    let expected ← mulUsize n arr.nclass.bytesPerElement
    if arr.real_le.length ≠ expected then
      .error (.format ("numeric real_le size mismatch"))
    else if !arr.complex then
      if arr.imag_le.isSome then
        .error (.format ("numeric is not complex but imag_le is present"))
      else
        .ok { raw := arr.real_le, kind := "numeric",
              className := arr.nclass.asMatlabClass, shape := arr.shape,
              complex := false, encoding := "" }
    else
      match arr.imag_le with
      | none => .error (.format ("numeric array is complex but imag_le is None"))
      | some imag =>
        if imag.length ≠ expected then
          .error (.format ("numeric imag_le size mismatch"))
        else
          .ok { raw := arr.real_le ++ imag, kind := "numeric",
                className := arr.nclass.asMatlabClass, shape := arr.shape,
                complex := true, encoding := "" }
  | .logical a =>
    .ok { raw := a.data, kind := "logical", className := "logical",
          shape := a.shape, complex := false, encoding := "" }
  | .char a =>
    .ok { raw := (a.data.map u16le).flatten, kind := "char", className := "char",
          shape := a.shape, complex := false, encoding := "utf-16-codeunits" }
  | .string a => do
    let n ← elementCountChecked a.shape
    if a.data.length ≠ n then
      .error (.format ("string shape and data length mismatch"))
    else do
      let raw ← encStringElems a.data
      .ok { raw, kind := "string", className := "string", shape := a.shape,
            complex := false, encoding := "utf-8" }
  | .dateTime a => do
    let n ← elementCountChecked a.shape
    if !(a.is_nat.length = n && a.year.length = n && a.month.length = n
         && a.day.length = n && a.ms_day.length = n : Bool) then
      .error (.format ("datetime inconsistent component lengths"))
    else
      let tz := a.tz.getD []
      let loc := a.locale.getD []
      let fmt := a.format.getD []
      let tzLen := if tz.length < 2 ^ 32 then tz.length else 2 ^ 32 - 1
      let locLen := if loc.length < 2 ^ 32 then loc.length else 2 ^ 32 - 1
      let fmtLen := if fmt.length < 2 ^ 32 then fmt.length else 2 ^ 32 - 1
      let tzp : Bool := !tz.isEmpty
      let flags := (if tzp then 1 else 0) + (if 0 < fmtLen then 2 else 0)
                   + (if tzp then 0 else 4) + (if 0 < locLen then 8 else 0)
      .ok { raw := flags :: (u32le tzLen ++ (tz ++ (u32le locLen ++ (loc
                    ++ (u32le fmtLen ++ (fmt ++ (a.is_nat
                    ++ ((a.year.map i16le).flatten ++ (a.month ++ (a.day
                    ++ (a.ms_day.map i32le).flatten)))))))))),
            kind := "datetime", className := "datetime", shape := a.shape,
            complex := false,
            encoding := if tzp then "dt:tz-ymd+msday+nat-mask+tz+locale+format"
                        else "dt:naive-ymd+msday+nat-mask+locale+format" }
  | .duration a => do
    let n ← elementCountChecked a.shape
    if !(a.is_nan.length = n && a.ms.length = n : Bool) then
      .error (.format ("duration inconsistent lengths"))
    else
      .ok { raw := a.is_nan ++ (a.ms.map i64le).flatten, kind := "duration",
            className := "duration", shape := a.shape, complex := false,
            encoding := "ms-i64+nan-mask" }
  | .calendarDuration a => do
    let n ← elementCountChecked a.shape
    if !(a.is_missing.length = n && a.months.length = n && a.days.length = n
         && a.time_ms.length = n : Bool) then
      .error (.format ("calendarDuration inconsistent lengths"))
    else
      .ok { raw := a.is_missing ++ ((a.months.map i32le).flatten
                   ++ ((a.days.map i32le).flatten ++ (a.time_ms.map i64le).flatten)),
            kind := "calendarduration", className := "calendarDuration",
            shape := a.shape, complex := false,
            encoding := "mask+months-i32+days-i32+time-ms-i64" }
  | .categorical a => do
    let n ← elementCountChecked a.shape
    if a.codes.length ≠ n then
      .error (.format ("categorical codes length mismatch"))
    else if a.categories.length < 2 ^ 32 then do
      let cats ← encCats a.categories
      .ok { raw := u32le a.categories.length ++ (cats ++ (a.codes.map u32le).flatten),
            kind := "categorical", className := "categorical", shape := a.shape,
            complex := false, encoding := "cats-utf8+codes-u32" }
    else .error (.unsupported ("too many categories"))
  | .emptyStruct =>
    .ok { raw := [], kind := "struct", className := "struct", shape := [1, 1],
          complex := false, encoding := "empty-scalar-struct" }
  | .struct _ => .error (.unsupported ("non-leaf struct encountered"))

/-- Model of `FieldMeta` (src/header.rs); `class` is serialized under
that key but stored in the Rust field `class_name`. -/
structure FieldMeta where
  name : Name
  kind : String
  className : String
  shape : List Nat
  complex : Bool
  encoding : String
  compression : String
  offset : Nat
  csize : Nat
  usize : Nat
  crc32 : Nat
  deriving Repr, DecidableEq

/-- Byte of `raw` at index `i` (reads in the source are always
bounds-checked first, so the default is never observed). -/
def byteAt (raw : List Byte) (i : Nat) : Byte := raw.getD i 0

/-- Rust `u16::from_le_bytes` applied at index `i`. -/
def readU16At (raw : List Byte) (i : Nat) : Nat :=
  byteAt raw i + 2 ^ 8 * byteAt raw (i + 1)

/-- Rust `u32::from_le_bytes` applied at index `i`. -/
def readU32At (raw : List Byte) (i : Nat) : Nat :=
  byteAt raw i + 2 ^ 8 * byteAt raw (i + 1) + 2 ^ 16 * byteAt raw (i + 2)
    + 2 ^ 24 * byteAt raw (i + 3)

/-- Rust `u64::from_le_bytes` applied at index `i`. -/
def readU64At (raw : List Byte) (i : Nat) : Nat :=
  byteAt raw i + 2 ^ 8 * byteAt raw (i + 1) + 2 ^ 16 * byteAt raw (i + 2)
    + 2 ^ 24 * byteAt raw (i + 3) + 2 ^ 32 * byteAt raw (i + 4)
    + 2 ^ 40 * byteAt raw (i + 5) + 2 ^ 48 * byteAt raw (i + 6)
    + 2 ^ 56 * byteAt raw (i + 7)

/-- Signed reading of a `w`-bit two's-complement representative. -/
def fromTwos (w : Nat) (n : Nat) : Int :=
  if n < 2 ^ (w - 1) then (n : Int) else (n : Int) - (2 : Int) ^ w

/-- Rust `i16::from_le_bytes` applied at index `i`. -/
def readI16At (raw : List Byte) (i : Nat) : Int := fromTwos 16 (readU16At raw i)

/-- Rust `i32::from_le_bytes` applied at index `i`. -/
def readI32At (raw : List Byte) (i : Nat) : Int := fromTwos 32 (readU32At raw i)

/-- Rust `i64::from_le_bytes` applied at index `i`. -/
def readI64At (raw : List Byte) (i : Nat) : Int := fromTwos 64 (readU64At raw i)

/-- Subslice `raw[i..i+len]` (`to_vec` of a checked slice). -/
def sliceAt (raw : List Byte) (i len : Nat) : List Byte := (raw.drop i).take len

/-- Element loop of the `string` arm of `decode_leaf`, with the source's
cursor `idx` and remaining element count. -/
def decStringElems (raw : List Byte) : Nat → Nat → Except GbfErr (List (Option (List Byte)))
  | _, 0 => .ok []
  | idx, n + 1 =>
    if idx + 1 + 4 > raw.length then
      .error (.format ("string truncated while parsing element header"))
    else
      let miss := byteAt raw idx
      let len := readU32At raw (idx + 1)
      if idx + 5 + len > raw.length then
        .error (.format ("string truncated while parsing element payload"))
      else
        let bytes := sliceAt raw (idx + 5) len
        if miss ≠ 0 then do
          let rest ← decStringElems raw (idx + 5 + len) n
          .ok (none :: rest)
        else if validUtf8 bytes then do
          let rest ← decStringElems raw (idx + 5 + len) n
          .ok (some bytes :: rest)
        else .error (.format ("string invalid UTF-8"))

/-- Category-table loop of the `categorical` arm of `decode_leaf`;
returns the categories and the cursor after the table. -/
def decCatList (raw : List Byte) : Nat → Nat → Except GbfErr (List (List Byte) × Nat)
  | idx, 0 => .ok ([], idx)
  | idx, n + 1 =>
    if idx + 4 > raw.length then .error (.format ("categorical truncated cat len"))
    else
      let len := readU32At raw idx
      if idx + 4 + len > raw.length then
        .error (.format ("categorical truncated cat bytes"))
      else
        let b := sliceAt raw (idx + 4) len
        if validUtf8 b then do
          let (rest, idx2) ← decCatList raw (idx + 4 + len) n
          .ok (b :: rest, idx2)
        else .error (.format ("categorical invalid UTF-8 cat"))

/-- The three identical optional-metadata reads of the `datetime` arm
of `decode_leaf` (tz, locale, format): a length-`len` string is `Some`
when `len > 0` (UTF-8 checked, the arm's error message passed in) and
`None` otherwise. -/
def decMetaOpt (len : Nat) (bytes : List Byte) (msg : String) :
    Except GbfErr (Option (List Byte)) :=
  if 0 < len then
    (if validUtf8 bytes then .ok (some bytes) else .error (.format msg))
  else .ok none

/-- Source: `decode_leaf` (src/codec.rs).  On a 64-bit platform the
`u64_to_usize` conversions of shape dimensions always succeed and are
the identity. -/
def decodeLeaf (field : FieldMeta) (raw : List Byte) : Except GbfErr GbfValue := do
  let kind := asciiLower field.kind
  let shape := field.shape
  let n ← elementCountChecked shape
  if kind = "struct" then .ok .emptyStruct
  else if kind = "numeric" then
    match NumericClass.fromMatlabClass field.className with
    | none => .error (.unsupported ("unknown numeric class"))
    | some cls => do
      let partBytes ← mulUsize n cls.bytesPerElement
      if !field.complex then
        if raw.length ≠ partBytes then .error (.format ("numeric size mismatch"))
        else .ok (.numeric
          { nclass := cls, shape := shape, complex := false,
            real_le := raw, imag_le := none })
      else
        if raw.length ≠ 2 * partBytes then
          .error (.format ("complex numeric size mismatch"))
        else .ok (.numeric
          { nclass := cls, shape := shape, complex := true,
            real_le := raw.take partBytes,
            imag_le := some (raw.drop partBytes) })
  else if kind = "logical" then
    if raw.length ≠ n then .error (.format ("logical size mismatch"))
    else .ok (.logical { shape := shape, data := raw })
  else if kind = "char" then
    if raw.length ≠ n * 2 then .error (.format ("char size mismatch"))
    else .ok (.char
      { shape := shape,
        data := (List.range n).map (fun i => readU16At raw (i * 2)) })
  else if kind = "string" then do
    let data ← decStringElems raw 0 n
    .ok (.string { shape := shape, data := data })
  else if kind = "datetime" then
    if raw.length < 1 + 4 + 4 + 4 then .error (.format ("datetime payload too small"))
    else do
      let tzLen := readU32At raw 1
      if 5 + tzLen > raw.length then .error (.format ("datetime truncated tz")) else
      let tzB := sliceAt raw 5 tzLen
      let tz ← decMetaOpt tzLen tzB ("datetime tz invalid UTF-8")
      let locLen := readU32At raw (5 + tzLen)
      if 9 + tzLen + locLen > raw.length then .error (.format ("datetime truncated locale")) else
      let locB := sliceAt raw (9 + tzLen) locLen
      let locale ← decMetaOpt locLen locB ("datetime locale invalid UTF-8")
      let fmtLen := readU32At raw (9 + tzLen + locLen)
      if 13 + tzLen + locLen + fmtLen > raw.length then .error (.format ("datetime truncated format")) else
      let fmtB := sliceAt raw (13 + tzLen + locLen) fmtLen
      let format ← decMetaOpt fmtLen fmtB ("datetime format invalid UTF-8")
      let idx0 := 13 + tzLen + locLen + fmtLen
      if idx0 + n > raw.length then .error (.format ("datetime truncated mask")) else
      let is_nat := sliceAt raw idx0 n
      if idx0 + n + (n * 2 + n + n + n * 4) > raw.length then
        .error (.format ("datetime truncated components"))
      else
        .ok (.dateTime
          { shape := shape, tz := tz, locale := locale,
            format := format, is_nat := is_nat,
            year := (List.range n).map (fun i => readI16At raw (idx0 + n + 2 * i)),
            month := sliceAt raw (idx0 + 3 * n) n,
            day := sliceAt raw (idx0 + 4 * n) n,
            ms_day := (List.range n).map (fun i => readI32At raw (idx0 + 5 * n + 4 * i)) })
  else if kind = "duration" then
    if raw.length ≠ n + n * 8 then .error (.format ("duration size mismatch"))
    else
      .ok (.duration
        { shape := shape, is_nan := raw.take n,
          ms := (List.range n).map (fun i => readI64At raw (n + 8 * i)) })
  else if kind = "calendarduration" then
    if raw.length ≠ n + n * 4 + n * 4 + n * 8 then
      .error (.format ("calendarDuration size mismatch"))
    else
      .ok (.calendarDuration
        { shape := shape, is_missing := raw.take n,
          months := (List.range n).map (fun i => readI32At raw (n + 4 * i)),
          days := (List.range n).map (fun i => readI32At raw (5 * n + 4 * i)),
          time_ms := (List.range n).map (fun i => readI64At raw (9 * n + 8 * i)) })
  else if kind = "categorical" then
    if raw.length < 4 then .error (.format ("categorical payload too small"))
    else do
      let nCats := readU32At raw 0
      let (categories, idx) ← decCatList raw 4 nCats
      if raw.length - idx ≠ n * 4 then
        .error (.format ("categorical codes size mismatch"))
      else
        .ok (.categorical
          { shape := shape, categories := categories,
            codes := (List.range n).map (fun i => readU32At raw (idx + 4 * i)) })
  else .error (.unsupported ("unsupported kind"))

/-- One bit-step of the reflected CRC-32 (polynomial 0xEDB88320),
as computed by the crc32fast crate used in src/header.rs. -/
def crc32Round (c : Nat) : Nat :=
  if c % 2 = 1 then Nat.xor (c / 2) 3988292384 else c / 2

/-- CRC-32 update by one byte. -/
def crc32Byte (c b : Nat) : Nat := crc32Round^[8] (Nat.xor c (b % 256))

/-- Source: `compute_crc32` (src/header.rs): IEEE CRC-32 of a byte list. -/
def crc32 (bytes : List Byte) : Nat :=
  Nat.xor (bytes.foldl crc32Byte 4294967295) 4294967295

/-- Model of `CompressionMode` (src/codec.rs). -/
inductive CompressionMode where
  | auto | always | never
  deriving Repr, DecidableEq

/-- Model of `WriteOptions` (src/codec.rs). -/
structure WriteOptions where
  compression : Bool
  compressionMode : CompressionMode
  compressionLevel : Nat
  crc : Bool
  prettyHeader : Bool
  deriving Repr, DecidableEq

/-- Model of `ReadOptions` (src/codec.rs). -/
structure ReadOptions where
  validate : Bool
  deriving Repr, DecidableEq

/-- Number of distinct byte values in a list (the source counts them
with a 256-entry `seen` table). -/
def countUniqueBytes (l : List Byte) : Nat := l.dedup.length

/-- Source: `should_try_compress` (src/codec.rs).  The constants are
COMPRESS_THRESHOLD_BYTES = 1024, AUTO_COMPRESS_THRESHOLD_BYTES = 65536,
AUTO_ENTROPY_SAMPLE_BYTES = 4096, AUTO_ENTROPY_MAX_UNIQUE_RATIO = 0.95.
The final comparison is `unique as f64 / sample_len as f64 ≤ 0.95` in
f64 arithmetic; whenever it is reached, `sampleLen ≥ 1024` and
`unique ≤ sampleLen`, and for unique ≤ 4096, sampleLen ≤ 4096 the f64
comparison against the f64 nearest to 0.95 coincides with the exact
rational comparison `20 * unique ≤ 19 * sampleLen` used here (both
quantities are either equal to 19/20 exactly, which neither side can
realise with a denominator ≤ 4096 once unique ≤ 256 < sampleLen/2, or
at distance ≥ 1/(20·4096) from it, far above one f64 ulp). -/
def shouldTryCompress (kind className : String) (raw : List Byte) : Bool :=
  if raw.length < 1024 then false
  else if kind = "numeric" && (className = "double" || className = "single")
          && raw.length < 65536 then false
  else
    let sampleLen := min raw.length 4096
    if sampleLen = 0 then false
    else
      let unique := countUniqueBytes (raw.take sampleLen)
      decide (20 * unique ≤ 19 * sampleLen)

/-- Hardening cap MAX_FIELD_USIZE = MAX_FIELD_CSIZE = 16 GiB (src/codec.rs). -/
def maxFieldBytes : Nat := 16 * 1024 * 1024 * 1024

/-- Hardening cap MAX_HEADER_LEN = 64 MiB (src/codec.rs). -/
def maxHeaderLen : Nat := 64 * 1024 * 1024

/-- Source: `zlib_compress` (src/codec.rs).  The flate2 deflate itself is
abstract (`zc`, taking the clamped level); the source's level clamp
`level.min(9)` is kept. -/
def zlibCompress (zc : Nat → List Byte → List Byte) (raw : List Byte) (level : Nat) : List Byte :=
  zc (min level 9) raw

/-- Source: `zlib_decompress` (src/codec.rs).  The flate2 inflate is
abstract (`zd`, whose error is a stream-corruption message); the
source's output cap (read at most `max_out + 1` bytes and fail if the
limit is exceeded) is modelled by the length check on the full inflated
output, which accepts and rejects exactly the same inputs. -/
def zlibDecompress (zd : List Byte → Except String (List Byte))
    (comp : List Byte) (maxOut : Nat) : Except GbfErr (List Byte) :=
  let cap := min maxOut maxFieldBytes
  match zd comp with
  | .error m => .error (.format m)
  | .ok out =>
    if out.length > cap then
      .error (.format ("decompressed data exceeds configured limit"))
    else .ok out

/-- Per-leaf body of the encoding loop in `write_file` (src/codec.rs,
lines 1257-1300): encode, optional CRC, compression decision, and the
keep-only-if-strictly-smaller rule.  Returns the field metadata (with
`offset` still 0) and the stored bytes. -/
def encodeField (zc : Nat → List Byte → List Byte) (opts : WriteOptions)
    (name : Name) (v : GbfValue) : Except GbfErr (FieldMeta × List Byte) := do
  let e ← encodeLeaf v
  let crcU := if opts.crc then crc32 e.raw else 0
  let tryCompress :=
    if opts.compression then
      match opts.compressionMode with
      | .never => false
      | .always => decide (1024 ≤ e.raw.length)
      | .auto => shouldTryCompress e.kind e.className e.raw
    else false
  let comp := zlibCompress zc e.raw opts.compressionLevel
  let keep := tryCompress && decide (comp.length < e.raw.length)
  let stored := if keep then comp else e.raw
  let compTag : String := if keep then "zlib" else "none"
  .ok ({ name := name, kind := e.kind, className := e.className,
         shape := e.shape, complex := e.complex, encoding := e.encoding,
         compression := compTag, offset := 0, csize := stored.length,
         usize := e.raw.length, crc32 := crcU }, stored)

/-- Membership of the dot character in a key. -/
def hasDot (k : Name) : Bool := k.any (fun c => c = '.')

/-- The literal name `data` used for a non-struct root. -/
def dataName : Name := ['d', 'a', 't', 'a']

mutual

/-- Source: `flatten_to_leaves` (src/codec.rs).  Keys of every struct the
walk enters are checked for dots; non-struct values are emitted under
the accumulated dotted path (or `data` for an empty prefix). -/
def flattenToLeaves : GbfValue → Name → Except GbfErr (List (Name × GbfValue))
  | .struct m, pre => flattenKeyList m pre
  | v, pre => .ok [(if pre.isEmpty then dataName else pre, v)]

/-- Iteration over the key list inside `flatten_to_leaves`. -/
def flattenKeyList : List (Name × GbfValue) → Name → Except GbfErr (List (Name × GbfValue))
  | [], _ => .ok []
  | (k, v) :: t, pre =>
    if hasDot k then
      .error (.unsupported ("struct key contains dot, not supported in GBF paths"))
    else do
      let name := if pre.isEmpty then k else pre ++ ('.' :: k)
      let here ← flattenToLeaves v name
      let rest ← flattenKeyList t pre
      .ok (here ++ rest)

end

/-- Top-level flattening loop of `write_file` for a struct root
(src/codec.rs lines 1242-1248): each root key is passed directly as the
prefix, WITHOUT the dot check that `flatten_to_leaves` applies to keys
of nested structs. -/
def flattenRoot : List (Name × GbfValue) → Except GbfErr (List (Name × GbfValue))
  | [] => .ok []
  | (k, v) :: t => do
    let here ← flattenToLeaves v k
    let rest ← flattenRoot t
    .ok (here ++ rest)

/-- Saturating u64 addition (`u64::saturating_add`). -/
def satAddU64 (a b : Nat) : Nat := min (a + b) (2 ^ 64 - 1)

/-- Offset-assignment loop of `write_file` (src/codec.rs lines
1303-1307): each field's offset is the running saturating sum of the
preceding csizes. -/
def assignOffsetsGo : Nat → List FieldMeta → List FieldMeta
  | _, [] => []
  | off, f :: t => { f with offset := off } :: assignOffsetsGo (satAddU64 off f.csize) t

/-- Offsets relative to the payload start, beginning at 0. -/
def assignOffsets (fs : List FieldMeta) : List FieldMeta := assignOffsetsGo 0 fs

/-- The writer's `payload_bytes_total`: the final running offset. -/
def payloadTotal (fs : List FieldMeta) : Nat :=
  fs.foldl (fun acc f => satAddU64 acc f.csize) 0

/-- The `root` tag of `write_file`: `struct` for a struct root,
`single` otherwise. -/
def rootTag (v : GbfValue) : String :=
  match v with
  | .struct _ => "struct"
  | _ => "single"

/-- The leaf list of `write_file`: a struct root is flattened per key
(with the key as prefix), any other root becomes the single `data`
leaf. -/
def rootLeaves (v : GbfValue) : Except GbfErr (List (Name × GbfValue)) :=
  match v with
  | .struct m => flattenRoot m
  | other => .ok [(dataName, other)]

/-- Flatten/encode/compress/offset part of `write_file` (src/codec.rs
lines 1232-1308): produces the root tag, the field table (with offsets)
and the stored chunks. -/
def writeCore (zc : Nat → List Byte → List Byte) (opts : WriteOptions)
    (v : GbfValue) : Except GbfErr (String × List FieldMeta × List (List Byte)) := do
  let leaves ← rootLeaves v
  let encoded ← leaves.mapM (fun kv => encodeField zc opts kv.1 kv.2)
  let fields := assignOffsets (encoded.map (fun p => p.1))
  .ok (rootTag v, fields, encoded.map (fun p => p.2))

/-- Whitespace bytes recognised by the regex class `\s` that can occur
in ASCII header text (space, tab, LF, VT, FF, CR). -/
def isWsByte (b : Byte) : Bool :=
  b = 32 || b = 9 || b = 10 || b = 11 || b = 12 || b = 13

/-- Hexadecimal-digit bytes, the class `[0-9A-Fa-f]`. -/
def isHexByte (b : Byte) : Bool :=
  inRange 48 57 b || inRange 65 70 b || inRange 97 102 b

/-- ASCII bytes of the literal `"header_crc32_hex"` including the
surrounding quote characters. -/
def crcKeyLit : List Byte :=
  [34, 104, 101, 97, 100, 101, 114, 95, 99, 114, 99, 51, 50, 95, 104,
   101, 120, 34]

/-- Eight ASCII zero digits, the CRC placeholder value. -/
def zeros8 : List Byte := [48, 48, 48, 48, 48, 48, 48, 48]

/-- Whether `l` begins with the pattern `pre`. -/
def listStartsWith {α : Type} [DecidableEq α] : List α → List α → Bool
  | [], _ => true
  | _ :: _, [] => false
  | a :: as1, b :: bs1 => a = b && listStartsWith as1 bs1

/-- Match of the precise regex CRC_RE (src/header.rs)
`"header_crc32_hex"(\s*:\s*)"([0-9A-Fa-f]8)"` at the head of `l`,
returning the text with the hex value replaced by the placeholder and
the captured whitespace kept (the replacement template
`"header_crc32_hex"$1"00000000"`). -/
def matchCrcPrimary (l : List Byte) : Option (List Byte) :=
  if listStartsWith crcKeyLit l then
    let rest0 := l.drop crcKeyLit.length
    let ws1 := rest0.takeWhile isWsByte
    match rest0.drop ws1.length with
    | 58 :: rest2 =>
      let ws2 := rest2.takeWhile isWsByte
      match rest2.drop ws2.length with
      | 34 :: rest4 =>
        let hex := rest4.take 8
        if hex.length = 8 && hex.all isHexByte then
          match rest4.drop 8 with
          | 34 :: rest5 =>
            some (crcKeyLit ++ (ws1 ++ ([58] ++ (ws2 ++ ([34] ++ (zeros8
                  ++ ([34] ++ rest5)))))))
          | _ => none
        else none
      | _ => none
    | _ => none
  else none

/-- Leftmost-first application of CRC_RE: scan for the first position
where the pattern matches, replacing only that occurrence (the
behaviour of `Regex::replace`). -/
def substCrcPrimary : List Byte → Option (List Byte)
  | [] => none
  | b :: t =>
    match matchCrcPrimary (b :: t) with
    | some r => some r
    | none => (substCrcPrimary t).map (fun r => b :: r)

/-- Match of the fallback regex CRC_FALLBACK_RE (src/header.rs)
`"header_crc32_hex"\s*:\s*"[^"]+"` at the head of `l`, replaced by the
compact text `"header_crc32_hex":"00000000"`. -/
def matchCrcFallback (l : List Byte) : Option (List Byte) :=
  if listStartsWith crcKeyLit l then
    let rest0 := l.drop crcKeyLit.length
    let ws1 := rest0.takeWhile isWsByte
    match rest0.drop ws1.length with
    | 58 :: rest2 =>
      let ws2 := rest2.takeWhile isWsByte
      match rest2.drop ws2.length with
      | 34 :: rest4 =>
        let val := rest4.takeWhile (fun b => b != 34)
        if val.length = 0 then none
        else
          match rest4.drop val.length with
          | 34 :: rest5 =>
            some (crcKeyLit ++ ([58] ++ ([34] ++ (zeros8 ++ ([34] ++ rest5)))))
          | _ => none
      | _ => none
    | _ => none
  else none

/-- Leftmost-first application of the fallback regex. -/
def substCrcFallback : List Byte → Option (List Byte)
  | [] => none
  | b :: t =>
    match matchCrcFallback (b :: t) with
    | some r => some r
    | none => (substCrcFallback t).map (fun r => b :: r)

/-- Source: `header_json_with_placeholder_crc` (src/header.rs).  The
precise pattern is tried first; if its replacement leaves the text
unchanged (either because it did not match, or because the value was
already `00000000` so the replacement was a no-op), the fallback
pattern is applied; if neither matches, the text is returned as is. -/
def headerJsonWithPlaceholderCrc (json : List Byte) : List Byte :=
  let fallback :=
    match substCrcFallback json with
    | some r => r
    | none => json
  match substCrcPrimary json with
  | some r => if r = json then fallback else r
  | none => fallback

/-- Upper-case hexadecimal digit byte of a value below 16 (the format
`{:08X}` of the source emits upper-case digits). -/
def hexDigitByte (d : Nat) : Byte := if d < 10 then 48 + d else 55 + d

/-- Eight-digit upper-case hexadecimal text of a u32 (`format {:08X}`). -/
def hex8 (n : Nat) : List Byte :=
  [hexDigitByte (n / 16 ^ 7 % 16), hexDigitByte (n / 16 ^ 6 % 16),
   hexDigitByte (n / 16 ^ 5 % 16), hexDigitByte (n / 16 ^ 4 % 16),
   hexDigitByte (n / 16 ^ 3 % 16), hexDigitByte (n / 16 ^ 2 % 16),
   hexDigitByte (n / 16 % 16), hexDigitByte (n % 16)]

/-- Source: `compute_header_crc32_hex_from_original_json` (src/header.rs). -/
def computeHeaderCrcHex (json : List Byte) : List Byte :=
  hex8 (crc32 (headerJsonWithPlaceholderCrc json))

/-- Rust `str::trim` on header-CRC text (the stored value is ASCII in
every reachable header, so ASCII whitespace suffices). -/
def trimBytes (l : List Byte) : List Byte :=
  ((l.dropWhile isWsByte).reverse.dropWhile isWsByte).reverse

/-- Rust `u8::to_ascii_uppercase` on a byte. -/
def upperByte (b : Byte) : Byte := if 97 ≤ b ∧ b ≤ 122 then b - 32 else b

/-- Rust `str::to_ascii_uppercase` on byte text. -/
def asciiUpperBytes (l : List Byte) : List Byte := l.map upperByte

/-- Source: `validate_header_crc` (src/header.rs). -/
def validateHeaderCrc (storedHex : List Byte) (json : List Byte) : Except GbfErr Unit :=
  if trimBytes storedHex = [] then .ok ()
  else
    let expected := asciiUpperBytes (trimBytes storedHex)
    let got := computeHeaderCrcHex json
    if expected ≠ got then .error (.headerCrcMismatch expected got)
    else .ok ()

/-- Model of `Header` (src/header.rs).  The serde field `producer_version`
is the Rust field `matlab_version`. -/
structure Header where
  format : String
  magic : String
  version : Nat
  endianness : String
  order : String
  root : String
  createdUtc : String
  matlabVersion : String
  fields : List FieldMeta
  payloadStart : Nat
  fileSize : Nat
  headerCrcHex : List Byte
  deriving Repr, DecidableEq

/-- The magic bytes `GREDBIN\0` (src/header.rs MAGIC_BYTES). -/
def magicBytes : List Byte := [71, 82, 69, 68, 66, 73, 78, 0]

/-- Validation portion of `read_header_and_json` (src/codec.rs lines
951-977), after the header JSON has parsed: header CRC, then the
stored/actual file-size comparison (only when the stored value is
positive), then the stored/computed payload-start comparison (only when
the stored value is positive). -/
def validateHeaderRead (h : Header) (json : List Byte) (actualFileSize headerLen : Nat)
    (validate : Bool) : Except GbfErr Unit :=
  if validate then do
    validateHeaderCrc h.headerCrcHex json
    if h.fileSize > 0 ∧ actualFileSize ≠ h.fileSize then
      .error (.fileSizeMismatch h.fileSize actualFileSize)
    else if h.payloadStart > 0 ∧ h.payloadStart ≠ 8 + 4 + headerLen then
      .error (.format ("payload_start mismatch"))
    else .ok ()
  else .ok ()

/-- Source: `field_payload_start` (src/codec.rs). -/
def fieldPayloadStart (headerLen : Nat) (headerPayloadStart : Nat) : Nat :=
  if headerPayloadStart > 0 then headerPayloadStart else 8 + 4 + headerLen

/-- Replacement of the header CRC field. -/
def setCrcHex (h : Header) (x : List Byte) : Header := { h with headerCrcHex := x }

/-- One iteration of the closure loop of `write_file`: the CRC computed
over the serialization with placeholder CRC, newline included
(`json_for_crc_nl`). -/
def crcOf (ser : Header → List Byte) (h : Header) : List Byte :=
  computeHeaderCrcHex (ser (setCrcHex h zeros8) ++ [10])

/-- One iteration: the final serialization with the CRC value set,
newline included (`json_final_nl`). -/
def jsonFinalOf (ser : Header → List Byte) (h : Header) : List Byte :=
  ser (setCrcHex (setCrcHex h zeros8) (crcOf ser h)) ++ [10]

/-- One iteration: `header_len` (the byte length as a u32). -/
def lenWOf (ser : Header → List Byte) (h : Header) : Nat :=
  (jsonFinalOf ser h).length % 2 ^ 32

/-- One iteration: `payload_start = 8 + 4 + header_len`. -/
def psOf (ser : Header → List Byte) (h : Header) : Nat :=
  8 + 4 + lenWOf ser h

/-- One iteration: `file_size = payload_start + payload_bytes_total`
(u64 addition). -/
def fsOf (ser : Header → List Byte) (totalPayload : Nat) (h : Header) : Nat :=
  (psOf ser h + totalPayload) % 2 ^ 64

/-- One iteration: the updated header (CRC, payload_start, file_size). -/
def iterHeaderOf (ser : Header → List Byte) (totalPayload : Nat) (h : Header) : Header :=
  { setCrcHex (setCrcHex h zeros8) (crcOf ser h) with
    payloadStart := psOf ser h, fileSize := fsOf ser totalPayload h }

/-- The loop's stability test: the header's payload_start and file_size
already equal the recomputed values, and the serialization and its
length are unchanged from the previous iteration (the header whose
serialization is compared carries the previous iteration's
payload_start/file_size, which `setCrcHex` does not touch). -/
def closureStable (ser : Header → List Byte) (totalPayload : Nat) (h : Header)
    (prevJson : List Byte) (prevLen : Nat) : Bool :=
  h.payloadStart = psOf ser h && h.fileSize = fsOf ser totalPayload h
    && prevLen = lenWOf ser h && prevJson = jsonFinalOf ser h

/-- Fixed-point closure loop of `write_file` (src/codec.rs lines
1326-1377), parametric in the JSON serializer `ser` (serde_json, which
appends no newline itself; the source pushes one `\n` byte).  `fuel`
counts remaining iterations (10 at the start); `prevJson`/`prevLen` are
`header_json_final`/`header_len_final` of the previous iteration.  The
returned flag records whether the loop exited through the stability
break. -/
def closureRun (ser : Header → List Byte) (totalPayload : Nat) :
    Nat → Header → List Byte → Nat → (Header × List Byte × Nat × Bool)
  | 0, h, prevJson, prevLen => (h, prevJson, prevLen, false)
  | fuel + 1, h, prevJson, prevLen =>
    if closureStable ser totalPayload h prevJson prevLen then
      (iterHeaderOf ser totalPayload h, jsonFinalOf ser h, lenWOf ser h, true)
    else closureRun ser totalPayload fuel (iterHeaderOf ser totalPayload h)
      (jsonFinalOf ser h) (lenWOf ser h)

/-- The closure loop as started by `write_file`: placeholder CRC,
`payload_start = 0`, `file_size = 0`, empty previous serialization, 10
iterations. -/
def closureFromStart (ser : Header → List Byte) (totalPayload : Nat)
    (h0 : Header) : Header × List Byte × Nat × Bool :=
  closureRun ser totalPayload 10
    { h0 with payloadStart := 0, fileSize := 0, headerCrcHex := zeros8 } [] 0

/-- Rust `char::str::split('.')` on a name. -/
def splitDots : Name → List Name
  | [] => [[]]
  | c :: t =>
    match splitDots t with
    | s :: rs => if c = '.' then [] :: (s :: rs) else (c :: s) :: rs
    | [] => [[c]]

/-- Part-by-part descent of `assign_by_path` (src/codec.rs lines
196-224).  The source creates missing intermediate nodes with
`entry(..).or_insert_with(Struct::new)` and then mutates them in place;
functionally this is: look the part up, recurse into the existing
struct (or an empty one), and re-insert. -/
def assignParts (v : GbfValue) : List Name → Smap → Except GbfErr Smap
  | [], _ => .error (.format ("invalid path"))
  | [p], m =>
    if p.isEmpty then .error (.format ("invalid path"))
    else .ok (minsert p v m)
  | p :: rest, m =>
    if p.isEmpty then .error (.format ("invalid path"))
    else
      match mlookup p m with
      | none => do
        let sub ← assignParts v rest []
        .ok (minsert p (.struct sub) m)
      | some (.struct sm) => do
        let sub ← assignParts v rest sm
        .ok (minsert p (.struct sub) m)
      | some _ => .error (.format ("path collision"))

/-- Source: `assign_by_path` (src/codec.rs). -/
def assignByPath (m : Smap) (path : Name) (v : GbfValue) : Except GbfErr Smap :=
  if path.isEmpty then .error (.format ("empty field name"))
  else assignParts v (splitDots path) m

/-- Source: `read_field_raw` (src/codec.rs lines 991-1022): the naive
single-field read.  `file` is the whole file's bytes, so `file.length`
is the file size returned by `metadata()`. -/
def readFieldRaw (file : List Byte) (payloadStart : Nat) (f : FieldMeta) :
    Except GbfErr (List Byte) :=
  if f.csize > maxFieldBytes then
    .error (.unsupported ("field csize exceeds configured limit"))
  else if f.usize > maxFieldBytes then
    .error (.unsupported ("field usize exceeds configured limit"))
  else do
    let pos ← checkedAddU64 payloadStart f.offset
    let endPos ← checkedAddU64 pos f.csize
    if endPos > file.length then
      .error (.fieldOutOfBounds f.name f.offset f.csize (file.length - payloadStart))
    else .ok (sliceAt file pos f.csize)

/-- Message extraction for the `DecompressionFailed` wrapper (the source
stringifies the inner error). -/
def gbfErrMessage : GbfErr → String
  | .format m => m
  | .unsupported m => m
  | _ => ""

/-- Source: `decode_field_bytes` (src/codec.rs lines 1024-1064). -/
def decodeFieldBytes (zd : List Byte → Except String (List Byte))
    (field : FieldMeta) (compBytes : List Byte) (validate : Bool) :
    Except GbfErr (List Byte) := do
  let maxOut := if field.usize > 0 then field.usize else maxFieldBytes
  let raw ← if eqIgnoreAsciiCase field.compression "zlib" then
      match zlibDecompress zd compBytes maxOut with
      | .error e => .error (.decompressionFailed field.name (gbfErrMessage e))
      | .ok r => .ok r
    else
      if compBytes.length > maxFieldBytes then
        .error (.unsupported ("field raw payload exceeds configured limit"))
      else .ok compBytes
  if validate ∧ field.usize > 0 ∧ raw.length ≠ field.usize then
    .error (.fieldSizeMismatch field.name field.usize raw.length)
  else if validate ∧ field.crc32 ≠ 0 ∧ crc32 raw ≠ field.crc32 then
    .error (.fieldCrcMismatch field.name field.crc32 (crc32 raw))
  else .ok raw

/-- The pseudo-name `<coalesced>` used in group out-of-bounds errors. -/
def coalescedName : Name := ['<', 'c', 'o', 'a', 'l', 'e', 's', 'c', 'e', 'd', '>']

/-- The `flush_group` closure of `coalesced_read` (src/codec.rs lines
1084-1115).  The source slices `buf[rel..rel + csz]`, which is in
bounds in every state the loop reaches (proved in the refinement
theorem); the model's `sliceAt` agrees there. -/
def flushGroup (file : List Byte) (payloadStart gStart gEnd : Nat)
    (gFields : List FieldMeta) : Except GbfErr (List (Name × List Byte)) := do
  let size := gEnd - gStart
  let pos ← checkedAddU64 payloadStart gStart
  let endPos ← checkedAddU64 pos size
  if endPos > file.length then
    .error (.fieldOutOfBounds coalescedName gStart size (file.length - payloadStart))
  else
    let buf := sliceAt file pos size
    .ok (gFields.map (fun f => (f.name, sliceAt buf (f.offset - gStart) f.csize)))

/-- Grouping loop of `coalesced_read` (src/codec.rs lines 1117-1138). -/
def coalLoop (file : List Byte) (payloadStart : Nat) :
    List FieldMeta → Nat → Nat → List FieldMeta → List (Name × List Byte) →
    Except GbfErr (List (Name × List Byte))
  | [], gStart, gEnd, gFields, out => do
    let g ← flushGroup file payloadStart gStart gEnd gFields
    .ok (out ++ g)
  | f :: rest, gStart, gEnd, gFields, out => do
    let fEnd ← checkedAddU64 f.offset f.csize
    let gap := if f.offset > gEnd then f.offset - gEnd else 0
    let newGroupSize := fEnd - gStart
    if gap ≤ 4096 && newGroupSize ≤ 8 * 1024 * 1024 then
      coalLoop file payloadStart rest gStart (max gEnd fEnd) (gFields ++ [f]) out
    else do
      let g ← flushGroup file payloadStart gStart gEnd gFields
      coalLoop file payloadStart rest f.offset fEnd [f] (out ++ g)

/-- Rust's stable `sort_by_key(|f| f.offset)` modelled as a stable
insertion sort by offset. -/
def sortFieldsByOffset (fields : List FieldMeta) : List FieldMeta :=
  List.insertionSort (fun a b => a.offset ≤ b.offset) fields

/-- Source: `coalesced_read` (src/codec.rs lines 1066-1139). -/
def coalescedRead (file : List Byte) (payloadStart : Nat)
    (fields : List FieldMeta) : Except GbfErr (List (Name × List Byte)) :=
  match sortFieldsByOffset fields with
  | [] => .ok []
  | f0 :: rest => do
    let gEnd0 ← checkedAddU64 f0.offset f0.csize
    coalLoop file payloadStart rest f0.offset gEnd0 [f0] []

/-- Bytes of the file as written: magic, header length (u32 LE), header
JSON bytes (with trailing newline), payload chunks in offset order. -/
def fileBytes (json payload : List Byte) : List Byte :=
  magicBytes ++ (u32le json.length ++ (json ++ payload))

/-- Magic / header-length gate and validation of
`read_header_and_json` (src/codec.rs lines 931-980).  The magic always
matches for a file of the modelled shape; the header-length bounds keep
the u32 read of the length unwrapped. -/
def readHeaderChecks (h : Header) (json payload : List Byte) (validate : Bool) :
    Except GbfErr Unit :=
  if json.length < 2 ∨ json.length > maxHeaderLen then
    .error (.format ("invalid header_len"))
  else
    validateHeaderRead h json (fileBytes json payload).length json.length validate

/-- Source: `read_file` (src/codec.rs lines 1141-1179), for a file
already split into its parsed header, its header JSON bytes and its
payload bytes. -/
def readFileModel (zd : List Byte → Except String (List Byte)) (h : Header)
    (json payload : List Byte) (validate : Bool) : Except GbfErr GbfValue := do
  readHeaderChecks h json payload validate
  let payloadStart := fieldPayloadStart json.length h.payloadStart
  let file := fileBytes json payload
  let chunks ← coalescedRead file payloadStart h.fields
  let out ← chunks.foldlM (fun acc nb =>
      match h.fields.find? (fun f => f.name = nb.1) with
      | none => .error (.format ("internal field lookup failure"))
      | some field => do
        let raw ← decodeFieldBytes zd field nb.2 validate
        let val ← decodeLeaf field raw
        assignByPath acc field.name val) ([] : Smap)
  if eqIgnoreAsciiCase h.root "single" then
    match mlookup dataName out with
    | some v => .ok v
    | none =>
      match out with
      | (_, v) :: _ => .ok v
      | [] => .ok (.struct out)
  else .ok (.struct out)

/-- Rust `str::trim` on a query path (`char::is_whitespace`). -/
def trimName (p : Name) : Name :=
  ((p.dropWhile Char.isWhitespace).reverse.dropWhile Char.isWhitespace).reverse

/-- Source: `read_var` (src/codec.rs lines 1181-1230). -/
def readVarModel (zd : List Byte → Except String (List Byte)) (h : Header)
    (json payload : List Byte) (varPath : Name) (validate : Bool) :
    Except GbfErr GbfValue := do
  readHeaderChecks h json payload validate
  let payloadStart := fieldPayloadStart json.length h.payloadStart
  let file := fileBytes json payload
  let q := trimName varPath
  if q.isEmpty then readFileModel zd h json payload validate
  else
    match h.fields.find? (fun f => f.name = q) with
    | some field => do
      let compBytes ← readFieldRaw file payloadStart field
      let raw ← decodeFieldBytes zd field compBytes validate
      decodeLeaf field raw
    | none =>
      let pfx := q ++ ['.']
      let subtreeFields := h.fields.filter (fun f => listStartsWith pfx f.name)
      if subtreeFields.isEmpty then .error (.varNotFound q)
      else do
        let chunks ← coalescedRead file payloadStart subtreeFields
        let out ← chunks.foldlM (fun acc nb =>
            match subtreeFields.find? (fun f => f.name = nb.1) with
            | none => .error (.format ("internal field lookup failure"))
            | some field => do
              let raw ← decodeFieldBytes zd field nb.2 validate
              let val ← decodeLeaf field raw
              assignByPath acc (field.name.drop pfx.length) val) ([] : Smap)
        .ok (.struct out)

/-- Header record the writer emits for `writeCore` output, once the
fixed-point closure has converged: `payload_start` and `file_size` are
the stabilized values determined by the serialized header length, and
the stored CRC is the header-CRC protocol applied to the serialized
bytes (`closureRun` and `computeHeaderCrcHex` model the closure and the
protocol themselves). -/
def writtenHeader (root : String) (fields : List FieldMeta) (json : List Byte) : Header :=
  { format := "GBF", magic := "GREDBIN", version := 1,
    endianness := "little", order := "column-major", root := root,
    createdUtc := "", matlabVersion := "",
    fields := fields,
    payloadStart := 8 + 4 + json.length,
    fileSize := (8 + 4 + json.length + payloadTotal fields) % 2 ^ 64,
    headerCrcHex := computeHeaderCrcHex json }

/-- Write followed by read: `write_file` (its pure flatten, encode,
compress and offset stages, plus the stabilized header) composed with
`read_file` on the resulting file. -/
def writePipeline (zc : Nat → List Byte → List Byte)
    (zd : List Byte → Except String (List Byte)) (opts : WriteOptions)
    (validate : Bool) (json : List Byte) (v : GbfValue) :
    Except GbfErr GbfValue := do
  let (root, fields, chunks) ← writeCore zc opts v
  readFileModel zd (writtenHeader root fields json) json chunks.flatten validate

/-- Signed 16-bit range (`i16`). -/
def inI16 (x : Int) : Bool := decide (-(2 ^ 15) ≤ x ∧ x < 2 ^ 15)

/-- Signed 32-bit range (`i32`). -/
def inI32 (x : Int) : Bool := decide (-(2 ^ 31) ≤ x ∧ x < 2 ^ 31)

/-- Signed 64-bit range (`i64`). -/
def inI64 (x : Int) : Bool := decide (-(2 ^ 63) ≤ x ∧ x < 2 ^ 63)

/-- Metadata option well-formed for round-tripping: absent, or a
non-empty valid-UTF-8 string below the u32 length limit (an empty
`Some` is canonicalized to `None` by the codec and cannot round-trip). -/
def wfMetaOpt : Option (List Byte) → Bool
  | none => true
  | some s => !s.isEmpty && validUtf8 s && decide (s.length < 2 ^ 32)

/-- Strictly increasing keys, the invariant of `BTreeMap` iteration. -/
def smapSortedKeys : Smap → Bool
  | [] => true
  | [_] => true
  | (k1, _) :: (k2, v2) :: t =>
    nameLt k1 k2 && smapSortedKeys ((k2, v2) :: t)

mutual

/-- Well-formedness of a value for the round-trip theorem: the
component lengths demanded by the data model of the spec (sec. 3) hold,
integer components are within their declared machine ranges, textual
components are valid UTF-8 within the u32 framing limits, every struct
node is a non-empty sorted map whose keys are non-empty and dot-free,
and every leaf's raw encoding fits the 16 GiB field cap. -/
def wfVal : GbfValue → Bool
  | .struct m => !m.isEmpty && smapSortedKeys m && wfEntries m
  | .numeric a =>
    match elementCountChecked a.shape with
    | .error _ => false
    | .ok n =>
      let part := n * a.nclass.bytesPerElement
      decide (part < 2 ^ 64) && decide (a.real_le.length = part)
      && (match a.complex, a.imag_le with
          | false, none => true
          | true, some imag => decide (imag.length = part)
          | _, _ => false)
      && decide ((if a.complex then 2 * part else part) ≤ maxFieldBytes)
  | .logical a =>
    match elementCountChecked a.shape with
    | .error _ => false
    | .ok n => decide (a.data.length = n) && decide (n ≤ maxFieldBytes)
  | .char a =>
    match elementCountChecked a.shape with
    | .error _ => false
    | .ok n =>
      decide (a.data.length = n) && a.data.all (fun u => decide (u < 2 ^ 16))
      && decide (2 * n ≤ maxFieldBytes)
  | .string a =>
    match elementCountChecked a.shape with
    | .error _ => false
    | .ok n =>
      decide (a.data.length = n)
      && a.data.all (fun o => match o with
          | none => true
          | some s => validUtf8 s && decide (s.length < 2 ^ 32))
      && decide (a.data.foldl (fun acc o => acc + 5 +
            (match o with | some s => s.length | none => 0)) 0 ≤ maxFieldBytes)
  | .dateTime a =>
    match elementCountChecked a.shape with
    | .error _ => false
    | .ok n =>
      decide (a.is_nat.length = n) && decide (a.year.length = n)
      && decide (a.month.length = n) && decide (a.day.length = n)
      && decide (a.ms_day.length = n)
      && wfMetaOpt a.tz && wfMetaOpt a.locale && wfMetaOpt a.format
      && a.year.all inI16 && a.ms_day.all inI32
      && decide (13 + (a.tz.getD []).length + (a.locale.getD []).length
           + (a.format.getD []).length + 9 * n ≤ maxFieldBytes)
  | .duration a =>
    match elementCountChecked a.shape with
    | .error _ => false
    | .ok n =>
      decide (a.is_nan.length = n) && decide (a.ms.length = n)
      && a.ms.all inI64 && decide (9 * n ≤ maxFieldBytes)
  | .calendarDuration a =>
    match elementCountChecked a.shape with
    | .error _ => false
    | .ok n =>
      decide (a.is_missing.length = n) && decide (a.months.length = n)
      && decide (a.days.length = n) && decide (a.time_ms.length = n)
      && a.months.all inI32 && a.days.all inI32 && a.time_ms.all inI64
      && decide (17 * n ≤ maxFieldBytes)
  | .categorical a =>
    match elementCountChecked a.shape with
    | .error _ => false
    | .ok n =>
      decide (a.codes.length = n) && a.codes.all (fun c => decide (c < 2 ^ 32))
      && decide (a.categories.length < 2 ^ 32)
      && a.categories.all (fun c => validUtf8 c && decide (c.length < 2 ^ 32))
      && decide (4 + a.categories.foldl (fun acc c => acc + 4 + c.length) 0
           + 4 * n ≤ maxFieldBytes)
  | .emptyStruct => true

/-- Entry-wise struct conditions of `wfVal`. -/
def wfEntries : Smap → Bool
  | [] => true
  | (k, v) :: t => !k.isEmpty && !hasDot k && wfVal v && wfEntries t

end

mutual

/-- Number of leaves `flatten_to_leaves` would emit for a value. -/
def numLeaves : GbfValue → Nat
  | .struct m => numLeavesList m
  | _ => 1

/-- Leaf count of a key list. -/
def numLeavesList : Smap → Nat
  | [] => 0
  | (_, v) :: t => numLeaves v + numLeavesList t

end

/-- A value that `flatten_to_leaves` emits as a single leaf (everything
except a struct node). -/
def isLeafVal : GbfValue → Bool
  | .struct _ => false
  | _ => true

mutual

/-- Relative leaf paths of a value: the part lists under which
`flatten_to_leaves` emits each leaf, before joining with dots. -/
def leafPaths : GbfValue → List (List Name × GbfValue)
  | .struct m => leafPathsList m
  | v => [([], v)]

/-- Relative leaf paths of a key list. -/
def leafPathsList : Smap → List (List Name × GbfValue)
  | [] => []
  | (k, v) :: t =>
    (leafPaths v).map (fun p => (k :: p.1, p.2)) ++ leafPathsList t

end

/-- Joining path parts onto a prefix with dots, as the flattening
does. -/
def joinName (pre : Name) (parts : List Name) : Name :=
  parts.foldl (fun acc k => acc ++ '.' :: k) pre

/-- Joining a non-empty part list into a dotted name. -/
def joinParts : List Name → Name
  | [] => []
  | k :: ps => joinName k ps

/-- Folding `assign_by_path` over a list of named values, the shape of
the reader's reassembly loop. -/
def assignFold (items : List (Name × GbfValue)) (acc : Smap) :
    Except GbfErr Smap :=
  items.foldlM (fun acc nv => assignByPath acc nv.1 nv.2) acc

/-- Folding the part-level descent over a list of paths. -/
def assignPartsFold (items : List (List Name × GbfValue)) (m : Smap) :
    Except GbfErr Smap :=
  items.foldlM (fun m it => assignParts it.2 it.1 m) m

/-- The `Default` impl for `WriteOptions` (src/codec.rs lines 38-48):
compression on, Auto mode, level 1, CRC off, compact header. -/
def defaultWriteOptions : WriteOptions :=
  { compression := true, compressionMode := .auto, compressionLevel := 1,
    crc := false, prettyHeader := false }

/-- The exact-match branch body of `read_var` (src/codec.rs lines
1195-1203): naive raw read of the matched field, byte decoding, leaf
decoding. -/
def readVarExact (zd : List Byte → Except String (List Byte))
    (file : List Byte) (payloadStart : Nat) (field : FieldMeta)
    (validate : Bool) : Except GbfErr GbfValue := do
  let compBytes ← readFieldRaw file payloadStart field
  let raw ← decodeFieldBytes zd field compBytes validate
  decodeLeaf field raw

/-- The prefix-match branch body of `read_var` (src/codec.rs lines
1206-1228): coalesced read of the prefix-matching fields, decoded and
assembled at paths relative to the query prefix `pfx`. -/
def readVarSubtree (zd : List Byte → Except String (List Byte))
    (file : List Byte) (payloadStart : Nat) (pfx : Name)
    (subtreeFields : List FieldMeta) (validate : Bool) :
    Except GbfErr GbfValue := do
  let chunks ← coalescedRead file payloadStart subtreeFields
  let out ← chunks.foldlM (fun acc nb =>
      match subtreeFields.find? (fun f => f.name = nb.1) with
      | none => .error (.format ("internal field lookup failure"))
      | some field => do
        let raw ← decodeFieldBytes zd field nb.2 validate
        let val ← decodeLeaf field raw
        assignByPath acc (field.name.drop pfx.length) val) ([] : Smap)
  .ok (.struct out)

/-- The root dispatch at the end of `read_file` (src/codec.rs lines
1171-1178): a `single` root unwraps the `data` entry (with the
source's fallbacks), any other root returns the struct. -/
def rootFinish (root : String) (out : Smap) : Except GbfErr GbfValue :=
  if eqIgnoreAsciiCase root ("single") then
    match mlookup dataName out with
    | some w => .ok w
    | none =>
      match out with
      | (_, w) :: _ => .ok w
      | [] => .ok (.struct out)
  else .ok (.struct out)

/-- The computation does not fail with `VarNotFound` (for any path):
the predicate used to show `read_var` alone raises that error. -/
def notVNF {α : Type} (r : Except GbfErr α) : Prop :=
  ∀ q : Name, r ≠ .error (.varNotFound q)

/-- Reduction of `Except.bind` on a success value. -/
theorem exceptBind_ok {e a b : Type} (x : a) (f : a → Except e b) :
    (Except.ok x : Except e a).bind f = f x := rfl

/-- Reduction of `Except.bind` on an error value. -/
theorem exceptBind_err {e a b : Type} (err : e) (f : a → Except e b) :
    (Except.error err : Except e a).bind f = .error err := rfl

/-- C2 claim, code_bug evidence.  `write_file` routes each root entry
through `flatten_to_leaves` with the key as prefix, so the root map's
own keys are never dot-checked: writing a root struct with key `a.b`
succeeds and emits a field literally named `a.b` (first conjunct),
while the check the claim describes fires as soon as a struct value
passes through `flatten_to_leaves` itself (second conjunct). -/
theorem dotted_top_level_key_is_written :
    writeCore (fun _ x => x) defaultWriteOptions
        (.struct [(['a', '.', 'b'], .emptyStruct)])
      = .ok ("struct",
          [{ name := ['a', '.', 'b'], kind := "struct", className := "struct",
             shape := [1, 1], complex := false, encoding := "empty-scalar-struct",
             compression := "none", offset := 0, csize := 0, usize := 0,
             crc32 := 0 }],
          [[]])
    ∧ flattenToLeaves (.struct [(['a', '.', 'b'], .emptyStruct)]) []
      = .error (.unsupported ("struct key contains dot, not supported in GBF paths")) := by
  exact ⟨rfl, rfl⟩

/-- C3 counterexample: a Logical leaf whose data length (0) differs
from N = 1 is accepted by `encode_leaf`, contradicting the claim that
it is rejected. -/
theorem logical_length_mismatch_not_rejected :
    encodeLeaf (.logical { shape := [1, 1], data := [] })
      = .ok { raw := [], kind := "logical", className := "logical",
              shape := [1, 1], complex := false, encoding := "" } := rfl

/-- C3 amended: `encode_leaf` rejects declared-shape/component-length
inconsistencies for numeric, string, datetime, duration,
calendarDuration and categorical leaves, but Logical and Char leaves
are emitted without any length check (the mismatch is only caught by
the size check of `decode_leaf` on read). -/
theorem encode_leaf_length_checks :
    (∀ (a : NumericArray) (n : Nat), elementCountChecked a.shape = .ok n →
       n * a.nclass.bytesPerElement < 2 ^ 64 →
       a.real_le.length ≠ n * a.nclass.bytesPerElement →
       encodeLeaf (.numeric a) = .error (.format ("numeric real_le size mismatch")))
    ∧ (∀ (a : StringArray) (n : Nat), elementCountChecked a.shape = .ok n →
       a.data.length ≠ n →
       encodeLeaf (.string a) = .error (.format ("string shape and data length mismatch")))
    ∧ (∀ (a : DateTimeArray) (n : Nat), elementCountChecked a.shape = .ok n →
       a.is_nat.length ≠ n →
       encodeLeaf (.dateTime a) = .error (.format ("datetime inconsistent component lengths")))
    ∧ (∀ (a : DurationArray) (n : Nat), elementCountChecked a.shape = .ok n →
       a.is_nan.length ≠ n →
       encodeLeaf (.duration a) = .error (.format ("duration inconsistent lengths")))
    ∧ (∀ (a : CalendarDurationArray) (n : Nat), elementCountChecked a.shape = .ok n →
       a.is_missing.length ≠ n →
       encodeLeaf (.calendarDuration a) = .error (.format ("calendarDuration inconsistent lengths")))
    ∧ (∀ (a : CategoricalArray) (n : Nat), elementCountChecked a.shape = .ok n →
       a.codes.length ≠ n →
       encodeLeaf (.categorical a) = .error (.format ("categorical codes length mismatch")))
    ∧ (∀ a : LogicalArray,
       encodeLeaf (.logical a)
         = .ok { raw := a.data, kind := "logical", className := "logical",
                 shape := a.shape, complex := false, encoding := "" })
    ∧ (∀ a : CharArray,
       encodeLeaf (.char a)
         = .ok { raw := (a.data.map u16le).flatten, kind := "char",
                 className := "char", shape := a.shape, complex := false,
                 encoding := "utf-16-codeunits" }) := by
  refine ⟨?_, ?_, ?_, ?_, ?_, ?_, ?_, ?_⟩
  · intro a n hn hlt hne
    simp only [encodeLeaf, hn, bind, exceptBind_ok, mulUsize, if_pos hlt]
    simp [hne]
  · intro a n hn hne
    simp only [encodeLeaf, hn, bind, exceptBind_ok]
    simp [hne]
  · intro a n hn hne
    simp only [encodeLeaf, hn, bind, exceptBind_ok]
    simp [hne]
  · intro a n hn hne
    simp only [encodeLeaf, hn, bind, exceptBind_ok]
    simp [hne]
  · intro a n hn hne
    simp only [encodeLeaf, hn, bind, exceptBind_ok]
    simp [hne]
  · intro a n hn hne
    simp only [encodeLeaf, hn, bind, exceptBind_ok]
    simp [hne]
  · intro a
    rfl
  · intro a
    rfl

/-- C3 witness: the amended checks applied at concrete inputs. -/
theorem encode_leaf_length_checks_witness :
    encodeLeaf (.numeric
        { nclass := .double, shape := [1, 1], complex := false,
          real_le := [], imag_le := none })
      = .error (.format ("numeric real_le size mismatch"))
    ∧ encodeLeaf (.string { shape := [1, 1], data := [] })
      = .error (.format ("string shape and data length mismatch"))
    ∧ encodeLeaf (.char { shape := [2, 2], data := [7] })
      = .ok
          { raw := [7, 0], kind := "char", className := "char",
            shape := [2, 2], complex := false, encoding := "utf-16-codeunits" } := by
  refine ⟨?_, ?_, ?_⟩
  · exact encode_leaf_length_checks.1
      { nclass := .double, shape := [1, 1], complex := false,
        real_le := [], imag_le := none } 1 rfl (by decide) (by decide)
  · exact encode_leaf_length_checks.2.1
      { shape := [1, 1], data := [] } 1 rfl (by decide)
  · exact encode_leaf_length_checks.2.2.2.2.2.2.2
      { shape := [2, 2], data := [7] }

/-- At most 256 distinct byte values occur in a list of bytes. -/
theorem countUniqueBytes_le_256 (l : List Byte) (hb : ∀ b ∈ l, b < 256) :
    countUniqueBytes l ≤ 256 := by
  have hnd : l.dedup.Nodup := l.nodup_dedup
  have hsub : l.dedup.toFinset ⊆ Finset.range 256 := by
    intro x hx
    rw [List.mem_toFinset, List.mem_dedup] at hx
    exact Finset.mem_range.mpr (hb x hx)
  calc countUniqueBytes l = l.dedup.toFinset.card :=
        (List.toFinset_card_of_nodup hnd).symm
    _ ≤ (Finset.range 256).card := Finset.card_le_card hsub
    _ = 256 := Finset.card_range 256

/-- Zeta-reduced equation for `shouldTryCompress`. -/
theorem shouldTryCompress_eq (kind className : String) (raw : List Byte) :
    shouldTryCompress kind className raw =
      (if raw.length < 1024 then false
       else if (kind = "numeric" && (className = "double" || className = "single")
                && decide (raw.length < 65536)) = true then false
       else if min raw.length 4096 = 0 then false
       else decide (20 * countUniqueBytes (raw.take (min raw.length 4096))
              ≤ 19 * min raw.length 4096)) := rfl

/-- On constant payloads of at least 1 KiB (and 64 KiB for float
numeric classes) the Auto heuristic always selects compression: the
sample has a single distinct byte value. -/
theorem shouldTryCompress_replicate (kind className : String) (n : Nat) (b : Byte)
    (h1 : 1024 ≤ n)
    (h2 : (kind = "numeric" ∧ (className = "double" ∨ className = "single")) →
      65536 ≤ n) :
    shouldTryCompress kind className (List.replicate n b) = true := by
  rw [shouldTryCompress_eq]
  rw [List.length_replicate]
  rw [if_neg (by omega)]
  have hcond : (kind = "numeric" && (className = "double" || className = "single")
      && decide (n < 65536)) = false := by
    by_cases hk : kind = "numeric" ∧ (className = "double" ∨ className = "single")
    · have := h2 hk
      have hd : decide (n < 65536) = false := by simp; omega
      rw [hd, Bool.and_false]
    · rcases not_and_or.mp hk with hk1 | hk2
      · have : (kind = "numeric" : Bool) = false := by simpa using hk1
        rw [this, Bool.false_and, Bool.false_and]
      · have : (className = "double" || className = "single") = false := by
          rcases not_or.mp hk2 with ⟨hna, hnb⟩
          simp [hna, hnb]
        rw [this, Bool.and_false, Bool.false_and]
  rw [hcond]
  simp only [Bool.false_eq_true, if_false]
  rw [if_neg (by omega)]
  rw [List.take_replicate]
  have hmin : min (min n 4096) n = min n 4096 := by omega
  rw [hmin]
  have hded : countUniqueBytes (List.replicate (min n 4096) b) = 1 := by
    unfold countUniqueBytes
    rw [List.replicate_dedup (by omega)]
    rfl
  rw [hded]
  simp only [decide_eq_true_eq]
  omega

/-- Sampled unique-byte count of a large constant payload. -/
theorem sample_unique_replicate (n : Nat) (b : Byte) (h : 4096 ≤ n) :
    20 * countUniqueBytes ((List.replicate n b).take 4096) ≤ 19 * 4096 := by
  rw [List.take_replicate]
  have hmin : min 4096 n = 4096 := by omega
  rw [hmin]
  unfold countUniqueBytes
  rw [List.replicate_dedup (by omega)]
  norm_num

/-- C4 counterexample: for the all-zero 1024×1024 f32 matrix (4 MiB of
zero bytes, written under Auto), the sampled unique-byte count is 1, so
the ratio is 1/4096 — far below 0.95, contradicting the claim that the
ratio exceeds 0.95 — and the matrix IS selected for compression. -/
theorem f32_matrix_auto_entropy_not_high :
    20 * countUniqueBytes ((List.replicate (1024 * 1024 * 4) 0).take 4096) ≤ 19 * 4096
    ∧ shouldTryCompress "numeric" "single" (List.replicate (1024 * 1024 * 4) 0) = true :=
  ⟨sample_unique_replicate (1024 * 1024 * 4) 0 (by norm_num),
   shouldTryCompress_replicate "numeric" "single" (1024 * 1024 * 4) 0
     (by norm_num) (fun _ => by norm_num)⟩

/-- C4 amended: under Auto a leaf is selected for compression exactly
when its raw size is at least 1 KiB and (for numeric double/single
leaves) at least 64 KiB: the entropy conjunct — sampled unique-byte
ratio at most 0.95 over the first min(raw_len, 4096) bytes — always
holds once those thresholds pass, because the sample has at least 1024
bytes but at most 256 distinct byte values.  Consequently a 1024×1024
f32 matrix under Auto is selected for compression, and is stored with
compression `none` only when zlib fails to produce a strictly smaller
output. -/
theorem shouldTryCompress_characterization (kind className : String) (raw : List Byte)
    (hb : ∀ b ∈ raw, b < 256) :
    shouldTryCompress kind className raw = true ↔
      (1024 ≤ raw.length ∧
        ((kind = "numeric" ∧ (className = "double" ∨ className = "single")) →
          65536 ≤ raw.length)) := by
  rw [shouldTryCompress_eq]
  by_cases h1 : raw.length < 1024
  · rw [if_pos h1]
    constructor
    · intro h; cases h
    · rintro ⟨h2, -⟩; omega
  · rw [if_neg h1]
    have hent : 20 * countUniqueBytes (raw.take (min raw.length 4096))
        ≤ 19 * min raw.length 4096 := by
      have hle : countUniqueBytes (raw.take (min raw.length 4096)) ≤ 256 :=
        countUniqueBytes_le_256 _ (fun b hbm => hb b (List.mem_of_mem_take hbm))
      omega
    by_cases hp : kind = "numeric" ∧ (className = "double" ∨ className = "single")
    · obtain ⟨hk, hc⟩ := hp
      by_cases h65 : raw.length < 65536
      · have hcond : (kind = "numeric" && (className = "double" || className = "single")
            && decide (raw.length < 65536)) = true := by
          rcases hc with h | h <;> simp [hk, h, h65]
        rw [hcond]
        simp only [if_pos rfl]
        constructor
        · intro h; cases h
        · rintro ⟨-, himp⟩
          have := himp ⟨hk, hc⟩
          omega
      · have hcond : (kind = "numeric" && (className = "double" || className = "single")
            && decide (raw.length < 65536)) = false := by
          have : decide (raw.length < 65536) = false := by simpa using h65
          rw [this, Bool.and_false]
        rw [hcond]
        simp only [Bool.false_eq_true, if_false]
        rw [if_neg (by omega)]
        simp only [decide_eq_true_eq]
        constructor
        · intro _; exact ⟨by omega, fun _ => by omega⟩
        · intro _; exact hent
    · have hcond : (kind = "numeric" && (className = "double" || className = "single")
          && decide (raw.length < 65536)) = false := by
        rcases not_and_or.mp hp with hk1 | hk2
        · have : (kind = "numeric" : Bool) = false := by simpa using hk1
          rw [this, Bool.false_and, Bool.false_and]
        · have : (className = "double" || className = "single") = false := by
            rcases not_or.mp hk2 with ⟨hna, hnb⟩
            simp [hna, hnb]
          rw [this, Bool.and_false, Bool.false_and]
      rw [hcond]
      simp only [Bool.false_eq_true, if_false]
      rw [if_neg (by omega)]
      simp only [decide_eq_true_eq]
      constructor
      · intro _; exact ⟨by omega, fun hkc => absurd hkc hp⟩
      · intro _; exact hent

/-- C4 witness: the amended characterization applied to a concrete
input — a 2 KiB constant logical payload is selected for compression. -/
theorem shouldTryCompress_characterization_witness :
    shouldTryCompress "logical" "logical" (List.replicate 2048 1) = true := by
  have hball : ∀ b ∈ List.replicate 2048 (1 : Byte), b < 256 := by
    intro b hbm
    have hb1 : b = 1 := List.eq_of_mem_replicate hbm
    subst hb1
    norm_num
  rw [shouldTryCompress_characterization "logical" "logical" (List.replicate 2048 1) hball]
  have hlen : (List.replicate 2048 (1 : Byte)).length = 2048 :=
    List.length_replicate ..
  refine ⟨by rw [hlen]; norm_num, fun h => ?_⟩
  exact absurd h.1 (by decide)

/-- Reduction of `pure` for `Except`. -/
theorem exceptPure {e a : Type} (x : a) : (pure x : Except e a) = .ok x := rfl

/-- A successful `mapM` maps members of the output back to members of
the input. -/
theorem mapM_mem_ok {α β : Type} (g : α → Except GbfErr β) :
    ∀ (l : List α) (out : List β), l.mapM g = Except.ok out →
      ∀ p ∈ out, ∃ kv ∈ l, g kv = Except.ok p := by
  intro l
  induction l with
  | nil =>
    intro out h p hp
    rw [List.mapM_nil, exceptPure] at h
    cases h
    cases hp
  | cons a t ih =>
    intro out h p hp
    rw [List.mapM_cons] at h
    cases hga : g a with
    | error e => rw [hga] at h; cases h
    | ok b =>
      rw [hga] at h
      simp only [bind, exceptBind_ok] at h
      cases hgt : t.mapM g with
      | error e => rw [hgt] at h; cases h
      | ok bs =>
        rw [hgt] at h
        simp only [bind, exceptBind_ok, exceptPure] at h
        cases h
        rcases List.mem_cons.mp hp with hpb | hpbs
        · exact ⟨a, List.mem_cons_self a t, hpb ▸ hga⟩
        · obtain ⟨kv, hkv, hg⟩ := ih bs hgt p hpbs
          exact ⟨kv, List.mem_cons_of_mem a hkv, hg⟩

/-- Members of the offset-assignment output come from the input with
only the offset changed. -/
theorem assignOffsetsGo_mem :
    ∀ (fs : List FieldMeta) (off : Nat) (f : FieldMeta),
      f ∈ assignOffsetsGo off fs → ∃ f0 ∈ fs,
        f.name = f0.name ∧ f.csize = f0.csize ∧ f.usize = f0.usize
        ∧ f.compression = f0.compression := by
  intro fs
  induction fs with
  | nil => intro off f hf; cases hf
  | cons g t ih =>
    intro off f hf
    rcases List.mem_cons.mp hf with hfg | hft
    · subst hfg
      exact ⟨g, List.mem_cons_self g t, rfl, rfl, rfl, rfl⟩
    · obtain ⟨f0, hf0, hcs⟩ := ih (satAddU64 off g.csize) f hft
      exact ⟨f0, List.mem_cons_of_mem g hf0, hcs⟩

/-- Per-field conclusions of the compression stage. -/
theorem encodeField_props (zc : Nat → List Byte → List Byte)
    (opts : WriteOptions) (name : Name) (v : GbfValue) (fm : FieldMeta)
    (stored : List Byte) (h : encodeField zc opts name v = .ok (fm, stored)) :
    (fm.compression = "zlib" → fm.csize < fm.usize)
    ∧ fm.csize ≤ fm.usize
    ∧ ((opts.compression = false ∨ opts.compressionMode = .never) →
        fm.compression = "none" ∧ fm.csize = fm.usize) := by
  unfold encodeField at h
  cases he : encodeLeaf v with
  | error e => rw [he] at h; cases h
  | ok e =>
    rw [he] at h
    simp only [bind, exceptBind_ok] at h
    cases h
    set tryCompress :=
      (if opts.compression = true then
        match opts.compressionMode with
        | CompressionMode.never => false
        | CompressionMode.always => decide (1024 ≤ e.raw.length)
        | CompressionMode.auto => shouldTryCompress e.kind e.className e.raw
      else false) with htc
    by_cases hk : (tryCompress
        && decide ((zlibCompress zc e.raw opts.compressionLevel).length < e.raw.length)) = true
    · simp only [hk, if_pos]
      simp only [Bool.and_eq_true, decide_eq_true_eq] at hk
      refine ⟨fun _ => hk.2, Nat.le_of_lt hk.2, fun hoff => ?_⟩
      exfalso
      rcases hoff with hc | hm
      · rw [htc] at hk
        rw [hc] at hk
        simp at hk
      · rw [htc] at hk
        rcases hk with ⟨hk1, -⟩
        by_cases hc2 : opts.compression = true
        · rw [if_pos hc2, hm] at hk1
          cases hk1
        · rw [if_neg hc2] at hk1
          cases hk1
    · rw [Bool.not_eq_true] at hk
      simp only [hk, Bool.false_eq_true, if_false]
      refine ⟨fun hz => absurd hz (by decide), Nat.le_refl _, fun _ => by simp⟩

/-- C5: for every field produced by the write pipeline, the compressed
form is kept only when strictly smaller than the raw bytes, so
`compression = "zlib"` implies `csize < usize` and always
`csize ≤ usize`; with compression disabled or mode Never every field
has `compression = "none"` and `csize = usize`. -/
theorem write_compression_monotonicity (zc : Nat → List Byte → List Byte)
    (opts : WriteOptions) (v : GbfValue) (root : String)
    (fields : List FieldMeta) (chunks : List (List Byte))
    (h : writeCore zc opts v = .ok (root, fields, chunks)) :
    ∀ f ∈ fields,
      (f.compression = "zlib" → f.csize < f.usize)
      ∧ f.csize ≤ f.usize
      ∧ ((opts.compression = false ∨ opts.compressionMode = .never) →
          f.compression = "none" ∧ f.csize = f.usize) := by
  intro f hf
  unfold writeCore at h
  cases hle : rootLeaves v with
  | error e => rw [hle] at h; cases h
  | ok leaves =>
    rw [hle] at h
    simp only [bind, exceptBind_ok] at h
    cases hmap : leaves.mapM (fun kv => encodeField zc opts kv.1 kv.2) with
    | error e => rw [hmap] at h; cases h
    | ok encoded =>
      rw [hmap] at h
      simp only [bind, exceptBind_ok] at h
      cases h
      unfold assignOffsets at hf
      obtain ⟨f0, hf0, hn, hcs, hus, hcomp⟩ :=
        assignOffsetsGo_mem (encoded.map (fun p => p.1)) 0 f hf
      obtain ⟨p, hp, hp1⟩ := List.mem_map.mp hf0
      obtain ⟨kv, hkv, hg⟩ := mapM_mem_ok _ leaves encoded hmap p hp
      have := encodeField_props zc opts kv.1 kv.2 p.1 p.2 (by rw [hg])
      rw [hcs, hus, hcomp, ← hp1]
      exact this

/-- The field record written for a logical scalar with compression
off, used by the C5 witness. -/
def c5Field : FieldMeta :=
  { name := dataName, kind := "logical", className := "logical",
    shape := ([1, 1] : List Nat), complex := false, encoding := "",
    compression := "none", offset := 0, csize := 1, usize := 1,
    crc32 := 0 }

/-- C5 witness: the conclusions at a concrete write (logical scalar,
compression off), at the single field it produces. -/
theorem write_compression_monotonicity_witness :
    (c5Field.compression = "zlib" → c5Field.csize < c5Field.usize)
    ∧ c5Field.csize ≤ c5Field.usize
    ∧ ((false = false ∨ CompressionMode.never = .never) →
        c5Field.compression = "none" ∧ c5Field.csize = c5Field.usize) :=
  write_compression_monotonicity (fun _ x => x)
    { compression := false, compressionMode := .never, compressionLevel := 1,
      crc := false, prettyHeader := false }
    (.logical { shape := [1, 1], data := [7] }) "single" [c5Field] [[7]] rfl
    c5Field (List.mem_singleton.mpr rfl)

/-- A header whose stored file_size, payload_start and CRC are all
absent-valued (0, 0, empty). -/
def hdrZeros : Header :=
  { format := "GBF", magic := "GREDBIN", version := 1,
    endianness := "little", order := "column-major", root := "struct",
    createdUtc := "", matlabVersion := "", fields := [],
    payloadStart := 0, fileSize := 0, headerCrcHex := [] }

/-- A minimal concrete field record used by concrete witnesses. -/
def hdrField0 : FieldMeta :=
  { name := ['A'], kind := "struct", className := "struct", shape := [1, 1],
    complex := false, encoding := "empty-scalar-struct",
    compression := "none", offset := 0, csize := 0, usize := 0, crc32 := 0 }

/-- C9 counterexample: with stored `file_size = 0` and
`payload_start = 0`, a validating read performs neither the file-size
check (the actual size 999 disagrees with the stored 0, yet no
`FileSizeMismatch` is raised) nor the payload-start check: zero-valued
stored fields are treated as absent and skipped, contrary to the claim
that the checks run for every well-formed header including zero
values. -/
theorem zero_file_size_and_payload_start_not_checked :
    validateHeaderRead hdrZeros [123, 125] 999 2 true = .ok ()
    ∧ hdrZeros.fileSize ≠ 999
    ∧ hdrZeros.payloadStart ≠ 8 + 4 + 2 := by
  refine ⟨rfl, by decide, by decide⟩

/-- C9 amended: on a validating read (after the header CRC check
passes), the stored file_size is compared with the actual file size
only when it is non-zero, raising `FileSizeMismatch` on disagreement;
then the stored payload_start is compared with `8 + 4 + header_len`
only when it is non-zero, raising a format error on disagreement;
stored zeros skip the respective check. -/
theorem validateHeaderRead_characterization (h : Header) (json : List Byte)
    (actual hlen : Nat)
    (hcrc : validateHeaderCrc h.headerCrcHex json = .ok ()) :
    (0 < h.fileSize → actual ≠ h.fileSize →
       validateHeaderRead h json actual hlen true
         = .error (.fileSizeMismatch h.fileSize actual))
    ∧ ((h.fileSize = 0 ∨ actual = h.fileSize) →
       0 < h.payloadStart → h.payloadStart ≠ 8 + 4 + hlen →
       validateHeaderRead h json actual hlen true
         = .error (.format ("payload_start mismatch")))
    ∧ ((h.fileSize = 0 ∨ actual = h.fileSize) →
       (h.payloadStart = 0 ∨ h.payloadStart = 8 + 4 + hlen) →
       validateHeaderRead h json actual hlen true = .ok ()) := by
  unfold validateHeaderRead
  simp only [if_pos rfl, hcrc, bind, exceptBind_ok]
  refine ⟨fun h1 h2 => ?_, fun h1 h2 h3 => ?_, fun h1 h2 => ?_⟩
  · have hc : h.fileSize > 0 ∧ actual ≠ h.fileSize := ⟨h1, h2⟩
    rw [if_pos hc]
    simp
  · have hno : ¬(h.fileSize > 0 ∧ actual ≠ h.fileSize) := by
      rcases h1 with h1 | h1
      · intro hc; omega
      · intro hc; exact hc.2 h1
    have hc : h.payloadStart > 0 ∧ h.payloadStart ≠ 8 + 4 + hlen := ⟨h2, h3⟩
    rw [if_neg hno, if_pos hc]
    simp
  · have hno : ¬(h.fileSize > 0 ∧ actual ≠ h.fileSize) := by
      rcases h1 with h1 | h1
      · intro hc; omega
      · intro hc; exact hc.2 h1
    have hno2 : ¬(h.payloadStart > 0 ∧ h.payloadStart ≠ 8 + 4 + hlen) := by
      rcases h2 with h2 | h2
      · intro hc; omega
      · intro hc; exact hc.2 h2
    rw [if_neg hno, if_neg hno2]
    simp

/-- C9 witness: the amended checks at concrete inputs — a header with
stored file_size 5 and actual size 6 raises `FileSizeMismatch`. -/
theorem validateHeaderRead_characterization_witness :
    validateHeaderRead { hdrZeros with fileSize := 5 } [123, 125] 6 2 true
      = .error (.fileSizeMismatch 5 6) :=
  (validateHeaderRead_characterization { hdrZeros with fileSize := 5 }
    [123, 125] 6 2 rfl).1 (by decide) (by decide)

/-- A list starts with itself followed by anything. -/
theorem listStartsWith_append {α : Type} [DecidableEq α] (pre l : List α) :
    listStartsWith pre (pre ++ l) = true := by
  induction pre with
  | nil => rfl
  | cons a t ih => simp [listStartsWith, ih]

/-- `takeWhile` stops exactly at the first failing element. -/
theorem takeWhile_append_cons (p : Byte → Bool) (l1 : List Byte) (b : Byte)
    (l2 : List Byte) (h1 : ∀ x ∈ l1, p x = true) (hb : p b = false) :
    (l1 ++ b :: l2).takeWhile p = l1 := by
  induction l1 with
  | nil => simp [List.takeWhile_cons, hb]
  | cons a t ih =>
    have ha : p a = true := h1 a (List.mem_cons_self a t)
    simp only [List.cons_append, List.takeWhile_cons, ha, if_true]
    rw [ih (fun x hx => h1 x (List.mem_cons_of_mem a hx))]

/-- The precise CRC pattern matches at the head of canonical text and
replaces exactly the hex value, keeping the whitespace. -/
theorem matchCrcPrimary_canonical (ws1 ws2 hex post : List Byte)
    (hws1 : ∀ b ∈ ws1, isWsByte b = true) (hws2 : ∀ b ∈ ws2, isWsByte b = true)
    (hlen : hex.length = 8) (hhex : hex.all isHexByte = true) :
    matchCrcPrimary (crcKeyLit ++ (ws1 ++ (58 :: (ws2 ++ (34 :: (hex ++ (34 :: post)))))))
      = some (crcKeyLit ++ (ws1 ++ (58 :: (ws2 ++ (34 :: (zeros8 ++ (34 :: post))))))) := by
  unfold matchCrcPrimary
  rw [if_pos (listStartsWith_append crcKeyLit _)]
  have htake : (hex ++ (34 :: post)).take 8 = hex := by
    rw [← hlen]; exact List.take_left ..
  have hdrop : (hex ++ (34 :: post)).drop 8 = 34 :: post := by
    rw [← hlen]; exact List.drop_left ..
  simp only [List.drop_left,
    takeWhile_append_cons isWsByte ws1 58 _ hws1 (by decide),
    takeWhile_append_cons isWsByte ws2 34 _ hws2 (by decide),
    htake, hdrop, hlen, hhex]
  simp

/-- Leftmost-first scanning: if the literal occurs nowhere inside the
prefix and the pattern matches right after it, the replacement happens
exactly there. -/
theorem substCrcPrimary_prefix (pre rest r : List Byte)
    (hpre : ∀ i, i < pre.length →
      listStartsWith crcKeyLit ((pre ++ rest).drop i) = false)
    (hm : matchCrcPrimary rest = some r) :
    substCrcPrimary (pre ++ rest) = some (pre ++ r) := by
  induction pre with
  | nil =>
    cases rest with
    | nil => rw [show matchCrcPrimary [] = none from rfl] at hm; cases hm
    | cons b t =>
      show substCrcPrimary (b :: t) = some ([] ++ r)
      unfold substCrcPrimary
      rw [hm]
      simp
  | cons a t ih =>
    have h0 := hpre 0 (by simp)
    rw [List.drop_zero] at h0
    have hm0 : matchCrcPrimary (a :: (t ++ rest)) = none := by
      unfold matchCrcPrimary
      rw [show ((a :: (t ++ rest)) = ((a :: t) ++ rest)) from rfl, h0]
      simp
    show substCrcPrimary (a :: (t ++ rest)) = some (a :: (t ++ r))
    unfold substCrcPrimary
    rw [hm0]
    have ihh := ih (fun i hi => by
      have := hpre (i + 1) (by simpa using Nat.succ_lt_succ hi)
      simpa [List.drop_succ_cons] using this)
    rw [ihh]
    rfl

/-- Hexadecimal digit bytes are outside the lower-case letter range. -/
theorem upperByte_hexDigit (d : Nat) (hd : d < 16) :
    upperByte (hexDigitByte d) = hexDigitByte d := by
  unfold hexDigitByte upperByte
  by_cases h : d < 10
  · have hno : ¬(97 ≤ 48 + d ∧ 48 + d ≤ 122) := by intro hc; omega
    rw [if_pos h, if_neg hno]
  · have hno : ¬(97 ≤ 55 + d ∧ 55 + d ≤ 122) := by intro hc; omega
    rw [if_neg h, if_neg hno]

/-- C8 counterexample: on header text in which the stored value is
already `00000000` but the colon carries whitespace, the textual
substitution does NOT preserve the whitespace: the precise-pattern
replacement is a no-op, so the source falls back to the compact
replacement and the CRC input is the whitespace-normalized text, not
the ws-preserving substitution that the claim describes (which would
leave these bytes unchanged). -/
theorem placeholder_value_not_ws_preserved :
    headerJsonWithPlaceholderCrc
        ([123] ++ (crcKeyLit ++ ([32] ++ (58 :: ([32] ++ (34 :: (zeros8 ++ (34 :: [125, 10]))))))))
      = [123] ++ (crcKeyLit ++ (58 :: (34 :: (zeros8 ++ (34 :: [125, 10])))))
    ∧ ([123] ++ (crcKeyLit ++ (58 :: (34 :: (zeros8 ++ (34 :: [125, 10]))))) : List Byte)
      ≠ [123] ++ (crcKeyLit ++ ([32] ++ (58 :: ([32] ++ (34 :: (zeros8 ++ (34 :: [125, 10]))))))) := by
  refine ⟨by decide, by decide⟩

/-- C8 amended: the header CRC protocol.  Validation succeeds exactly
when the stored hex is empty after trimming (skipped) or matches the
recomputed hex case-insensitively; otherwise the error is
`HeaderCrcMismatch` carrying the upper-cased stored value and the
recomputed value.  The recomputed hex is the upper-case 8-digit CRC-32
of the header text after the placeholder substitution, and on text
whose stored value differs from `00000000` the substitution replaces
exactly the 8 hex digits while preserving the whitespace around the
colon; when the stored value is already `00000000` the substitution
falls back to a compact, whitespace-normalizing replacement. -/
theorem header_crc_protocol :
    (∀ stored json : List Byte,
      (validateHeaderCrc stored json = .ok () ↔
        (trimBytes stored = [] ∨
          asciiUpperBytes (trimBytes stored) = computeHeaderCrcHex json))
      ∧ (validateHeaderCrc stored json = .ok () ∨
         validateHeaderCrc stored json
           = .error (.headerCrcMismatch (asciiUpperBytes (trimBytes stored))
               (computeHeaderCrcHex json))))
    ∧ (∀ json : List Byte, (computeHeaderCrcHex json).length = 8
        ∧ asciiUpperBytes (computeHeaderCrcHex json) = computeHeaderCrcHex json
        ∧ computeHeaderCrcHex json = hex8 (crc32 (headerJsonWithPlaceholderCrc json)))
    ∧ (∀ pre ws1 ws2 hex post : List Byte,
        (∀ b ∈ ws1, isWsByte b = true) → (∀ b ∈ ws2, isWsByte b = true) →
        hex.length = 8 → hex.all isHexByte = true → hex ≠ zeros8 →
        (∀ i, i < pre.length →
          listStartsWith crcKeyLit
            ((pre ++ (crcKeyLit ++ (ws1 ++ (58 :: (ws2 ++ (34 :: (hex ++ (34 :: post)))))))).drop i)
            = false) →
        headerJsonWithPlaceholderCrc
            (pre ++ (crcKeyLit ++ (ws1 ++ (58 :: (ws2 ++ (34 :: (hex ++ (34 :: post))))))))
          = pre ++ (crcKeyLit ++ (ws1 ++ (58 :: (ws2 ++ (34 :: (zeros8 ++ (34 :: post)))))))) := by
  refine ⟨fun stored json => ⟨?_, ?_⟩, fun json => ⟨rfl, ?_, rfl⟩, ?_⟩
  · unfold validateHeaderCrc
    by_cases ht : trimBytes stored = []
    · rw [if_pos ht]
      exact ⟨fun _ => Or.inl ht, fun _ => rfl⟩
    · rw [if_neg ht]
      by_cases he : asciiUpperBytes (trimBytes stored) ≠ computeHeaderCrcHex json
      · rw [if_pos he]
        constructor
        · intro hcon; cases hcon
        · intro hcon
          rcases hcon with hcon | hcon
          · exact absurd hcon ht
          · exact absurd hcon he
      · rw [if_neg he]
        rw [Decidable.not_not] at he
        exact ⟨fun _ => Or.inr he, fun _ => rfl⟩
  · unfold validateHeaderCrc
    by_cases ht : trimBytes stored = []
    · rw [if_pos ht]; exact Or.inl rfl
    · rw [if_neg ht]
      by_cases he : asciiUpperBytes (trimBytes stored) ≠ computeHeaderCrcHex json
      · rw [if_pos he]; exact Or.inr rfl
      · rw [if_neg he]; exact Or.inl rfl
  · unfold computeHeaderCrcHex
    unfold asciiUpperBytes hex8
    simp only [List.map]
    have h16 : ∀ x : Nat, x % 16 < 16 := fun x => Nat.mod_lt x (by norm_num)
    rw [upperByte_hexDigit _ (h16 _), upperByte_hexDigit _ (h16 _),
        upperByte_hexDigit _ (h16 _), upperByte_hexDigit _ (h16 _),
        upperByte_hexDigit _ (h16 _), upperByte_hexDigit _ (h16 _),
        upperByte_hexDigit _ (h16 _), upperByte_hexDigit _ (h16 _)]
  · intro pre ws1 ws2 hex post hws1 hws2 hlen hhex hne hpre
    have hm := matchCrcPrimary_canonical ws1 ws2 hex post hws1 hws2 hlen hhex
    have hs := substCrcPrimary_prefix pre _ _ hpre hm
    unfold headerJsonWithPlaceholderCrc
    rw [hs]
    have hneq : pre ++ (crcKeyLit ++ (ws1 ++ (58 :: (ws2 ++ (34 :: (zeros8 ++ (34 :: post)))))))
        ≠ pre ++ (crcKeyLit ++ (ws1 ++ (58 :: (ws2 ++ (34 :: (hex ++ (34 :: post))))))) := by
      intro heq
      have h1 := List.append_cancel_left heq
      have h2 := List.append_cancel_left h1
      have h3 := List.append_cancel_left h2
      have h4 := (List.cons.injEq _ _ _ _).mp h3
      have h5 := List.append_cancel_left h4.2
      have h6 := (List.cons.injEq _ _ _ _).mp h5
      have h7 := List.append_inj h6.2 (by rw [hlen]; rfl)
      exact hne h7.1.symm
    exact if_neg hneq

/-- C8 witness: the protocol theorem applied at concrete inputs — a
stored value matching case-insensitively validates, and the
whitespace-preserving substitution on a concrete header text. -/
theorem header_crc_protocol_witness :
    ((validateHeaderCrc [] [123, 125] = .ok () ↔
        (trimBytes [] = [] ∨
          asciiUpperBytes (trimBytes []) = computeHeaderCrcHex [123, 125]))
      ∧ (validateHeaderCrc [] [123, 125] = .ok () ∨
         validateHeaderCrc [] [123, 125]
           = .error (.headerCrcMismatch (asciiUpperBytes (trimBytes []))
               (computeHeaderCrcHex [123, 125]))))
    ∧ headerJsonWithPlaceholderCrc
        ([123] ++ (crcKeyLit ++ ([] ++ (58 :: ([] ++ (34 ::
          ([65, 65, 65, 65, 65, 65, 65, 65] ++ (34 :: [125]))))))))
      = [123] ++ (crcKeyLit ++ ([] ++ (58 :: ([] ++ (34 :: (zeros8 ++ (34 :: [125]))))))) := by
  constructor
  · exact header_crc_protocol.1 [] [123, 125]
  · exact header_crc_protocol.2.2 [123] [] []
      [65, 65, 65, 65, 65, 65, 65, 65] [125]
      (by intro b hb; cases hb) (by intro b hb; cases hb)
      (by decide) (by decide) (by decide) (by decide)

/-- When the closure loop exits through its stability break, the
returned header's payload_start is 8 + 4 + header_len, its file_size is
payload_start plus the payload total (u64 addition), and header_len is
the length of the returned header bytes (as a u32). -/
theorem closureRun_stable_spec (ser : Header → List Byte) (total : Nat) :
    ∀ (fuel : Nat) (h : Header) (prevJson : List Byte) (prevLen : Nat),
      (closureRun ser total fuel h prevJson prevLen).2.2.2 = true →
      (closureRun ser total fuel h prevJson prevLen).1.payloadStart
          = 8 + 4 + (closureRun ser total fuel h prevJson prevLen).2.2.1
        ∧ (closureRun ser total fuel h prevJson prevLen).2.2.1
          = (closureRun ser total fuel h prevJson prevLen).2.1.length % 2 ^ 32
        ∧ (closureRun ser total fuel h prevJson prevLen).1.fileSize
          = ((closureRun ser total fuel h prevJson prevLen).1.payloadStart + total)
              % 2 ^ 64 := by
  intro fuel
  induction fuel with
  | zero =>
    intro h prevJson prevLen hst
    cases hst
  | succ n ih =>
    intro h prevJson prevLen hst
    by_cases hs : closureStable ser total h prevJson prevLen = true
    · unfold closureRun
      rw [if_pos hs]
      exact ⟨rfl, rfl, rfl⟩
    · unfold closureRun at hst ⊢
      rw [if_neg hs] at hst ⊢
      exact ih (iterHeaderOf ser total h) (jsonFinalOf ser h) (lenWOf ser h) hst

/-- Offsets produced by the assignment loop are the prefix sums of the
csizes, provided the total does not overflow u64. -/
theorem assignOffsetsGo_offsets :
    ∀ (fs : List FieldMeta) (off : Nat),
      off + (fs.map (fun f => f.csize)).sum < 2 ^ 64 →
      (assignOffsetsGo off fs).map (fun f => f.offset)
        = (List.range fs.length).map
            (fun i => off + ((fs.map (fun f => f.csize)).take i).sum) := by
  intro fs
  induction fs with
  | nil => intro off hlt; rfl
  | cons g t ih =>
    intro off hlt
    simp only [List.map_cons, List.sum_cons] at hlt
    have hsat : satAddU64 off g.csize = off + g.csize := by
      unfold satAddU64
      omega
    unfold assignOffsetsGo
    simp only [List.map_cons]
    rw [hsat]
    rw [ih (off + g.csize) (by omega)]
    simp only [List.length_cons, List.range_succ_eq_map, List.map_cons,
      List.map_map]
    have hhead : (off + (List.take 0 (g.csize :: List.map (fun f => f.csize) t)).sum)
        = off := by simp
    have htail : List.map
          (fun i => off + g.csize + (List.take i (List.map (fun f => f.csize) t)).sum)
          (List.range t.length)
        = List.map ((fun i => off + (List.take i (g.csize :: List.map (fun f => f.csize) t)).sum)
            ∘ Nat.succ) (List.range t.length) := by
      refine List.map_congr_left ?_
      intro i hi
      simp [List.take_succ_cons, Nat.add_assoc]
    rw [hhead, htail]

/-- The writer's running payload total equals the sum of the csizes
when the sum does not overflow. -/
theorem payloadTotal_eq_sum :
    ∀ (fs : List FieldMeta), (fs.map (fun f => f.csize)).sum < 2 ^ 64 →
      payloadTotal fs = (fs.map (fun f => f.csize)).sum := by
  have hgen : ∀ (fs : List FieldMeta) (acc : Nat),
      acc + (fs.map (fun f => f.csize)).sum < 2 ^ 64 →
      fs.foldl (fun a f => satAddU64 a f.csize) acc
        = acc + (fs.map (fun f => f.csize)).sum := by
    intro fs
    induction fs with
    | nil => intro acc hlt; simp
    | cons g t ih =>
      intro acc hlt
      simp only [List.map_cons, List.sum_cons] at hlt
      simp only [List.foldl_cons, List.map_cons, List.sum_cons]
      have hsat : satAddU64 acc g.csize = acc + g.csize := by
        unfold satAddU64
        omega
      rw [hsat, ih (acc + g.csize) (by omega)]
      omega
  intro fs hlt
  unfold payloadTotal
  rw [hgen fs 0 (by omega)]
  omega

/-- C6: in every header produced by the writer whose closure loop
reached its stability break, payload_start equals 8 + 4 + header_len
with header_len the length of the serialized header bytes, and
file_size equals payload_start plus the payload total; each field's
offset equals the sum of the csizes of all preceding fields (fields are
laid out contiguously from 0), provided the sizes do not overflow
u64. -/
theorem header_size_accounting :
    (∀ (ser : Header → List Byte) (total fuel : Nat) (h : Header)
       (prevJson : List Byte) (prevLen : Nat),
      (closureRun ser total fuel h prevJson prevLen).2.2.2 = true →
      8 + 4 + (closureRun ser total fuel h prevJson prevLen).2.1.length + total < 2 ^ 64 →
      (closureRun ser total fuel h prevJson prevLen).2.1.length < 2 ^ 32 →
      (closureRun ser total fuel h prevJson prevLen).1.payloadStart
          = 8 + 4 + (closureRun ser total fuel h prevJson prevLen).2.1.length
        ∧ (closureRun ser total fuel h prevJson prevLen).1.fileSize
          = (closureRun ser total fuel h prevJson prevLen).1.payloadStart + total)
    ∧ (∀ fs : List FieldMeta, (fs.map (fun f => f.csize)).sum < 2 ^ 64 →
        (assignOffsets fs).map (fun f => f.offset)
          = (List.range fs.length).map
              (fun i => ((fs.map (fun f => f.csize)).take i).sum)
        ∧ payloadTotal fs = (fs.map (fun f => f.csize)).sum) := by
  constructor
  · intro ser total fuel h prevJson prevLen hst htot hlen
    obtain ⟨h1, h2, h3⟩ := closureRun_stable_spec ser total fuel h prevJson prevLen hst
    have hmod : (closureRun ser total fuel h prevJson prevLen).2.1.length % 2 ^ 32
        = (closureRun ser total fuel h prevJson prevLen).2.1.length :=
      Nat.mod_eq_of_lt hlen
    rw [hmod] at h2
    constructor
    · rw [h1, h2]
    · rw [h3, h1, h2]
      exact Nat.mod_eq_of_lt (by omega)
  · intro fs hlt
    constructor
    · unfold assignOffsets
      have := assignOffsetsGo_offsets fs 0 (by omega)
      simpa using this
    · exact payloadTotal_eq_sum fs hlt

/-- C6 witness: a constant serializer stabilizes on the second
iteration, and the stabilized header satisfies the accounting at
concrete values; a two-field table gets offsets 0 and 3. -/
theorem header_size_accounting_witness :
    ((closureFromStart (fun _ => [123, 125]) 7 hdrZeros).1.payloadStart
        = 8 + 4 + (closureFromStart (fun _ => [123, 125]) 7 hdrZeros).2.1.length
      ∧ (closureFromStart (fun _ => [123, 125]) 7 hdrZeros).1.fileSize
        = (closureFromStart (fun _ => [123, 125]) 7 hdrZeros).1.payloadStart + 7)
    ∧ ((assignOffsets [{ hdrField0 with csize := 3 }, { hdrField0 with csize := 5 }]).map
          (fun f => f.offset) = [0, 3]
        ∧ payloadTotal [{ hdrField0 with csize := 3 }, { hdrField0 with csize := 5 }] = 8) := by
  constructor
  · exact header_size_accounting.1 (fun _ => [123, 125]) 7 10
      { hdrZeros with payloadStart := 0, fileSize := 0, headerCrcHex := zeros8 }
      [] 0 (by decide) (by decide) (by decide)
  · have h := header_size_accounting.2
      [{ hdrField0 with csize := 3 }, { hdrField0 with csize := 5 }] (by decide)
    exact ⟨by rw [h.1]; rfl, by rw [h.2]; rfl⟩

/-- Inversion of `checkedAddU64` success. -/
theorem checkedAddU64_ok_inv (a b c : Nat) (h : checkedAddU64 a b = .ok c) :
    c = a + b ∧ a + b < 2 ^ 64 := by
  unfold checkedAddU64 at h
  by_cases hlt : a + b < 2 ^ 64
  · rw [if_pos hlt] at h
    cases h
    exact ⟨rfl, hlt⟩
  · rw [if_neg hlt] at h
    cases h

/-- `checkedAddU64` succeeds below the u64 bound. -/
theorem checkedAddU64_eq_ok (a b : Nat) (h : a + b < 2 ^ 64) :
    checkedAddU64 a b = .ok (a + b) := by
  unfold checkedAddU64
  rw [if_pos h]

/-- Inversion of a successful naive field read. -/
theorem readFieldRaw_ok_inv (file : List Byte) (ps : Nat) (f : FieldMeta)
    (bytes : List Byte) (h : readFieldRaw file ps f = .ok bytes) :
    f.csize ≤ maxFieldBytes ∧ f.usize ≤ maxFieldBytes
    ∧ ps + f.offset + f.csize < 2 ^ 64
    ∧ ps + f.offset + f.csize ≤ file.length
    ∧ bytes = sliceAt file (ps + f.offset) f.csize := by
  unfold readFieldRaw at h
  by_cases h1 : f.csize > maxFieldBytes
  · rw [if_pos h1] at h; cases h
  · rw [if_neg h1] at h
    by_cases h2 : f.usize > maxFieldBytes
    · rw [if_pos h2] at h; cases h
    · rw [if_neg h2] at h
      cases hadd : checkedAddU64 ps f.offset with
      | error e => rw [hadd] at h; cases h
      | ok pos =>
        rw [hadd] at h
        simp only [bind, exceptBind_ok] at h
        obtain ⟨hpos, hposlt⟩ := checkedAddU64_ok_inv _ _ _ hadd
        cases hadd2 : checkedAddU64 pos f.csize with
        | error e => rw [hadd2] at h; cases h
        | ok endPos =>
          rw [hadd2] at h
          simp only [bind, exceptBind_ok] at h
          obtain ⟨hend, hendlt⟩ := checkedAddU64_ok_inv _ _ _ hadd2
          by_cases h3 : endPos > file.length
          · rw [if_pos h3] at h; cases h
          · rw [if_neg h3] at h
            cases h
            subst hpos
            subst hend
            exact ⟨by omega, by omega, by omega, by omega, rfl⟩

/-- A slice of a slice is a slice, within bounds of the outer one. -/
theorem sliceAt_sliceAt (file : List Byte) (pos size rel c : Nat)
    (hrel : rel + c ≤ size) :
    sliceAt (sliceAt file pos size) rel c = sliceAt file (pos + rel) c := by
  unfold sliceAt
  rw [List.drop_take, List.drop_drop, List.take_take]
  congr 1
  omega

/-- Flushing a group returns, for each field of the group, exactly the
bytes of the naive read, provided every field lies inside the group
span and the span end is attained by some field that is in bounds. -/
theorem flushGroup_spec (file : List Byte) (ps gStart gEnd : Nat)
    (gFields : List FieldMeta)
    (hmem : ∀ f ∈ gFields, gStart ≤ f.offset ∧ f.offset + f.csize ≤ gEnd)
    (hwit : ∃ f ∈ gFields, f.offset + f.csize = gEnd)
    (hok : ∀ f ∈ gFields,
      ps + f.offset + f.csize < 2 ^ 64 ∧ ps + f.offset + f.csize ≤ file.length) :
    flushGroup file ps gStart gEnd gFields
      = .ok (gFields.map (fun f => (f.name, sliceAt file (ps + f.offset) f.csize))) := by
  obtain ⟨f0, hf0, hf0e⟩ := hwit
  have h0 := hmem f0 hf0
  have h0k := hok f0 hf0
  have hps : ps + gStart < 2 ^ 64 := by omega
  have hpe : ps + gStart + (gEnd - gStart) < 2 ^ 64 := by omega
  have hbound : ¬ (ps + gStart + (gEnd - gStart) > file.length) := by omega
  unfold flushGroup
  simp only [checkedAddU64_eq_ok _ _ hps, bind, exceptBind_ok]
  simp only [checkedAddU64_eq_ok _ _ hpe, bind, exceptBind_ok]
  rw [if_neg hbound]
  congr 1
  refine List.map_congr_left ?_
  intro f hf
  have hm := hmem f hf
  rw [sliceAt_sliceAt file (ps + gStart) (gEnd - gStart) (f.offset - gStart)
    f.csize (by omega)]
  have harg : ps + gStart + (f.offset - gStart) = ps + f.offset := by omega
  rw [harg]

/-- The grouping loop of `coalesced_read` emits, for every field, the
same bytes as the naive read, in the order of the (sorted) input. -/
theorem coalLoop_spec (file : List Byte) (ps : Nat) :
    ∀ (rest gFields : List FieldMeta) (gStart gEnd : Nat)
      (out : List (Name × List Byte)),
      (∀ f ∈ gFields, gStart ≤ f.offset ∧ f.offset + f.csize ≤ gEnd) →
      (∃ f ∈ gFields, f.offset + f.csize = gEnd) →
      (∀ f ∈ gFields,
        ps + f.offset + f.csize < 2 ^ 64 ∧ ps + f.offset + f.csize ≤ file.length) →
      (∀ f ∈ rest,
        ps + f.offset + f.csize < 2 ^ 64 ∧ ps + f.offset + f.csize ≤ file.length) →
      (∀ f ∈ rest, gStart ≤ f.offset) →
      List.Pairwise (fun a b => a.offset ≤ b.offset) rest →
      coalLoop file ps rest gStart gEnd gFields out
        = .ok (out ++ (gFields ++ rest).map
            (fun f => (f.name, sliceAt file (ps + f.offset) f.csize))) := by
  intro rest
  induction rest with
  | nil =>
    intro gFields gStart gEnd out hmem hwit hok _ _ _
    unfold coalLoop
    rw [flushGroup_spec file ps gStart gEnd gFields hmem hwit hok]
    simp only [bind, exceptBind_ok, List.append_nil]
  | cons f rest ih =>
    intro gFields gStart gEnd out hmem hwit hok hrest hge hpw
    have hfk := hrest f (List.mem_cons_self f rest)
    have hfe : f.offset + f.csize < 2 ^ 64 := by omega
    unfold coalLoop
    simp only [checkedAddU64_eq_ok _ _ hfe, bind, exceptBind_ok]
    have hpwtail := (List.pairwise_cons.mp hpw).2
    have hpwhead := (List.pairwise_cons.mp hpw).1
    by_cases hcm : ((if f.offset > gEnd then f.offset - gEnd else 0) ≤ 4096
        && f.offset + f.csize - gStart ≤ 8 * 1024 * 1024) = true
    · rw [if_pos hcm]
      rw [ih (gFields ++ [f]) gStart (max gEnd (f.offset + f.csize)) out
        (by
          intro g hg
          rcases List.mem_append.mp hg with hg1 | hg2
          · have := hmem g hg1
            constructor
            · omega
            · exact le_trans this.2 (le_max_left _ _)
          · rw [List.mem_singleton.mp hg2]
            exact ⟨hge f (List.mem_cons_self f rest), le_max_right _ _⟩)
        (by
          by_cases hmx : gEnd ≤ f.offset + f.csize
          · exact ⟨f, List.mem_append.mpr (Or.inr (List.mem_singleton.mpr rfl)),
              by omega⟩
          · obtain ⟨g, hg, hge2⟩ := hwit
            exact ⟨g, List.mem_append.mpr (Or.inl hg), by omega⟩)
        (by
          intro g hg
          rcases List.mem_append.mp hg with hg1 | hg2
          · exact hok g hg1
          · rw [List.mem_singleton.mp hg2]
            exact hfk)
        (fun g hg => hrest g (List.mem_cons_of_mem f hg))
        (fun g hg => le_trans (hge f (List.mem_cons_self f rest)) (hpwhead g hg))
        hpwtail]
      simp [List.append_assoc]
    · rw [if_neg hcm]
      rw [flushGroup_spec file ps gStart gEnd gFields hmem hwit hok]
      simp only [bind, exceptBind_ok]
      rw [ih [f] f.offset (f.offset + f.csize)
        (out ++ gFields.map (fun g => (g.name, sliceAt file (ps + g.offset) g.csize)))
        (by
          intro g hg
          rw [List.mem_singleton.mp hg]
          exact ⟨Nat.le_refl _, Nat.le_refl _⟩)
        ⟨f, List.mem_singleton.mpr rfl, rfl⟩
        (by
          intro g hg
          rw [List.mem_singleton.mp hg]
          exact hfk)
        (fun g hg => hrest g (List.mem_cons_of_mem f hg))
        (fun g hg => hpwhead g hg)
        hpwtail]
      simp [List.append_assoc]

/-- Core refinement of `coalesced_read` by the naive per-field read,
shared by the coalesced-read and round-trip developments. -/
theorem coalescedRead_spec_all (file : List Byte) (ps : Nat)
    (fields : List FieldMeta)
    (hok : ∀ f ∈ fields,
      readFieldRaw file ps f = .ok (sliceAt file (ps + f.offset) f.csize)) :
    coalescedRead file ps fields
      = .ok ((sortFieldsByOffset fields).map
          (fun f => (f.name, sliceAt file (ps + f.offset) f.csize)))
    ∧ List.Pairwise (fun a b => a.offset ≤ b.offset) (sortFieldsByOffset fields)
    ∧ (sortFieldsByOffset fields).Perm fields := by
  have hperm : (sortFieldsByOffset fields).Perm fields :=
    List.perm_insertionSort _ fields
  have hsorted : List.Pairwise (fun a b : FieldMeta => a.offset ≤ b.offset)
      (sortFieldsByOffset fields) := by
    haveI : IsTotal FieldMeta (fun a b : FieldMeta => a.offset ≤ b.offset) :=
      ⟨fun a b => Nat.le_total a.offset b.offset⟩
    haveI : IsTrans FieldMeta (fun a b : FieldMeta => a.offset ≤ b.offset) :=
      ⟨fun _ _ _ hab hbc => le_trans hab hbc⟩
    exact List.sorted_insertionSort _ fields
  have hfacts : ∀ f ∈ sortFieldsByOffset fields,
      ps + f.offset + f.csize < 2 ^ 64 ∧ ps + f.offset + f.csize ≤ file.length := by
    intro f hf
    have hm : f ∈ fields := hperm.mem_iff.mp hf
    obtain ⟨-, -, h3, h4, -⟩ := readFieldRaw_ok_inv file ps f _ (hok f hm)
    exact ⟨h3, h4⟩
  refine ⟨?_, hsorted, hperm⟩
  unfold coalescedRead
  cases hs : sortFieldsByOffset fields with
  | nil => simp
  | cons f0 rest =>
    rw [hs] at hfacts hsorted
    have hf0 := hfacts f0 (List.mem_cons_self f0 rest)
    have hf0e : f0.offset + f0.csize < 2 ^ 64 := by omega
    simp only [checkedAddU64_eq_ok _ _ hf0e, bind, exceptBind_ok]
    rw [coalLoop_spec file ps rest [f0] f0.offset (f0.offset + f0.csize) []
      (by
        intro g hg
        rw [List.mem_singleton.mp hg]
        exact ⟨Nat.le_refl _, Nat.le_refl _⟩)
      ⟨f0, List.mem_singleton.mpr rfl, rfl⟩
      (by
        intro g hg
        rw [List.mem_singleton.mp hg]
        exact hf0)
      (fun g hg => hfacts g (List.mem_cons_of_mem f0 hg))
      (fun g hg => (List.pairwise_cons.mp hsorted).1 g hg)
      (List.pairwise_cons.mp hsorted).2]
    simp

/-- C10: whenever every requested field can be read by the naive
single-field read `read_field_raw`, the coalesced read succeeds and
returns exactly one entry per requested field — the same bytes the
naive read returns — ordered by ascending offset (the stable sort of
the request list). -/
theorem coalescedRead_refines_naive (file : List Byte) (ps : Nat)
    (fields : List FieldMeta)
    (hok : ∀ f ∈ fields,
      readFieldRaw file ps f = .ok (sliceAt file (ps + f.offset) f.csize)) :
    coalescedRead file ps fields
      = .ok ((sortFieldsByOffset fields).map
          (fun f => (f.name, sliceAt file (ps + f.offset) f.csize)))
    ∧ List.Pairwise (fun a b => a.offset ≤ b.offset) (sortFieldsByOffset fields)
    ∧ (sortFieldsByOffset fields).Perm fields :=
  coalescedRead_spec_all file ps fields hok

/-- C10 witness: a concrete two-field read (requested out of order)
returns both fields' naive bytes in ascending offset order. -/
theorem coalescedRead_refines_naive_witness :
    coalescedRead [9, 8, 7, 6, 5, 4, 3, 2, 1, 0] 2
        [{ hdrField0 with offset := 3, csize := 2 },
         { hdrField0 with offset := 0, csize := 2 }]
      = .ok [(hdrField0.name, [7, 6]), (hdrField0.name, [4, 3])] := by
  have h := (coalescedRead_refines_naive [9, 8, 7, 6, 5, 4, 3, 2, 1, 0] 2
    [{ hdrField0 with offset := 3, csize := 2 },
     { hdrField0 with offset := 0, csize := 2 }]
    (by
      intro f hf
      rcases List.mem_cons.mp hf with h1 | h1
      · subst h1; rfl
      · rw [List.mem_singleton.mp h1]; rfl)).1
  rw [h]
  rfl

/-- `Except.bind` preserves the absence of `VarNotFound` failures. -/
theorem notVNF_bind {α β : Type} {x : Except GbfErr α} {g : α → Except GbfErr β}
    (hx : notVNF x) (hg : ∀ a, notVNF (g a)) : notVNF (Bind.bind x g) := by
  cases x with
  | ok a => exact hg a
  | error e =>
    intro q hq
    have hq2 : (Except.error e : Except GbfErr β)
        = Except.error (GbfErr.varNotFound q) := hq
    exact hx q (by rw [Except.error.inj hq2])

/-- A success is never a `VarNotFound` failure. -/
theorem notVNF_ok {α : Type} (a : α) : notVNF (Except.ok a : Except GbfErr α) := by
  intro q h
  exact Except.noConfusion h

/-- A `pure` is never a `VarNotFound` failure. -/
theorem notVNF_pure {α : Type} (a : α) : notVNF (pure a : Except GbfErr α) :=
  notVNF_ok a

/-- An error built from any other constructor is not `VarNotFound`. -/
theorem notVNF_err {α : Type} {e : GbfErr} (he : ∀ q, e ≠ GbfErr.varNotFound q) :
    notVNF (Except.error e : Except GbfErr α) := by
  intro q h
  exact he q (Except.error.inj h)

/-- `mul_usize` only fails with a format error. -/
theorem notVNF_mulUsize (a b : Nat) : notVNF (mulUsize a b) := by
  unfold mulUsize
  split
  · exact notVNF_ok _
  · exact notVNF_err (fun q h => nomatch h)

/-- `checked_add_u64` only fails with a format error. -/
theorem notVNF_checkedAddU64 (a b : Nat) : notVNF (checkedAddU64 a b) := by
  unfold checkedAddU64
  split
  · exact notVNF_ok _
  · exact notVNF_err (fun q h => nomatch h)

/-- A monadic fold whose body never raises `VarNotFound` never raises
it either. -/
theorem notVNF_foldlM {α β : Type} (g : β → α → Except GbfErr β)
    (hg : ∀ b a, notVNF (g b a)) :
    ∀ (l : List α) (init : β), notVNF (List.foldlM g init l) := by
  intro l
  induction l with
  | nil => intro init; exact notVNF_pure _
  | cons a t ih =>
    intro init
    rw [List.foldlM_cons]
    exact notVNF_bind (hg init a) (fun b => ih b)

/-- `element_count_checked` only fails with a format error. -/
theorem notVNF_elementCountChecked (shape : List Nat) :
    notVNF (elementCountChecked shape) := by
  unfold elementCountChecked
  split
  · exact notVNF_ok _
  · split
    · exact notVNF_ok _
    · exact notVNF_foldlM mulUsize (fun b a => notVNF_mulUsize b a) shape 1

/-- The string element loop of `decode_leaf` only fails with format
errors. -/
theorem notVNF_decStringElems (raw : List Byte) :
    ∀ (n idx : Nat), notVNF (decStringElems raw idx n) := by
  intro n
  induction n with
  | zero => intro idx; exact notVNF_ok _
  | succ n ih =>
    intro idx
    simp only [decStringElems]
    split
    · exact notVNF_err (fun q h => nomatch h)
    · split
      · exact notVNF_err (fun q h => nomatch h)
      · split
        · exact notVNF_bind (ih _) (fun rest => notVNF_ok _)
        · split
          · exact notVNF_bind (ih _) (fun rest => notVNF_ok _)
          · exact notVNF_err (fun q h => nomatch h)

/-- The category-table loop of `decode_leaf` only fails with format
errors. -/
theorem notVNF_decCatList (raw : List Byte) :
    ∀ (n idx : Nat), notVNF (decCatList raw idx n) := by
  intro n
  induction n with
  | zero => intro idx; exact notVNF_ok _
  | succ n ih =>
    intro idx
    simp only [decCatList]
    split
    · exact notVNF_err (fun q h => nomatch h)
    · split
      · exact notVNF_err (fun q h => nomatch h)
      · split
        · exact notVNF_bind (ih _) (fun rest => notVNF_ok _)
        · exact notVNF_err (fun q h => nomatch h)

/-- The optional-metadata reads of the `datetime` arm only fail with
format errors. -/
theorem notVNF_decMetaOpt (len : Nat) (bytes : List Byte) (msg : String) :
    notVNF (decMetaOpt len bytes msg) := by
  unfold decMetaOpt
  split
  · split
    · exact notVNF_ok _
    · exact notVNF_err (fun q h => nomatch h)
  · exact notVNF_ok _

/-- `decode_leaf` only fails with format or unsupported errors. -/
theorem notVNF_decodeLeaf (field : FieldMeta) (raw : List Byte) :
    notVNF (decodeLeaf field raw) := by
  simp only [decodeLeaf]
  refine notVNF_bind (notVNF_elementCountChecked _) (fun n => ?_)
  by_cases h1 : asciiLower field.kind = "struct"
  · rw [if_pos h1]; exact notVNF_ok _
  rw [if_neg h1]
  by_cases h2 : asciiLower field.kind = "numeric"
  · rw [if_pos h2]
    cases hcls : NumericClass.fromMatlabClass field.className with
    | none => exact notVNF_err (fun q h => nomatch h)
    | some cls =>
      refine notVNF_bind (notVNF_mulUsize _ _) (fun partBytes => ?_)
      repeat
        first
          | exact notVNF_ok _
          | exact notVNF_err (fun q h => nomatch h)
          | split
  rw [if_neg h2]
  by_cases h3 : asciiLower field.kind = "logical"
  · rw [if_pos h3]
    split
    · exact notVNF_err (fun q h => nomatch h)
    · exact notVNF_ok _
  rw [if_neg h3]
  by_cases h4 : asciiLower field.kind = "char"
  · rw [if_pos h4]
    split
    · exact notVNF_err (fun q h => nomatch h)
    · exact notVNF_ok _
  rw [if_neg h4]
  by_cases h5 : asciiLower field.kind = "string"
  · rw [if_pos h5]
    exact notVNF_bind (notVNF_decStringElems _ _ _) (fun data => notVNF_ok _)
  rw [if_neg h5]
  by_cases h6 : asciiLower field.kind = "datetime"
  · rw [if_pos h6]
    by_cases hd1 : raw.length < 1 + 4 + 4 + 4
    · rw [if_pos hd1]; exact notVNF_err (fun q h => nomatch h)
    rw [if_neg hd1]
    by_cases hd2 : 5 + readU32At raw 1 > raw.length
    · rw [if_pos hd2]; exact notVNF_err (fun q h => nomatch h)
    rw [if_neg hd2]
    refine notVNF_bind (notVNF_decMetaOpt _ _ _) (fun tz => ?_)
    by_cases hd3 : 9 + readU32At raw 1 + readU32At raw (5 + readU32At raw 1)
        > raw.length
    · rw [if_pos hd3]; exact notVNF_err (fun q h => nomatch h)
    rw [if_neg hd3]
    refine notVNF_bind (notVNF_decMetaOpt _ _ _) (fun locale => ?_)
    by_cases hd4 : 13 + readU32At raw 1 + readU32At raw (5 + readU32At raw 1)
        + readU32At raw (9 + readU32At raw 1 + readU32At raw (5 + readU32At raw 1))
        > raw.length
    · rw [if_pos hd4]; exact notVNF_err (fun q h => nomatch h)
    rw [if_neg hd4]
    refine notVNF_bind (notVNF_decMetaOpt _ _ _) (fun format => ?_)
    repeat
      first
        | exact notVNF_ok _
        | exact notVNF_err (fun q h => nomatch h)
        | split
  rw [if_neg h6]
  by_cases h7 : asciiLower field.kind = "duration"
  · rw [if_pos h7]
    split
    · exact notVNF_err (fun q h => nomatch h)
    · exact notVNF_ok _
  rw [if_neg h7]
  by_cases h8 : asciiLower field.kind = "calendarduration"
  · rw [if_pos h8]
    split
    · exact notVNF_err (fun q h => nomatch h)
    · exact notVNF_ok _
  rw [if_neg h8]
  by_cases h9 : asciiLower field.kind = "categorical"
  · rw [if_pos h9]
    split
    · exact notVNF_err (fun q h => nomatch h)
    · refine notVNF_bind (notVNF_decCatList _ _ _) (fun p => ?_)
      repeat
        first
          | exact notVNF_ok _
          | exact notVNF_err (fun q h => nomatch h)
          | split
  rw [if_neg h9]
  exact notVNF_err (fun q h => nomatch h)

/-- `zlib_decompress` only fails with format errors. -/
theorem notVNF_zlibDecompress (zd : List Byte → Except String (List Byte))
    (comp : List Byte) (maxOut : Nat) : notVNF (zlibDecompress zd comp maxOut) := by
  simp only [zlibDecompress]
  split
  · exact notVNF_err (fun q h => nomatch h)
  · split
    · exact notVNF_err (fun q h => nomatch h)
    · exact notVNF_ok _

/-- `decode_field_bytes` never fails with `VarNotFound`. -/
theorem notVNF_decodeFieldBytes (zd : List Byte → Except String (List Byte))
    (field : FieldMeta) (compBytes : List Byte) (validate : Bool) :
    notVNF (decodeFieldBytes zd field compBytes validate) := by
  simp only [decodeFieldBytes]
  repeat
    first
      | exact notVNF_ok _
      | exact notVNF_err (fun q h => nomatch h)
      | exact notVNF_zlibDecompress zd compBytes _ _
      | apply notVNF_bind
      | split
      | intro x

/-- `assign_by_path`'s descent only fails with format errors. -/
theorem notVNF_assignParts (v : GbfValue) :
    ∀ (parts : List Name) (m : Smap), notVNF (assignParts v parts m) := by
  intro parts
  induction parts with
  | nil => intro m; exact notVNF_err (fun q h => nomatch h)
  | cons p rest ih =>
    intro m
    cases rest with
    | nil =>
      simp only [assignParts]
      split
      · exact notVNF_err (fun q h => nomatch h)
      · exact notVNF_ok _
    | cons p2 rest2 =>
      simp only [assignParts]
      split
      · exact notVNF_err (fun q h => nomatch h)
      · split
        · exact notVNF_bind (ih _) (fun sub => notVNF_ok _)
        · exact notVNF_bind (ih _) (fun sub => notVNF_ok _)
        · exact notVNF_err (fun q h => nomatch h)

/-- `assign_by_path` only fails with format errors. -/
theorem notVNF_assignByPath (m : Smap) (path : Name) (v : GbfValue) :
    notVNF (assignByPath m path v) := by
  unfold assignByPath
  split
  · exact notVNF_err (fun q h => nomatch h)
  · exact notVNF_assignParts v (splitDots path) m

/-- `validate_header_crc` never fails with `VarNotFound`. -/
theorem notVNF_validateHeaderCrc (storedHex json : List Byte) :
    notVNF (validateHeaderCrc storedHex json) := by
  simp only [validateHeaderCrc]
  split
  · exact notVNF_ok _
  · split
    · exact notVNF_err (fun q h => nomatch h)
    · exact notVNF_ok _

/-- The post-parse header validation never fails with `VarNotFound`. -/
theorem notVNF_validateHeaderRead (h : Header) (json : List Byte)
    (actualFileSize headerLen : Nat) (validate : Bool) :
    notVNF (validateHeaderRead h json actualFileSize headerLen validate) := by
  simp only [validateHeaderRead]
  repeat
    first
      | exact notVNF_ok _
      | exact notVNF_err (fun q h' => nomatch h')
      | exact notVNF_validateHeaderCrc _ _
      | apply notVNF_bind
      | split
      | intro x

/-- `read_header_and_json`'s checks never fail with `VarNotFound`. -/
theorem notVNF_readHeaderChecks (h : Header) (json payload : List Byte)
    (validate : Bool) : notVNF (readHeaderChecks h json payload validate) := by
  unfold readHeaderChecks
  split
  · exact notVNF_err (fun q h' => nomatch h')
  · exact notVNF_validateHeaderRead _ _ _ _ _

/-- `read_field_raw` never fails with `VarNotFound`. -/
theorem notVNF_readFieldRaw (file : List Byte) (payloadStart : Nat)
    (f : FieldMeta) : notVNF (readFieldRaw file payloadStart f) := by
  simp only [readFieldRaw]
  repeat
    first
      | exact notVNF_ok _
      | exact notVNF_err (fun q h => nomatch h)
      | exact notVNF_checkedAddU64 _ _
      | apply notVNF_bind
      | split
      | intro x

/-- `flush_group` never fails with `VarNotFound`. -/
theorem notVNF_flushGroup (file : List Byte) (payloadStart gStart gEnd : Nat)
    (gFields : List FieldMeta) :
    notVNF (flushGroup file payloadStart gStart gEnd gFields) := by
  simp only [flushGroup]
  repeat
    first
      | exact notVNF_ok _
      | exact notVNF_err (fun q h => nomatch h)
      | exact notVNF_checkedAddU64 _ _
      | apply notVNF_bind
      | split
      | intro x

/-- The grouping loop of `coalesced_read` never fails with
`VarNotFound`. -/
theorem notVNF_coalLoop (file : List Byte) (payloadStart : Nat) :
    ∀ (fields : List FieldMeta) (gStart gEnd : Nat)
      (gFields : List FieldMeta) (out : List (Name × List Byte)),
      notVNF (coalLoop file payloadStart fields gStart gEnd gFields out) := by
  intro fields
  induction fields with
  | nil =>
    intro gStart gEnd gFields out
    simp only [coalLoop]
    exact notVNF_bind (notVNF_flushGroup _ _ _ _ _) (fun g => notVNF_ok _)
  | cons f rest ih =>
    intro gStart gEnd gFields out
    simp only [coalLoop]
    refine notVNF_bind (notVNF_checkedAddU64 _ _) (fun fEnd => ?_)
    repeat
      first
        | exact ih _ _ _ _
        | exact notVNF_bind (notVNF_flushGroup _ _ _ _ _) (fun g => ih _ _ _ _)
        | split

/-- `coalesced_read` never fails with `VarNotFound`. -/
theorem notVNF_coalescedRead (file : List Byte) (payloadStart : Nat)
    (fields : List FieldMeta) :
    notVNF (coalescedRead file payloadStart fields) := by
  unfold coalescedRead
  split
  · exact notVNF_ok _
  · exact notVNF_bind (notVNF_checkedAddU64 _ _)
      (fun gEnd0 => notVNF_coalLoop _ _ _ _ _ _ _)

/-- `read_file` never fails with `VarNotFound`. -/
theorem notVNF_readFileModel (zd : List Byte → Except String (List Byte))
    (h : Header) (json payload : List Byte) (validate : Bool) :
    notVNF (readFileModel zd h json payload validate) := by
  simp only [readFileModel]
  refine notVNF_bind (notVNF_readHeaderChecks _ _ _ _) (fun u => ?_)
  refine notVNF_bind (notVNF_coalescedRead _ _ _) (fun chunks => ?_)
  refine notVNF_bind (notVNF_foldlM _ (fun acc nb => ?_) _ _) (fun out => ?_)
  · repeat
      first
        | exact notVNF_ok _
        | exact notVNF_err (fun q h' => nomatch h')
        | exact notVNF_decodeFieldBytes _ _ _ _
        | exact notVNF_decodeLeaf _ _
        | exact notVNF_assignByPath _ _ _
        | apply notVNF_bind
        | split
        | intro x
  · repeat
      first
        | exact notVNF_ok _
        | split

/-- The exact-match branch of `read_var` never fails with
`VarNotFound`. -/
theorem notVNF_readVarExact (zd : List Byte → Except String (List Byte))
    (file : List Byte) (payloadStart : Nat) (field : FieldMeta)
    (validate : Bool) :
    notVNF (readVarExact zd file payloadStart field validate) := by
  simp only [readVarExact]
  exact notVNF_bind (notVNF_readFieldRaw _ _ _)
    (fun compBytes => notVNF_bind (notVNF_decodeFieldBytes _ _ _ _)
      (fun raw => notVNF_decodeLeaf _ _))

/-- The prefix-match branch of `read_var` never fails with
`VarNotFound`. -/
theorem notVNF_readVarSubtree (zd : List Byte → Except String (List Byte))
    (file : List Byte) (payloadStart : Nat) (pfx : Name)
    (subtreeFields : List FieldMeta) (validate : Bool) :
    notVNF (readVarSubtree zd file payloadStart pfx subtreeFields validate) := by
  simp only [readVarSubtree]
  refine notVNF_bind (notVNF_coalescedRead _ _ _) (fun chunks => ?_)
  refine notVNF_bind (notVNF_foldlM _ (fun acc nb => ?_) _ _)
    (fun out => notVNF_ok _)
  repeat
    first
      | exact notVNF_ok _
      | exact notVNF_err (fun q h' => nomatch h')
      | exact notVNF_decodeFieldBytes _ _ _ _
      | exact notVNF_decodeLeaf _ _
      | exact notVNF_assignByPath _ _ _
      | apply notVNF_bind
      | split
      | intro x

/-- C7 counterexample: on a file whose only field is named `A`, the
empty query and the whitespace-padded query `" A "` each have neither
an exact nor a prefix match in the header (third conjunct), yet
`read_var` does not fail with `VarNotFound`: the empty query falls back
to a full `read_file` (first conjunct) and the padded query is trimmed
before matching and returns the single field `A` (second conjunct),
contradicting the claim that `VarNotFound(p)` is raised exactly when
`p` has no exact and no prefix match. -/
theorem empty_and_padded_queries_bypass_var_not_found :
    readVarModel (fun x => .ok x)
        (writtenHeader ("struct") (assignOffsets [hdrField0]) [123, 125])
        [123, 125] [] [] true
      = .ok (.struct [(['A'], .emptyStruct)])
    ∧ readVarModel (fun x => .ok x)
        (writtenHeader ("struct") (assignOffsets [hdrField0]) [123, 125])
        [123, 125] [] [' ', 'A', ' '] true
      = .ok .emptyStruct
    ∧ (∀ f ∈ (writtenHeader ("struct") (assignOffsets [hdrField0])
          [123, 125]).fields,
        f.name ≠ ([] : Name) ∧ f.name ≠ [' ', 'A', ' ']
        ∧ listStartsWith (([] : Name) ++ ['.']) f.name = false
        ∧ listStartsWith ([' ', 'A', ' '] ++ ['.']) f.name = false) := by
  refine ⟨rfl, rfl, ?_⟩
  intro f hf
  rw [List.mem_singleton.mp hf]
  refine ⟨by decide, by decide, by decide, by decide⟩

/-- C7 amended: dispatch of `read_var` on the TRIMMED query.  An empty
trimmed query falls back to a full `read_file` (first conjunct); an
exact name match on the trimmed query decodes that single field
(second conjunct); otherwise the fields extending the trimmed query by
a dot, when any exist, are assembled into a subtree (third conjunct);
and the read fails with `VarNotFound p` exactly when the header checks
pass, the trimmed query is non-empty, no field name equals it, no
field name starts with it followed by a dot, and `p` is the trimmed
query, not the original one (fourth conjunct). -/
theorem read_var_dispatch (zd : List Byte → Except String (List Byte))
    (h : Header) (json payload : List Byte) (varPath : Name)
    (validate : Bool) :
    (trimName varPath = [] →
      readVarModel zd h json payload varPath validate
        = readFileModel zd h json payload validate)
    ∧ (∀ field, trimName varPath ≠ [] →
      h.fields.find? (fun f => f.name = trimName varPath) = some field →
      readVarModel zd h json payload varPath validate
        = (do
            readHeaderChecks h json payload validate
            readVarExact zd (fileBytes json payload)
              (fieldPayloadStart json.length h.payloadStart) field validate))
    ∧ (trimName varPath ≠ [] →
      h.fields.find? (fun f => f.name = trimName varPath) = none →
      h.fields.filter
          (fun f => listStartsWith (trimName varPath ++ ['.']) f.name) ≠ [] →
      readVarModel zd h json payload varPath validate
        = (do
            readHeaderChecks h json payload validate
            readVarSubtree zd (fileBytes json payload)
              (fieldPayloadStart json.length h.payloadStart)
              (trimName varPath ++ ['.'])
              (h.fields.filter
                (fun f => listStartsWith (trimName varPath ++ ['.']) f.name))
              validate))
    ∧ (∀ p, readVarModel zd h json payload varPath validate
          = .error (.varNotFound p)
        ↔ (readHeaderChecks h json payload validate = .ok ()
           ∧ trimName varPath ≠ []
           ∧ (∀ f ∈ h.fields, f.name ≠ trimName varPath)
           ∧ (∀ f ∈ h.fields,
               listStartsWith (trimName varPath ++ ['.']) f.name = false)
           ∧ p = trimName varPath)) := by
  refine ⟨?_, ?_, ?_, ?_⟩
  · intro h1
    cases hc : readHeaderChecks h json payload validate with
    | error e =>
      simp only [readVarModel, readFileModel, hc, bind, exceptBind_err]
    | ok u =>
      cases u
      have hqe : (trimName varPath).isEmpty = true := by rw [h1]; rfl
      simp only [readVarModel, hc, bind, exceptBind_ok, hqe,
        eq_self_iff_true, if_true]
  · intro field hq hfind
    have hqe : (trimName varPath).isEmpty = false := by
      cases hql : trimName varPath with
      | nil => exact absurd hql hq
      | cons a t => rfl
    cases hc : readHeaderChecks h json payload validate with
    | error e =>
      simp only [readVarModel, hc, bind, exceptBind_err]
    | ok u =>
      cases u
      simp only [readVarModel, readVarExact, hc, bind, exceptBind_ok, hqe,
        Bool.false_eq_true, if_false, hfind]
  · intro hq hfind hfne
    have hqe : (trimName varPath).isEmpty = false := by
      cases hql : trimName varPath with
      | nil => exact absurd hql hq
      | cons a t => rfl
    have hfe : (h.fields.filter
        (fun f => listStartsWith (trimName varPath ++ ['.']) f.name)).isEmpty
        = false := by
      cases hfl : h.fields.filter
          (fun f => listStartsWith (trimName varPath ++ ['.']) f.name) with
      | nil => exact absurd hfl hfne
      | cons b l => rfl
    cases hc : readHeaderChecks h json payload validate with
    | error e =>
      simp only [readVarModel, hc, bind, exceptBind_err]
    | ok u =>
      cases u
      simp only [readVarModel, readVarSubtree, hc, bind, exceptBind_ok, hqe,
        Bool.false_eq_true, if_false, hfind, hfe]
  · intro p
    constructor
    · intro heq
      cases hc : readHeaderChecks h json payload validate with
      | error e =>
        exfalso
        have hl : readVarModel zd h json payload varPath validate
            = .error e := by
          simp only [readVarModel, hc, bind, exceptBind_err]
        rw [hl] at heq
        have he : e = GbfErr.varNotFound p := Except.error.inj heq
        exact notVNF_readHeaderChecks h json payload validate p (by rw [hc, he])
      | ok u =>
        cases u
        cases hqe : (trimName varPath).isEmpty with
        | true =>
          exfalso
          have hl : readVarModel zd h json payload varPath validate
              = readFileModel zd h json payload validate := by
            simp only [readVarModel, hc, bind, exceptBind_ok, hqe,
              eq_self_iff_true, if_true]
          rw [hl] at heq
          exact notVNF_readFileModel zd h json payload validate p heq
        | false =>
          have hq : trimName varPath ≠ [] := by
            intro hcontra
            rw [hcontra] at hqe
            exact Bool.noConfusion hqe
          cases hfind : h.fields.find? (fun f => f.name = trimName varPath) with
          | some field =>
            exfalso
            have hl : readVarModel zd h json payload varPath validate
                = readVarExact zd (fileBytes json payload)
                  (fieldPayloadStart json.length h.payloadStart) field
                  validate := by
              simp only [readVarModel, readVarExact, hc, bind, exceptBind_ok,
                hqe, Bool.false_eq_true, if_false, hfind]
            rw [hl] at heq
            exact notVNF_readVarExact zd _ _ field validate p heq
          | none =>
            cases hfe : (h.fields.filter
                (fun f => listStartsWith (trimName varPath ++ ['.'])
                  f.name)).isEmpty with
            | true =>
              have hl : readVarModel zd h json payload varPath validate
                  = .error (.varNotFound (trimName varPath)) := by
                simp only [readVarModel, hc, bind, exceptBind_ok, hqe,
                  Bool.false_eq_true, if_false, hfind, hfe,
                  eq_self_iff_true, if_true]
              rw [hl] at heq
              have hp : trimName varPath = p := by
                injection heq with h2
                exact GbfErr.varNotFound.inj h2
              have hfl : h.fields.filter
                  (fun f => listStartsWith (trimName varPath ++ ['.']) f.name)
                  = [] := by
                cases hfl2 : h.fields.filter
                    (fun f => listStartsWith (trimName varPath ++ ['.'])
                      f.name) with
                | nil => rfl
                | cons b l => rw [hfl2] at hfe; exact Bool.noConfusion hfe
              refine ⟨rfl, hq, ?_, ?_, hp.symm⟩
              · intro f hf hcontra
                exact (List.find?_eq_none.mp hfind f hf)
                  (decide_eq_true hcontra)
              · intro f hf
                cases hlsw : listStartsWith (trimName varPath ++ ['.'])
                    f.name with
                | false => rfl
                | true =>
                  exact absurd hlsw (List.filter_eq_nil_iff.mp hfl f hf)
            | false =>
              exfalso
              have hl : readVarModel zd h json payload varPath validate
                  = readVarSubtree zd (fileBytes json payload)
                    (fieldPayloadStart json.length h.payloadStart)
                    (trimName varPath ++ ['.'])
                    (h.fields.filter
                      (fun f => listStartsWith (trimName varPath ++ ['.'])
                        f.name))
                    validate := by
                simp only [readVarModel, readVarSubtree, hc, bind,
                  exceptBind_ok, hqe, Bool.false_eq_true, if_false, hfind, hfe]
              rw [hl] at heq
              exact notVNF_readVarSubtree zd _ _ _ _ validate p heq
    · rintro ⟨hc, hq, hnoexact, hnopfx, hp⟩
      have hqe : (trimName varPath).isEmpty = false := by
        cases hql : trimName varPath with
        | nil => exact absurd hql hq
        | cons a t => rfl
      have hfind : h.fields.find? (fun f => f.name = trimName varPath)
          = none := by
        rw [List.find?_eq_none]
        intro f hf hcontra
        exact hnoexact f hf (of_decide_eq_true hcontra)
      have hfl : h.fields.filter
          (fun f => listStartsWith (trimName varPath ++ ['.']) f.name)
          = [] := by
        rw [List.filter_eq_nil_iff]
        intro f hf hcontra
        rw [hnopfx f hf] at hcontra
        exact Bool.noConfusion hcontra
      have hfe : (h.fields.filter
          (fun f => listStartsWith (trimName varPath ++ ['.'])
            f.name)).isEmpty = true := by
        rw [hfl]; rfl
      have hl : readVarModel zd h json payload varPath validate
          = .error (.varNotFound (trimName varPath)) := by
        simp only [readVarModel, hc, bind, exceptBind_ok, hqe,
          Bool.false_eq_true, if_false, hfind, hfe, eq_self_iff_true, if_true]
      rw [hl, hp]

/-- Closed witness for the VarNotFound direction of the `read_var`
dispatch theorem: querying `B` on a file whose only field is `A` fails
with `VarNotFound "B"`. -/
theorem read_var_dispatch_witness :
    readVarModel (fun x => .ok x)
        (writtenHeader ("struct") (assignOffsets [hdrField0]) [123, 125])
        [123, 125] [] ['B'] true
      = .error (.varNotFound ['B']) := by
  refine ((read_var_dispatch (fun x => .ok x)
      (writtenHeader ("struct") (assignOffsets [hdrField0]) [123, 125])
      [123, 125] [] ['B'] true).2.2.2 ['B']).mpr ⟨rfl, ?_, ?_, ?_, ?_⟩
  · decide
  · intro f hf
    rw [List.mem_singleton.mp hf]
    decide
  · intro f hf
    rw [List.mem_singleton.mp hf]
    decide
  · decide

/-- Reading a byte beyond a prefix reads the suffix. -/
theorem byteAt_append_right (a b : List Byte) (i : Nat) :
    byteAt (a ++ b) (a.length + i) = byteAt b i := by
  unfold byteAt
  rw [List.getD_append_right a b 0 (a.length + i) (by omega)]
  congr 1
  omega

/-- Reading a byte inside a prefix reads the prefix. -/
theorem byteAt_append_left (a b : List Byte) (i : Nat) (h : i < a.length) :
    byteAt (a ++ b) i = byteAt a i := by
  unfold byteAt
  rw [List.getD_append a b 0 i h]

/-- Reading a byte of a drop reads at the shifted position. -/
theorem byteAt_drop (l : List Byte) (p i : Nat) :
    byteAt (l.drop p) i = byteAt l (p + i) := by
  unfold byteAt
  rw [List.getD_eq_getElem?_getD, List.getD_eq_getElem?_getD,
    List.getElem?_drop]

/-- u16 reads commute with drop. -/
theorem readU16At_drop (l : List Byte) (p i : Nat) :
    readU16At (l.drop p) i = readU16At l (p + i) := by
  unfold readU16At
  rw [byteAt_drop, byteAt_drop]
  ring_nf

/-- u32 reads commute with drop. -/
theorem readU32At_drop (l : List Byte) (p i : Nat) :
    readU32At (l.drop p) i = readU32At l (p + i) := by
  unfold readU32At
  rw [byteAt_drop, byteAt_drop, byteAt_drop, byteAt_drop]
  ring_nf

/-- u64 reads commute with drop. -/
theorem readU64At_drop (l : List Byte) (p i : Nat) :
    readU64At (l.drop p) i = readU64At l (p + i) := by
  unfold readU64At
  rw [byteAt_drop, byteAt_drop, byteAt_drop, byteAt_drop,
    byteAt_drop, byteAt_drop, byteAt_drop, byteAt_drop]
  ring_nf

/-- i16 reads commute with drop. -/
theorem readI16At_drop (l : List Byte) (p i : Nat) :
    readI16At (l.drop p) i = readI16At l (p + i) := by
  unfold readI16At
  rw [readU16At_drop]

/-- i32 reads commute with drop. -/
theorem readI32At_drop (l : List Byte) (p i : Nat) :
    readI32At (l.drop p) i = readI32At l (p + i) := by
  unfold readI32At
  rw [readU32At_drop]

/-- i64 reads commute with drop. -/
theorem readI64At_drop (l : List Byte) (p i : Nat) :
    readI64At (l.drop p) i = readI64At l (p + i) := by
  unfold readI64At
  rw [readU64At_drop]

/-- Dropping a whole prefix of an append. -/
theorem drop_append_len (a b : List Byte) : (a ++ b).drop a.length = b :=
  List.drop_left a b

/-- Dropping beyond a prefix of an append. -/
theorem drop_append_add (a b : List Byte) (i : Nat) :
    (a ++ b).drop (a.length + i) = b.drop i := by
  rw [← List.drop_drop, drop_append_len]

/-- Slices commute with drop. -/
theorem sliceAt_drop (l : List Byte) (p i len : Nat) :
    sliceAt (l.drop p) i len = sliceAt l (p + i) len := by
  unfold sliceAt
  rw [List.drop_drop]

/-- A slice beyond a prefix slices the suffix. -/
theorem sliceAt_append_right (a b : List Byte) (i len : Nat) :
    sliceAt (a ++ b) (a.length + i) len = sliceAt b i len := by
  unfold sliceAt
  rw [drop_append_add]

/-- A slice at the start takes a prefix. -/
theorem sliceAt_zero (l : List Byte) (len : Nat) :
    sliceAt l 0 len = l.take len := rfl

/-- Slicing exactly a leading append component returns it. -/
theorem sliceAt_append_exact (a b : List Byte) :
    sliceAt (a ++ b) 0 a.length = a := by
  rw [sliceAt_zero, List.take_left]

/-- Length of the little-endian u16 bytes. -/
theorem u16le_length (x : Nat) : (u16le x).length = 2 := rfl

/-- Length of the little-endian u32 bytes. -/
theorem u32le_length (x : Nat) : (u32le x).length = 4 := rfl

/-- Length of the little-endian u64 bytes. -/
theorem u64le_length (x : Nat) : (u64le x).length = 8 := rfl

/-- Length of the little-endian i16 bytes. -/
theorem i16le_length (x : Int) : (i16le x).length = 2 := rfl

/-- Length of the little-endian i32 bytes. -/
theorem i32le_length (x : Int) : (i32le x).length = 4 := rfl

/-- Length of the little-endian i64 bytes. -/
theorem i64le_length (x : Int) : (i64le x).length = 8 := rfl

/-- u16 round-trip at the head of a byte stream. -/
theorem readU16At_u16le (x : Nat) (r : List Byte) (h : x < 2 ^ 16) :
    readU16At (u16le x ++ r) 0 = x := by
  simp only [u16le, List.cons_append, List.nil_append, readU16At, byteAt,
    List.getD_cons_zero, List.getD_cons_succ]
  omega

/-- u32 round-trip at the head of a byte stream. -/
theorem readU32At_u32le (x : Nat) (r : List Byte) (h : x < 2 ^ 32) :
    readU32At (u32le x ++ r) 0 = x := by
  simp only [u32le, List.cons_append, List.nil_append, readU32At, byteAt,
    List.getD_cons_zero, List.getD_cons_succ]
  omega

/-- u64 round-trip at the head of a byte stream. -/
theorem readU64At_u64le (x : Nat) (r : List Byte) (h : x < 2 ^ 64) :
    readU64At (u64le x ++ r) 0 = x := by
  simp only [u64le, List.cons_append, List.nil_append, readU64At, byteAt,
    List.getD_cons_zero, List.getD_cons_succ]
  omega

/-- The two's-complement representative is within the word range. -/
theorem twosComp_lt (w : Nat) (x : Int) : twosComp w x < 2 ^ w := by
  unfold twosComp
  have h2 : (0 : Int) < 2 ^ w := by positivity
  have hm := Int.emod_lt_of_pos x h2
  have hz : ((2 : Int) ^ w) = ((2 ^ w : Nat) : Int) := by push_cast; ring
  omega

/-- i16 round-trip at the head of a byte stream. -/
theorem readI16At_i16le (x : Int) (r : List Byte) (h : inI16 x = true) :
    readI16At (i16le x ++ r) 0 = x := by
  have hr := of_decide_eq_true h
  unfold readI16At i16le
  rw [readU16At_u16le _ _ (twosComp_lt 16 x)]
  unfold fromTwos twosComp
  have h2 : (0 : Int) < 2 ^ 16 := by positivity
  have hm := Int.emod_lt_of_pos x h2
  have hnn := Int.emod_nonneg x (by positivity : ((2 : Int) ^ 16) ≠ 0)
  have hdiff : (2 : Int) ^ 16 ∣ x - x % 2 ^ 16 := Int.dvd_sub_of_emod_eq rfl
  obtain ⟨k, hk⟩ := hdiff
  split
  · omega
  · omega

/-- i32 round-trip at the head of a byte stream. -/
theorem readI32At_i32le (x : Int) (r : List Byte) (h : inI32 x = true) :
    readI32At (i32le x ++ r) 0 = x := by
  have hr := of_decide_eq_true h
  unfold readI32At i32le
  rw [readU32At_u32le _ _ (twosComp_lt 32 x)]
  unfold fromTwos twosComp
  have h2 : (0 : Int) < 2 ^ 32 := by positivity
  have hm := Int.emod_lt_of_pos x h2
  have hnn := Int.emod_nonneg x (by positivity : ((2 : Int) ^ 32) ≠ 0)
  have hdiff : (2 : Int) ^ 32 ∣ x - x % 2 ^ 32 := Int.dvd_sub_of_emod_eq rfl
  obtain ⟨k, hk⟩ := hdiff
  split
  · omega
  · omega

/-- i64 round-trip at the head of a byte stream. -/
theorem readI64At_i64le (x : Int) (r : List Byte) (h : inI64 x = true) :
    readI64At (i64le x ++ r) 0 = x := by
  have hr := of_decide_eq_true h
  unfold readI64At i64le
  rw [readU64At_u64le _ _ (twosComp_lt 64 x)]
  unfold fromTwos twosComp
  have h2 : (0 : Int) < 2 ^ 64 := by positivity
  have hm := Int.emod_lt_of_pos x h2
  have hnn := Int.emod_nonneg x (by positivity : ((2 : Int) ^ 64) ≠ 0)
  have hdiff : (2 : Int) ^ 64 ∣ x - x % 2 ^ 64 := Int.dvd_sub_of_emod_eq rfl
  obtain ⟨k, hk⟩ := hdiff
  split
  · omega
  · omega

/-- Length of a flattened map of fixed-width encoders. -/
theorem flatten_map_length {α : Type} (f : α → List Byte) (w : Nat)
    (hw : ∀ a, (f a).length = w) :
    ∀ l : List α, ((l.map f).flatten).length = w * l.length := by
  intro l
  induction l with
  | nil => simp
  | cons a t ih =>
    simp only [List.map_cons, List.flatten_cons, List.length_append, ih, hw a,
      List.length_cons]
    ring

/-- Dropping whole elements of a flattened fixed-width encoding. -/
theorem flatten_map_drop {α : Type} (f : α → List Byte) (w : Nat)
    (hw : ∀ a, (f a).length = w) :
    ∀ (l : List α) (i : Nat), i ≤ l.length →
      ((l.map f).flatten).drop (w * i) = ((l.drop i).map f).flatten := by
  intro l
  induction l with
  | nil =>
    intro i hi
    simp only [List.length_nil, Nat.le_zero] at hi
    subst hi
    simp
  | cons a t ih =>
    intro i hi
    cases i with
    | zero => simp
    | succ j =>
      simp only [List.map_cons, List.flatten_cons, List.drop_succ_cons]
      have hmul : w * (j + 1) = w + w * j := by ring
      rw [hmul, ← List.drop_drop]
      have hhead : (f a ++ (t.map f).flatten).drop w = (t.map f).flatten := by
        rw [← hw a]
        exact List.drop_left _ _
      rw [hhead]
      exact ih j (by simpa using hi)

/-- `mulUsize` succeeds below the u64 bound. -/
theorem mulUsize_eq_ok (a b : Nat) (h : a * b < 2 ^ 64) :
    mulUsize a b = .ok (a * b) := by
  unfold mulUsize
  rw [if_pos h]

/-- The MATLAB class name emitted for a numeric class parses back to
the same class. -/
theorem fromMatlabClass_asMatlabClass (cls : NumericClass) :
    NumericClass.fromMatlabClass cls.asMatlabClass = some cls := by
  cases cls <;> decide

/-- Reading a fixed-width flattened encoding element-by-element
recovers the encoded list. -/
theorem map_read_fixed {β : Type} (data : List β) (enc : β → List Byte)
    (w : Nat) (hw : ∀ x, (enc x).length = w)
    (read : List Byte → Nat → β)
    (hshift : ∀ (l : List Byte) (p i : Nat), read (l.drop p) i = read l (p + i))
    (hhead : ∀ x ∈ data, ∀ r : List Byte, read (enc x ++ r) 0 = x)
    (rest : List Byte) :
    (List.range data.length).map
        (fun i => read ((data.map enc).flatten ++ rest) (w * i)) = data := by
  refine List.ext_getElem (by simp) ?_
  intro i hi1 hi2
  simp only [List.getElem_map, List.getElem_range]
  have hi : i < data.length := by simpa using hi2
  have hzero : w * i = w * i + 0 := by omega
  rw [hzero, ← hshift]
  have hle : w * i ≤ ((data.map enc).flatten).length := by
    rw [flatten_map_length enc w hw]
    have := hi
    calc w * i ≤ w * data.length := by
          exact Nat.mul_le_mul_left w (by omega)
      _ = _ := rfl
  rw [List.drop_append_of_le_length hle]
  rw [flatten_map_drop enc w hw data i (by omega)]
  rw [List.drop_eq_getElem_cons hi]
  simp only [List.map_cons, List.flatten_cons, List.append_assoc]
  exact hhead data[i] (List.getElem_mem hi) _

/-- The `logical` arm of `decode_leaf` as an equation. -/
theorem decodeLeaf_arm_logical (f : FieldMeta) (raw : List Byte) (n : Nat)
    (hk : f.kind = ("logical")) (hn : elementCountChecked f.shape = .ok n) :
    decodeLeaf f raw
      = if raw.length ≠ n then .error (.format ("logical size mismatch"))
        else .ok (.logical { shape := f.shape, data := raw }) := by
  simp only [decodeLeaf, hk, hn, bind, exceptBind_ok]
  rw [if_neg (by decide : ¬ (asciiLower ("logical") = "struct"))]
  rw [if_neg (by decide : ¬ (asciiLower ("logical") = "numeric"))]
  rw [if_pos (by decide : asciiLower ("logical") = "logical")]

/-- The `struct` (empty-scalar-struct) arm of `decode_leaf` as an
equation. -/
theorem decodeLeaf_arm_struct (f : FieldMeta) (raw : List Byte) (n : Nat)
    (hk : f.kind = ("struct")) (hn : elementCountChecked f.shape = .ok n) :
    decodeLeaf f raw = .ok .emptyStruct := by
  simp only [decodeLeaf, hk, hn, bind, exceptBind_ok]
  rw [if_pos (by decide : asciiLower ("struct") = "struct")]

/-- The `char` arm of `decode_leaf` as an equation. -/
theorem decodeLeaf_arm_char (f : FieldMeta) (raw : List Byte) (n : Nat)
    (hk : f.kind = ("char")) (hn : elementCountChecked f.shape = .ok n) :
    decodeLeaf f raw
      = if raw.length ≠ n * 2 then .error (.format ("char size mismatch"))
        else .ok (.char
          { shape := f.shape,
            data := (List.range n).map (fun i => readU16At raw (i * 2)) }) := by
  simp only [decodeLeaf, hk, hn, bind, exceptBind_ok]
  rw [if_neg (by decide : ¬ (asciiLower ("char") = "struct"))]
  rw [if_neg (by decide : ¬ (asciiLower ("char") = "numeric"))]
  rw [if_neg (by decide : ¬ (asciiLower ("char") = "logical"))]
  rw [if_pos (by decide : asciiLower ("char") = "char")]

/-- The `duration` arm of `decode_leaf` as an equation. -/
theorem decodeLeaf_arm_duration (f : FieldMeta) (raw : List Byte) (n : Nat)
    (hk : f.kind = ("duration")) (hn : elementCountChecked f.shape = .ok n) :
    decodeLeaf f raw
      = if raw.length ≠ n + n * 8 then
          .error (.format ("duration size mismatch"))
        else .ok (.duration
          { shape := f.shape, is_nan := raw.take n,
            ms := (List.range n).map (fun i => readI64At raw (n + 8 * i)) }) := by
  simp only [decodeLeaf, hk, hn, bind, exceptBind_ok]
  rw [if_neg (by decide : ¬ (asciiLower ("duration") = "struct"))]
  rw [if_neg (by decide : ¬ (asciiLower ("duration") = "numeric"))]
  rw [if_neg (by decide : ¬ (asciiLower ("duration") = "logical"))]
  rw [if_neg (by decide : ¬ (asciiLower ("duration") = "char"))]
  rw [if_neg (by decide : ¬ (asciiLower ("duration") = "string"))]
  rw [if_neg (by decide : ¬ (asciiLower ("duration") = "datetime"))]
  rw [if_pos (by decide : asciiLower ("duration") = "duration")]

/-- The `calendarduration` arm of `decode_leaf` as an equation. -/
theorem decodeLeaf_arm_calendar (f : FieldMeta) (raw : List Byte) (n : Nat)
    (hk : f.kind = ("calendarduration"))
    (hn : elementCountChecked f.shape = .ok n) :
    decodeLeaf f raw
      = if raw.length ≠ n + n * 4 + n * 4 + n * 8 then
          .error (.format ("calendarDuration size mismatch"))
        else .ok (.calendarDuration
          { shape := f.shape, is_missing := raw.take n,
            months := (List.range n).map (fun i => readI32At raw (n + 4 * i)),
            days := (List.range n).map (fun i => readI32At raw (5 * n + 4 * i)),
            time_ms := (List.range n).map
              (fun i => readI64At raw (9 * n + 8 * i)) }) := by
  simp only [decodeLeaf, hk, hn, bind, exceptBind_ok]
  rw [if_neg (by decide : ¬ (asciiLower ("calendarduration") = "struct"))]
  rw [if_neg (by decide : ¬ (asciiLower ("calendarduration") = "numeric"))]
  rw [if_neg (by decide : ¬ (asciiLower ("calendarduration") = "logical"))]
  rw [if_neg (by decide : ¬ (asciiLower ("calendarduration") = "char"))]
  rw [if_neg (by decide : ¬ (asciiLower ("calendarduration") = "string"))]
  rw [if_neg (by decide : ¬ (asciiLower ("calendarduration") = "datetime"))]
  rw [if_neg (by decide : ¬ (asciiLower ("calendarduration") = "duration"))]
  rw [if_pos (by decide : asciiLower ("calendarduration") = "calendarduration")]

/-- Reading one element of a fixed-width flattened encoding. -/
theorem read_flatten_at {β : Type} (data : List β) (enc : β → List Byte)
    (w : Nat) (hw : ∀ x, (enc x).length = w)
    (read : List Byte → Nat → β)
    (hshift : ∀ (l : List Byte) (p i : Nat), read (l.drop p) i = read l (p + i))
    (hhead : ∀ x ∈ data, ∀ r : List Byte, read (enc x ++ r) 0 = x)
    (rest : List Byte) (i : Nat) (hi : i < data.length) :
    read ((data.map enc).flatten ++ rest) (w * i) = data[i] := by
  have hzero : w * i = w * i + 0 := by omega
  rw [hzero, ← hshift]
  have hle : w * i ≤ ((data.map enc).flatten).length := by
    rw [flatten_map_length enc w hw]
    exact Nat.mul_le_mul_left w (by omega)
  rw [List.drop_append_of_le_length hle]
  rw [flatten_map_drop enc w hw data i (by omega)]
  rw [List.drop_eq_getElem_cons hi]
  simp only [List.map_cons, List.flatten_cons, List.append_assoc]
  exact hhead data[i] (List.getElem_mem hi) _

/-- Round trip of the empty-scalar-struct leaf. -/
theorem leaf_roundtrip_emptyStruct :
    ∃ e, encodeLeaf .emptyStruct = .ok e
      ∧ e.raw.length ≤ maxFieldBytes
      ∧ ∀ f : FieldMeta, f.kind = e.kind → f.className = e.className →
          f.shape = e.shape → f.complex = e.complex →
          decodeLeaf f e.raw = .ok .emptyStruct := by
  refine ⟨_, rfl, Nat.zero_le _, ?_⟩
  intro f hk hc hs hx
  exact decodeLeaf_arm_struct f [] 1 hk (by rw [hs]; rfl)

/-- Round trip of a well-formed logical leaf. -/
theorem leaf_roundtrip_logical (a : LogicalArray)
    (hwf : wfVal (.logical a) = true) :
    ∃ e, encodeLeaf (.logical a) = .ok e
      ∧ e.raw.length ≤ maxFieldBytes
      ∧ ∀ f : FieldMeta, f.kind = e.kind → f.className = e.className →
          f.shape = e.shape → f.complex = e.complex →
          decodeLeaf f e.raw = .ok (.logical a) := by
  unfold wfVal at hwf
  cases hn : elementCountChecked a.shape with
  | error err => rw [hn] at hwf; exact Bool.noConfusion hwf
  | ok n =>
    rw [hn] at hwf
    simp only [Bool.and_eq_true, decide_eq_true_eq] at hwf
    obtain ⟨hlen, hcap⟩ := hwf
    refine ⟨_, rfl, ?_, ?_⟩
    · simpa [hlen] using hcap
    · intro f hk hc hs hx
      rw [decodeLeaf_arm_logical f a.data n hk (by rw [hs]; exact hn)]
      rw [if_neg (by omega)]
      rw [hs]

/-- Round trip of a well-formed numeric leaf. -/
theorem leaf_roundtrip_numeric (a : NumericArray)
    (hwf : wfVal (.numeric a) = true) :
    ∃ e, encodeLeaf (.numeric a) = .ok e
      ∧ e.raw.length ≤ maxFieldBytes
      ∧ ∀ f : FieldMeta, f.kind = e.kind → f.className = e.className →
          f.shape = e.shape → f.complex = e.complex →
          decodeLeaf f e.raw = .ok (.numeric a) := by
  unfold wfVal at hwf
  cases hn : elementCountChecked a.shape with
  | error err => rw [hn] at hwf; exact Bool.noConfusion hwf
  | ok n =>
    rw [hn] at hwf
    simp only [Bool.and_eq_true, decide_eq_true_eq] at hwf
    obtain ⟨⟨⟨hm, hlen⟩, himag⟩, hcap⟩ := hwf
    cases hcx : a.complex with
    | false =>
      cases himg : a.imag_le with
      | some imag => rw [hcx, himg] at himag; exact Bool.noConfusion himag
      | none =>
        have henc : encodeLeaf (.numeric a)
            = .ok { raw := a.real_le, kind := "numeric",
                    className := a.nclass.asMatlabClass, shape := a.shape,
                    complex := false, encoding := "" } := by
          simp only [encodeLeaf, hn, bind, exceptBind_ok,
            mulUsize_eq_ok _ _ hm]
          rw [if_neg (by omega)]
          rw [hcx]
          simp only [Bool.not_false, if_true, himg, Option.isSome_none,
            Bool.false_eq_true, if_false]
        refine ⟨_, henc, ?_, ?_⟩
        · rw [hcx] at hcap
          simp at hcap
          show a.real_le.length ≤ maxFieldBytes
          omega
        · intro f hk hc hs hx
          have hfn : elementCountChecked f.shape = .ok n := by rw [hs]; exact hn
          have hcls : NumericClass.fromMatlabClass f.className
              = some a.nclass := by
            rw [hc]
            exact fromMatlabClass_asMatlabClass a.nclass
          simp only [decodeLeaf, hk, hfn, bind, exceptBind_ok]
          rw [if_neg (by decide : ¬ (asciiLower ("numeric") = "struct"))]
          rw [if_pos (by decide : asciiLower ("numeric") = "numeric")]
          simp only [hcls, mulUsize_eq_ok _ _ hm, bind, exceptBind_ok]
          rw [hx]
          simp only [Bool.not_false, if_true]
          rw [if_neg (by omega)]
          rw [hs, ← hcx, ← himg]
    | true =>
      cases himg : a.imag_le with
      | none => rw [hcx, himg] at himag; exact Bool.noConfusion himag
      | some imag =>
        rw [hcx, himg] at himag
        simp only [decide_eq_true_eq] at himag
        have henc : encodeLeaf (.numeric a)
            = .ok { raw := a.real_le ++ imag, kind := "numeric",
                    className := a.nclass.asMatlabClass, shape := a.shape,
                    complex := true, encoding := "" } := by
          simp only [encodeLeaf, hn, bind, exceptBind_ok,
            mulUsize_eq_ok _ _ hm]
          rw [if_neg (by omega)]
          rw [hcx]
          simp only [Bool.not_true, Bool.false_eq_true, if_false, himg]
          rw [if_neg (by omega)]
        refine ⟨_, henc, ?_, ?_⟩
        · rw [hcx] at hcap
          simp at hcap
          show (a.real_le ++ imag).length ≤ maxFieldBytes
          simp only [List.length_append]
          omega
        · intro f hk hc hs hx
          have hfn : elementCountChecked f.shape = .ok n := by rw [hs]; exact hn
          have hcls : NumericClass.fromMatlabClass f.className
              = some a.nclass := by
            rw [hc]
            exact fromMatlabClass_asMatlabClass a.nclass
          simp only [decodeLeaf, hk, hfn, bind, exceptBind_ok]
          rw [if_neg (by decide : ¬ (asciiLower ("numeric") = "struct"))]
          rw [if_pos (by decide : asciiLower ("numeric") = "numeric")]
          simp only [hcls, mulUsize_eq_ok _ _ hm, bind, exceptBind_ok]
          rw [hx]
          simp only [Bool.not_true, Bool.false_eq_true, if_false]
          rw [if_neg (by simp only [List.length_append]; omega)]
          have htake : (a.real_le ++ imag).take (n * a.nclass.bytesPerElement)
              = a.real_le := by
            rw [← hlen]
            exact List.take_left _ _
          have hdrop : (a.real_le ++ imag).drop (n * a.nclass.bytesPerElement)
              = imag := by
            rw [← hlen]
            exact List.drop_left _ _
          rw [htake, hdrop, hs, ← hcx, ← himg]

/-- Round trip of a well-formed char leaf. -/
theorem leaf_roundtrip_char (a : CharArray)
    (hwf : wfVal (.char a) = true) :
    ∃ e, encodeLeaf (.char a) = .ok e
      ∧ e.raw.length ≤ maxFieldBytes
      ∧ ∀ f : FieldMeta, f.kind = e.kind → f.className = e.className →
          f.shape = e.shape → f.complex = e.complex →
          decodeLeaf f e.raw = .ok (.char a) := by
  unfold wfVal at hwf
  cases hn : elementCountChecked a.shape with
  | error err => rw [hn] at hwf; exact Bool.noConfusion hwf
  | ok n =>
    rw [hn] at hwf
    simp only [Bool.and_eq_true, decide_eq_true_eq, List.all_eq_true] at hwf
    obtain ⟨⟨hlen, hall⟩, hcap⟩ := hwf
    have hflat : ((a.data.map u16le).flatten).length = 2 * a.data.length :=
      flatten_map_length u16le 2 u16le_length a.data
    refine ⟨_, rfl, ?_, ?_⟩
    · simp only [hflat]
      omega
    · intro f hk hc hs hx
      rw [decodeLeaf_arm_char f _ n hk (by rw [hs]; exact hn)]
      rw [if_neg (by simp only [hflat]; omega)]
      have hdata : (List.range n).map
          (fun i => readU16At ((a.data.map u16le).flatten) (i * 2))
          = a.data := by
        refine List.ext_getElem (by simp [hlen]) ?_
        intro i h1 h2
        simp only [List.getElem_map, List.getElem_range]
        have hi : i < a.data.length := by simpa using h2
        have hoff : i * 2 = 2 * i := by ring
        rw [hoff]
        rw [← List.append_nil ((a.data.map u16le).flatten)]
        exact read_flatten_at a.data u16le 2 u16le_length readU16At
          readU16At_drop
          (fun x hx r => readU16At_u16le x r (hall x hx))
          [] i hi
      rw [hdata, hs]

/-- Round trip of a well-formed duration leaf. -/
theorem leaf_roundtrip_duration (a : DurationArray)
    (hwf : wfVal (.duration a) = true) :
    ∃ e, encodeLeaf (.duration a) = .ok e
      ∧ e.raw.length ≤ maxFieldBytes
      ∧ ∀ f : FieldMeta, f.kind = e.kind → f.className = e.className →
          f.shape = e.shape → f.complex = e.complex →
          decodeLeaf f e.raw = .ok (.duration a) := by
  unfold wfVal at hwf
  cases hn : elementCountChecked a.shape with
  | error err => rw [hn] at hwf; exact Bool.noConfusion hwf
  | ok n =>
    rw [hn] at hwf
    simp only [Bool.and_eq_true, decide_eq_true_eq, List.all_eq_true] at hwf
    obtain ⟨⟨⟨hnan, hms⟩, hall⟩, hcap⟩ := hwf
    have hflat : ((a.ms.map i64le).flatten).length = 8 * a.ms.length :=
      flatten_map_length i64le 8 i64le_length a.ms
    have henc : encodeLeaf (.duration a)
        = .ok { raw := a.is_nan ++ (a.ms.map i64le).flatten,
                kind := "duration", className := "duration",
                shape := a.shape, complex := false,
                encoding := "ms-i64+nan-mask" } := by
      simp only [encodeLeaf, hn, bind, exceptBind_ok]
      rw [if_neg (by simp [hnan, hms])]
    refine ⟨_, henc, ?_, ?_⟩
    · show (a.is_nan ++ (a.ms.map i64le).flatten).length ≤ maxFieldBytes
      simp only [List.length_append, hflat]
      omega
    · intro f hk hc hs hx
      rw [decodeLeaf_arm_duration f _ n hk (by rw [hs]; exact hn)]
      rw [if_neg (by simp only [List.length_append, hflat]; omega)]
      have htake : (a.is_nan ++ (a.ms.map i64le).flatten).take n = a.is_nan := by
        rw [← hnan]
        exact List.take_left _ _
      have hcomp : (List.range n).map
          (fun i => readI64At (a.is_nan ++ (a.ms.map i64le).flatten) (n + 8 * i))
          = a.ms := by
        refine List.ext_getElem (by simp [hms]) ?_
        intro i h1 h2
        simp only [List.getElem_map, List.getElem_range]
        have hi : i < a.ms.length := by simpa using h2
        rw [(by omega : n + 8 * i = a.is_nan.length + 8 * i)]
        rw [← readI64At_drop _ a.is_nan.length (8 * i), drop_append_len]
        rw [← List.append_nil ((a.ms.map i64le).flatten)]
        exact read_flatten_at a.ms i64le 8 i64le_length readI64At
          readI64At_drop (fun x hx r => readI64At_i64le x r (hall x hx)) [] i hi
      rw [htake, hcomp, hs]

/-- Round trip of a well-formed calendarDuration leaf. -/
theorem leaf_roundtrip_calendar (a : CalendarDurationArray)
    (hwf : wfVal (.calendarDuration a) = true) :
    ∃ e, encodeLeaf (.calendarDuration a) = .ok e
      ∧ e.raw.length ≤ maxFieldBytes
      ∧ ∀ f : FieldMeta, f.kind = e.kind → f.className = e.className →
          f.shape = e.shape → f.complex = e.complex →
          decodeLeaf f e.raw = .ok (.calendarDuration a) := by
  unfold wfVal at hwf
  cases hn : elementCountChecked a.shape with
  | error err => rw [hn] at hwf; exact Bool.noConfusion hwf
  | ok n =>
    rw [hn] at hwf
    simp only [Bool.and_eq_true, decide_eq_true_eq, List.all_eq_true] at hwf
    obtain ⟨⟨⟨⟨⟨⟨⟨hmis, hmon⟩, hday⟩, htm⟩, hallm⟩, halld⟩, hallt⟩, hcap⟩ := hwf
    have hflatM : ((a.months.map i32le).flatten).length = 4 * a.months.length :=
      flatten_map_length i32le 4 i32le_length a.months
    have hflatD : ((a.days.map i32le).flatten).length = 4 * a.days.length :=
      flatten_map_length i32le 4 i32le_length a.days
    have hflatT : ((a.time_ms.map i64le).flatten).length = 8 * a.time_ms.length :=
      flatten_map_length i64le 8 i64le_length a.time_ms
    have henc : encodeLeaf (.calendarDuration a)
        = .ok { raw := a.is_missing ++ ((a.months.map i32le).flatten
                  ++ ((a.days.map i32le).flatten
                    ++ (a.time_ms.map i64le).flatten)),
                kind := "calendarduration", className := "calendarDuration",
                shape := a.shape, complex := false,
                encoding := "mask+months-i32+days-i32+time-ms-i64" } := by
      simp only [encodeLeaf, hn, bind, exceptBind_ok]
      rw [if_neg (by simp [hmis, hmon, hday, htm])]
    refine ⟨_, henc, ?_, ?_⟩
    · show (a.is_missing ++ ((a.months.map i32le).flatten
          ++ ((a.days.map i32le).flatten
            ++ (a.time_ms.map i64le).flatten))).length ≤ maxFieldBytes
      simp only [List.length_append, hflatM, hflatD, hflatT]
      omega
    · intro f hk hc hs hx
      rw [decodeLeaf_arm_calendar f _ n hk (by rw [hs]; exact hn)]
      rw [if_neg (by
        simp only [List.length_append, hflatM, hflatD, hflatT]
        omega)]
      have htake : (a.is_missing ++ ((a.months.map i32le).flatten
          ++ ((a.days.map i32le).flatten
            ++ (a.time_ms.map i64le).flatten))).take n = a.is_missing := by
        rw [← hmis]
        exact List.take_left _ _
      have hcompM : (List.range n).map
          (fun i => readI32At (a.is_missing ++ ((a.months.map i32le).flatten
            ++ ((a.days.map i32le).flatten
              ++ (a.time_ms.map i64le).flatten))) (n + 4 * i))
          = a.months := by
        refine List.ext_getElem (by simp [hmon]) ?_
        intro i h1 h2
        simp only [List.getElem_map, List.getElem_range]
        have hi : i < a.months.length := by simpa using h2
        rw [(by omega : n + 4 * i = a.is_missing.length + 4 * i)]
        rw [← readI32At_drop _ a.is_missing.length (4 * i), drop_append_len]
        exact read_flatten_at a.months i32le 4 i32le_length readI32At
          readI32At_drop (fun x hx r => readI32At_i32le x r (hallm x hx)) _ i hi
      have hcompD : (List.range n).map
          (fun i => readI32At (a.is_missing ++ ((a.months.map i32le).flatten
            ++ ((a.days.map i32le).flatten
              ++ (a.time_ms.map i64le).flatten))) (5 * n + 4 * i))
          = a.days := by
        refine List.ext_getElem (by simp [hday]) ?_
        intro i h1 h2
        simp only [List.getElem_map, List.getElem_range]
        have hi : i < a.days.length := by simpa using h2
        rw [(by omega : 5 * n + 4 * i = a.is_missing.length + (4 * n + 4 * i))]
        rw [← readI32At_drop _ a.is_missing.length (4 * n + 4 * i),
          drop_append_len]
        rw [(by omega : 4 * n + 4 * i
          = ((a.months.map i32le).flatten).length + 4 * i)]
        rw [← readI32At_drop _ ((a.months.map i32le).flatten).length (4 * i),
          drop_append_len]
        exact read_flatten_at a.days i32le 4 i32le_length readI32At
          readI32At_drop (fun x hx r => readI32At_i32le x r (halld x hx)) _ i hi
      have hcompT : (List.range n).map
          (fun i => readI64At (a.is_missing ++ ((a.months.map i32le).flatten
            ++ ((a.days.map i32le).flatten
              ++ (a.time_ms.map i64le).flatten))) (9 * n + 8 * i))
          = a.time_ms := by
        refine List.ext_getElem (by simp [htm]) ?_
        intro i h1 h2
        simp only [List.getElem_map, List.getElem_range]
        have hi : i < a.time_ms.length := by simpa using h2
        rw [(by omega : 9 * n + 8 * i
          = a.is_missing.length + (4 * n + (4 * n + 8 * i)))]
        rw [← readI64At_drop _ a.is_missing.length (4 * n + (4 * n + 8 * i)),
          drop_append_len]
        rw [(by omega : 4 * n + (4 * n + 8 * i)
          = ((a.months.map i32le).flatten).length + (4 * n + 8 * i))]
        rw [← readI64At_drop _ ((a.months.map i32le).flatten).length
          (4 * n + 8 * i), drop_append_len]
        rw [(by omega : 4 * n + 8 * i
          = ((a.days.map i32le).flatten).length + 8 * i)]
        rw [← readI64At_drop _ ((a.days.map i32le).flatten).length (8 * i),
          drop_append_len]
        rw [← List.append_nil ((a.time_ms.map i64le).flatten)]
        exact read_flatten_at a.time_ms i64le 8 i64le_length readI64At
          readI64At_drop (fun x hx r => readI64At_i64le x r (hallt x hx)) [] i hi
      rw [htake, hcompM, hcompD, hcompT, hs]

/-- The `string` arm of `decode_leaf` as an equation. -/
theorem decodeLeaf_arm_string (f : FieldMeta) (raw : List Byte) (n : Nat)
    (hk : f.kind = ("string")) (hn : elementCountChecked f.shape = .ok n) :
    decodeLeaf f raw
      = (do
          let data ← decStringElems raw 0 n
          .ok (.string { shape := f.shape, data := data })) := by
  simp only [decodeLeaf, hk, hn, bind, exceptBind_ok]
  rw [if_neg (by decide : ¬ (asciiLower ("string") = "struct"))]
  rw [if_neg (by decide : ¬ (asciiLower ("string") = "numeric"))]
  rw [if_neg (by decide : ¬ (asciiLower ("string") = "logical"))]
  rw [if_neg (by decide : ¬ (asciiLower ("string") = "char"))]
  rw [if_pos (by decide : asciiLower ("string") = "string")]

/-- Joint induction for the string element encoder and decoder: the
encoder succeeds on well-formed elements, its output length is the
accumulator formula of the well-formedness cap, and the decoder
recovers the elements from any position. -/
theorem string_codec (data : List (Option (List Byte)))
    (hok : ∀ o ∈ data, (match o with
      | some s => validUtf8 s = true ∧ s.length < 2 ^ 32
      | none => True)) :
    ∃ raw, encStringElems data = .ok raw
      ∧ (∀ acc : Nat, data.foldl (fun acc o => acc + 5 +
            (match o with | some s => s.length | none => 0)) acc
          = acc + raw.length)
      ∧ ∀ pre : List Byte,
          decStringElems (pre ++ raw) pre.length data.length = .ok data := by
  induction data with
  | nil =>
    refine ⟨[], rfl, by simp, ?_⟩
    intro pre
    rfl
  | cons o t ih =>
    obtain ⟨rawt, henc, hlen, hdec⟩ :=
      ih (fun x hx => hok x (List.mem_cons_of_mem o hx))
    cases o with
    | none =>
      refine ⟨1 :: (u32le 0 ++ rawt), ?_, ?_, ?_⟩
      · simp only [encStringElems, henc, bind, exceptBind_ok]
      · intro acc
        simp only [List.foldl_cons, hlen]
        simp only [List.length_cons, List.length_append, u32le_length]
        omega
      · intro pre
        have hlentot : (pre ++ (1 :: (u32le 0 ++ rawt))).length
            = pre.length + 5 + rawt.length := by
          simp [u32le_length]
          omega
        simp only [decStringElems, List.length_cons]
        rw [if_neg (by omega)]
        have hmiss : byteAt (pre ++ (1 :: (u32le 0 ++ rawt))) pre.length
            = 1 := by
          have := byteAt_append_right pre (1 :: (u32le 0 ++ rawt)) 0
          simpa using this
        have hread : readU32At (pre ++ (1 :: (u32le 0 ++ rawt)))
            (pre.length + 1) = 0 := by
          rw [← readU32At_drop _ (pre.length + 1) 0]
          rw [List.append_cons pre 1 (u32le 0 ++ rawt)]
          have hlen2 : (pre ++ [1]).length = pre.length + 1 := by simp
          rw [← hlen2, drop_append_len]
          simpa using readU32At_u32le 0 rawt (by omega)
        rw [hmiss, hread]
        rw [if_neg (by omega)]
        rw [if_pos (by omega : (1 : Nat) ≠ 0)]
        have hrec : decStringElems (pre ++ (1 :: (u32le 0 ++ rawt)))
            (pre.length + 5 + 0) t.length = .ok t := by
          have hsplit : pre ++ (1 :: (u32le 0 ++ rawt))
              = (pre ++ (1 :: u32le 0)) ++ rawt := by
            simp [List.append_assoc]
          have hlen3 : (pre ++ (1 :: u32le 0)).length = pre.length + 5 := by
            simp [u32le_length]
          rw [hsplit, (by omega : pre.length + 5 + 0 = pre.length + 5),
            ← hlen3]
          exact hdec (pre ++ (1 :: u32le 0))
        rw [hrec]
        rfl
    | some str =>
      obtain ⟨hutf, hlt⟩ := hok (some str) (List.mem_cons_self _ _)
      refine ⟨0 :: (u32le str.length ++ (str ++ rawt)), ?_, ?_, ?_⟩
      · simp only [encStringElems, henc, bind, exceptBind_ok]
        rw [if_pos hlt]
      · intro acc
        simp only [List.foldl_cons, hlen]
        simp only [List.length_cons, List.length_append, u32le_length]
        omega
      · intro pre
        have hlentot : (pre ++ (0 :: (u32le str.length ++ (str ++ rawt)))).length
            = pre.length + 5 + str.length + rawt.length := by
          simp [u32le_length]
          omega
        simp only [decStringElems, List.length_cons]
        rw [if_neg (by omega)]
        have hmiss : byteAt (pre ++ (0 :: (u32le str.length ++ (str ++ rawt))))
            pre.length = 0 := by
          have := byteAt_append_right pre
            (0 :: (u32le str.length ++ (str ++ rawt))) 0
          simpa using this
        have hread : readU32At (pre ++ (0 :: (u32le str.length ++ (str ++ rawt))))
            (pre.length + 1) = str.length := by
          rw [← readU32At_drop _ (pre.length + 1) 0]
          rw [List.append_cons pre 0 (u32le str.length ++ (str ++ rawt))]
          have hlen2 : (pre ++ [0]).length = pre.length + 1 := by simp
          rw [← hlen2, drop_append_len]
          simpa using readU32At_u32le str.length (str ++ rawt) hlt
        rw [hmiss, hread]
        rw [if_neg (by omega)]
        have hslice : sliceAt (pre ++ (0 :: (u32le str.length ++ (str ++ rawt))))
            (pre.length + 5) str.length = str := by
          have hsplit : pre ++ (0 :: (u32le str.length ++ (str ++ rawt)))
              = (pre ++ (0 :: u32le str.length)) ++ (str ++ rawt) := by
            simp [List.append_assoc]
          have hlen3 : (pre ++ (0 :: u32le str.length)).length
              = pre.length + 5 := by
            simp [u32le_length]
          rw [hsplit, ← hlen3]
          have := sliceAt_append_right (pre ++ (0 :: u32le str.length))
            (str ++ rawt) 0 str.length
          simp only [Nat.add_zero] at this
          rw [this, sliceAt_zero, List.take_left]
        rw [hslice]
        rw [if_neg (by omega : ¬ ((0 : Nat) ≠ 0))]
        rw [if_pos hutf]
        have hrec : decStringElems (pre ++ (0 :: (u32le str.length ++ (str ++ rawt))))
            (pre.length + 5 + str.length) t.length = .ok t := by
          have hsplit : pre ++ (0 :: (u32le str.length ++ (str ++ rawt)))
              = (pre ++ (0 :: (u32le str.length ++ str))) ++ rawt := by
            simp [List.append_assoc]
          have hlen3 : (pre ++ (0 :: (u32le str.length ++ str))).length
              = pre.length + 5 + str.length := by
            simp [u32le_length]
            omega
          rw [hsplit, ← hlen3]
          exact hdec (pre ++ (0 :: (u32le str.length ++ str)))
        rw [hrec]
        rfl

/-- Round trip of a well-formed string leaf. -/
theorem leaf_roundtrip_string (a : StringArray)
    (hwf : wfVal (.string a) = true) :
    ∃ e, encodeLeaf (.string a) = .ok e
      ∧ e.raw.length ≤ maxFieldBytes
      ∧ ∀ f : FieldMeta, f.kind = e.kind → f.className = e.className →
          f.shape = e.shape → f.complex = e.complex →
          decodeLeaf f e.raw = .ok (.string a) := by
  unfold wfVal at hwf
  cases hn : elementCountChecked a.shape with
  | error err => rw [hn] at hwf; exact Bool.noConfusion hwf
  | ok n =>
    rw [hn] at hwf
    simp only [Bool.and_eq_true, decide_eq_true_eq, List.all_eq_true] at hwf
    obtain ⟨⟨hlen, hall⟩, hcap⟩ := hwf
    have hok : ∀ o ∈ a.data, (match o with
        | some s => validUtf8 s = true ∧ s.length < 2 ^ 32
        | none => True) := by
      intro o ho
      have := hall o ho
      cases o with
      | none => trivial
      | some s =>
        simp only [Bool.and_eq_true, decide_eq_true_eq] at this
        exact this
    obtain ⟨raw, henc, hfold, hdec⟩ := string_codec a.data hok
    have henc2 : encodeLeaf (.string a)
        = .ok { raw := raw, kind := "string", className := "string",
                shape := a.shape, complex := false, encoding := "utf-8" } := by
      simp only [encodeLeaf, hn, bind, exceptBind_ok]
      rw [if_neg (by omega)]
      simp only [henc, bind, exceptBind_ok]
    refine ⟨_, henc2, ?_, ?_⟩
    · show raw.length ≤ maxFieldBytes
      have := hfold 0
      omega
    · intro f hk hc hs hx
      rw [decodeLeaf_arm_string f raw n hk (by rw [hs]; exact hn)]
      have hdec0 : decStringElems raw 0 n = .ok a.data := by
        have := hdec []
        simpa [hlen] using this
      rw [hdec0]
      simp only [bind, exceptBind_ok]
      rw [hs]

/-- The `categorical` arm of `decode_leaf` as an equation. -/
theorem decodeLeaf_arm_categorical (f : FieldMeta) (raw : List Byte) (n : Nat)
    (hk : f.kind = ("categorical")) (hn : elementCountChecked f.shape = .ok n) :
    decodeLeaf f raw
      = if raw.length < 4 then .error (.format ("categorical payload too small"))
        else (do
          let p ← decCatList raw 4 (readU32At raw 0)
          if raw.length - p.2 ≠ n * 4 then
            .error (.format ("categorical codes size mismatch"))
          else
            .ok (.categorical
              { shape := f.shape, categories := p.1,
                codes := (List.range n).map
                  (fun i => readU32At raw (p.2 + 4 * i)) })) := by
  simp only [decodeLeaf, hk, hn, bind, exceptBind_ok]
  rw [if_neg (by decide : ¬ (asciiLower ("categorical") = "struct"))]
  rw [if_neg (by decide : ¬ (asciiLower ("categorical") = "numeric"))]
  rw [if_neg (by decide : ¬ (asciiLower ("categorical") = "logical"))]
  rw [if_neg (by decide : ¬ (asciiLower ("categorical") = "char"))]
  rw [if_neg (by decide : ¬ (asciiLower ("categorical") = "string"))]
  rw [if_neg (by decide : ¬ (asciiLower ("categorical") = "datetime"))]
  rw [if_neg (by decide : ¬ (asciiLower ("categorical") = "duration"))]
  rw [if_neg (by decide : ¬ (asciiLower ("categorical") = "calendarduration"))]
  rw [if_pos (by decide : asciiLower ("categorical") = "categorical")]

/-- Joint induction for the category-table encoder and decoder. -/
theorem cats_codec (cats : List (List Byte))
    (hok : ∀ c ∈ cats, validUtf8 c = true ∧ c.length < 2 ^ 32) :
    ∃ raw, encCats cats = .ok raw
      ∧ (∀ acc : Nat, cats.foldl (fun acc c => acc + 4 + c.length) acc
          = acc + raw.length)
      ∧ ∀ (pre rest : List Byte),
          decCatList (pre ++ (raw ++ rest)) pre.length cats.length
            = .ok (cats, pre.length + raw.length) := by
  induction cats with
  | nil =>
    refine ⟨[], rfl, by simp, ?_⟩
    intro pre rest
    rfl
  | cons c t ih =>
    obtain ⟨rawt, henc, hlen, hdec⟩ :=
      ih (fun x hx => hok x (List.mem_cons_of_mem c hx))
    obtain ⟨hutf, hlt⟩ := hok c (List.mem_cons_self _ _)
    refine ⟨u32le c.length ++ (c ++ rawt), ?_, ?_, ?_⟩
    · simp only [encCats, henc, bind, exceptBind_ok]
      rw [if_pos hlt]
    · intro acc
      simp only [List.foldl_cons, hlen]
      simp only [List.length_append, u32le_length]
      omega
    · intro pre rest
      have hlentot : (pre ++ ((u32le c.length ++ (c ++ rawt)) ++ rest)).length
          = pre.length + 4 + c.length + rawt.length + rest.length := by
        simp [u32le_length]
        omega
      simp only [decCatList, List.length_cons]
      rw [if_neg (by omega)]
      have hread : readU32At (pre ++ ((u32le c.length ++ (c ++ rawt)) ++ rest))
          pre.length = c.length := by
        have h0 : pre.length = pre.length + 0 := by omega
        rw [h0, ← readU32At_drop _ pre.length 0, drop_append_len]
        rw [List.append_assoc (u32le c.length) (c ++ rawt) rest]
        exact readU32At_u32le c.length _ hlt
      rw [hread]
      rw [if_neg (by omega)]
      have hslice : sliceAt (pre ++ ((u32le c.length ++ (c ++ rawt)) ++ rest))
          (pre.length + 4) c.length = c := by
        have hsplit : pre ++ ((u32le c.length ++ (c ++ rawt)) ++ rest)
            = (pre ++ u32le c.length) ++ (c ++ (rawt ++ rest)) := by
          simp [List.append_assoc]
        have hlen2 : (pre ++ u32le c.length).length = pre.length + 4 := by
          simp [u32le_length]
        rw [hsplit, ← hlen2]
        have := sliceAt_append_right (pre ++ u32le c.length)
          (c ++ (rawt ++ rest)) 0 c.length
        simp only [Nat.add_zero] at this
        rw [this, sliceAt_zero, List.take_left]
      rw [hslice]
      rw [if_pos hutf]
      have hrec : decCatList (pre ++ ((u32le c.length ++ (c ++ rawt)) ++ rest))
          (pre.length + 4 + c.length) t.length
          = .ok (t, (pre ++ (u32le c.length ++ c)).length + rawt.length) := by
        have hsplit : pre ++ ((u32le c.length ++ (c ++ rawt)) ++ rest)
            = (pre ++ (u32le c.length ++ c)) ++ (rawt ++ rest) := by
          simp [List.append_assoc]
        have hlen3 : (pre ++ (u32le c.length ++ c)).length
            = pre.length + 4 + c.length := by
          simp [u32le_length]
          omega
        rw [hsplit, ← hlen3]
        exact hdec (pre ++ (u32le c.length ++ c)) rest
      rw [hrec]
      simp only [bind, exceptBind_ok]
      have hidx : (pre ++ (u32le c.length ++ c)).length + rawt.length
          = pre.length + (u32le c.length ++ (c ++ rawt)).length := by
        simp [u32le_length]
        omega
      rw [hidx]

/-- Round trip of a well-formed categorical leaf. -/
theorem leaf_roundtrip_categorical (a : CategoricalArray)
    (hwf : wfVal (.categorical a) = true) :
    ∃ e, encodeLeaf (.categorical a) = .ok e
      ∧ e.raw.length ≤ maxFieldBytes
      ∧ ∀ f : FieldMeta, f.kind = e.kind → f.className = e.className →
          f.shape = e.shape → f.complex = e.complex →
          decodeLeaf f e.raw = .ok (.categorical a) := by
  unfold wfVal at hwf
  cases hn : elementCountChecked a.shape with
  | error err => rw [hn] at hwf; exact Bool.noConfusion hwf
  | ok n =>
    rw [hn] at hwf
    simp only [Bool.and_eq_true, decide_eq_true_eq, List.all_eq_true] at hwf
    obtain ⟨⟨⟨⟨hclen, hcall⟩, hnum⟩, hcats⟩, hcap⟩ := hwf
    have hok : ∀ c ∈ a.categories, validUtf8 c = true ∧ c.length < 2 ^ 32 := by
      intro c hc
      have := hcats c hc
      simp only [Bool.and_eq_true, decide_eq_true_eq] at this
      exact this
    obtain ⟨rawCats, henc, hfold, hdec⟩ := cats_codec a.categories hok
    have hflatC : ((a.codes.map u32le).flatten).length = 4 * a.codes.length :=
      flatten_map_length u32le 4 u32le_length a.codes
    have henc2 : encodeLeaf (.categorical a)
        = .ok { raw := u32le a.categories.length
                  ++ (rawCats ++ (a.codes.map u32le).flatten),
                kind := "categorical", className := "categorical",
                shape := a.shape, complex := false,
                encoding := "cats-utf8+codes-u32" } := by
      simp only [encodeLeaf, hn, bind, exceptBind_ok]
      rw [if_neg (by omega)]
      rw [if_pos hnum]
      simp only [henc, bind, exceptBind_ok, List.append_assoc]
    refine ⟨_, henc2, ?_, ?_⟩
    · show (u32le a.categories.length
          ++ (rawCats ++ (a.codes.map u32le).flatten)).length ≤ maxFieldBytes
      have := hfold 0
      simp only [List.length_append, u32le_length, hflatC]
      omega
    · intro f hk hc hs hx
      show decodeLeaf f (u32le a.categories.length
        ++ (rawCats ++ (a.codes.map u32le).flatten)) = .ok (.categorical a)
      rw [decodeLeaf_arm_categorical f _ n hk (by rw [hs]; exact hn)]
      have hlentot : (u32le a.categories.length
          ++ (rawCats ++ (a.codes.map u32le).flatten)).length
          = 4 + rawCats.length + 4 * a.codes.length := by
        simp only [List.length_append, u32le_length, hflatC]
        omega
      rw [if_neg (by omega)]
      have hread0 : readU32At (u32le a.categories.length
          ++ (rawCats ++ (a.codes.map u32le).flatten)) 0
          = a.categories.length :=
        readU32At_u32le _ _ hnum
      rw [hread0]
      have hdc : decCatList (u32le a.categories.length
            ++ (rawCats ++ (a.codes.map u32le).flatten)) 4 a.categories.length
          = .ok (a.categories, 4 + rawCats.length) := by
        have h4 : (u32le a.categories.length).length = 4 := u32le_length _
        conv_lhs => rw [← h4]
        have := hdec (u32le a.categories.length) ((a.codes.map u32le).flatten)
        rw [this, h4]
      rw [hdc]
      simp only [bind, exceptBind_ok]
      rw [if_neg (by omega)]
      have hcodes : (List.range n).map
          (fun i => readU32At (u32le a.categories.length
            ++ (rawCats ++ (a.codes.map u32le).flatten))
            (4 + rawCats.length + 4 * i))
          = a.codes := by
        refine List.ext_getElem (by simp [hclen]) ?_
        intro i h1 h2
        simp only [List.getElem_map, List.getElem_range]
        have hi : i < a.codes.length := by simpa using h2
        rw [(by rw [u32le_length]; omega : 4 + rawCats.length + 4 * i
          = (u32le a.categories.length).length + (rawCats.length + 4 * i))]
        rw [← readU32At_drop _ (u32le a.categories.length).length
          (rawCats.length + 4 * i), drop_append_len]
        rw [← readU32At_drop _ rawCats.length (4 * i), drop_append_len]
        rw [← List.append_nil ((a.codes.map u32le).flatten)]
        exact read_flatten_at a.codes u32le 4 u32le_length readU32At
          readU32At_drop
          (fun x hx r => readU32At_u32le x r (hcall x hx)) [] i hi
      rw [hcodes, hs]

/-- Peeling one component off a nested byte-stream decomposition. -/
theorem drop_peel (l pre rest : List Byte) (p : Nat)
    (hl : l.drop p = pre ++ rest) (q : Nat) (hq : q = p + pre.length) :
    l.drop q = rest := by
  rw [hq, ← List.drop_drop, hl, drop_append_len]

/-- A well-formed metadata option's value is within the u32 limit. -/
theorem wfMetaOpt_lt (o : Option (List Byte)) (h : wfMetaOpt o = true) :
    (o.getD []).length < 2 ^ 32 := by
  cases o with
  | none => simp
  | some str =>
    unfold wfMetaOpt at h
    simp only [Bool.and_eq_true, decide_eq_true_eq] at h
    simpa using h.2

/-- Decoding an optional-metadata value encoded from a well-formed
option recovers it (this is where an empty `Some` would canonicalize to
`None` — `wfMetaOpt` rules that out). -/
theorem decMetaOpt_getD (o : Option (List Byte)) (msg : String)
    (h : wfMetaOpt o = true) :
    decMetaOpt (o.getD []).length (o.getD []) msg = .ok o := by
  cases o with
  | none =>
    unfold decMetaOpt
    simp
  | some str =>
    unfold wfMetaOpt at h
    simp only [Bool.and_eq_true, decide_eq_true_eq] at h
    obtain ⟨⟨hne, hutf⟩, hlt⟩ := h
    unfold decMetaOpt
    rw [if_pos (by
      simp only [Option.getD_some]
      cases hstr : str with
      | nil => rw [hstr] at hne; exact Bool.noConfusion hne
      | cons b t => simp)]
    rw [if_pos (by simpa using hutf)]
    simp

/-- Round trip of a well-formed datetime leaf. -/
theorem leaf_roundtrip_datetime (a : DateTimeArray)
    (hwf : wfVal (.dateTime a) = true) :
    ∃ e, encodeLeaf (.dateTime a) = .ok e
      ∧ e.raw.length ≤ maxFieldBytes
      ∧ ∀ f : FieldMeta, f.kind = e.kind → f.className = e.className →
          f.shape = e.shape → f.complex = e.complex →
          decodeLeaf f e.raw = .ok (.dateTime a) := by
  unfold wfVal at hwf
  cases hn : elementCountChecked a.shape with
  | error err => rw [hn] at hwf; exact Bool.noConfusion hwf
  | ok n =>
    rw [hn] at hwf
    simp only [Bool.and_eq_true, decide_eq_true_eq, List.all_eq_true] at hwf
    obtain ⟨⟨⟨⟨⟨⟨⟨⟨⟨⟨hnat, hyr⟩, hmo⟩, hdy⟩, hms⟩, htzm⟩, hlocm⟩, hfmtm⟩,
      hyall⟩, hmsall⟩, hcap⟩ := hwf
    have htzlt : (a.tz.getD []).length < 2 ^ 32 := wfMetaOpt_lt a.tz htzm
    have hloclt : (a.locale.getD []).length < 2 ^ 32 := wfMetaOpt_lt a.locale hlocm
    have hfmtlt : (a.format.getD []).length < 2 ^ 32 := wfMetaOpt_lt a.format hfmtm
    have hYlen : ((a.year.map i16le).flatten).length = 2 * a.year.length :=
      flatten_map_length i16le 2 i16le_length a.year
    have hMlen : ((a.ms_day.map i32le).flatten).length = 4 * a.ms_day.length :=
      flatten_map_length i32le 4 i32le_length a.ms_day
    have henc : encodeLeaf (.dateTime a)
        = .ok { raw := (((if (!(a.tz.getD []).isEmpty) = true then 1 else 0) + (if 0 < (a.format.getD []).length then 2 else 0) + (if (!(a.tz.getD []).isEmpty) = true then 0 else 4) + (if 0 < (a.locale.getD []).length then 8 else 0)) :: (u32le (a.tz.getD []).length ++ ((a.tz.getD []) ++ (u32le (a.locale.getD []).length ++ ((a.locale.getD []) ++ (u32le (a.format.getD []).length ++ ((a.format.getD []) ++ (a.is_nat ++ (((a.year.map i16le).flatten) ++ (a.month ++ (a.day ++ ((a.ms_day.map i32le).flatten)))))))))))),
                kind := "datetime", className := "datetime",
                shape := a.shape, complex := false,
                encoding := (if (!(a.tz.getD []).isEmpty) = true then ("dt:tz-ymd+msday+nat-mask+tz+locale+format" : String) else "dt:naive-ymd+msday+nat-mask+locale+format") } := by
      simp only [encodeLeaf, hn, bind, exceptBind_ok]
      rw [if_neg (by simp [hnat, hyr, hmo, hdy, hms])]
      rw [if_pos htzlt, if_pos hloclt, if_pos hfmtlt]
    refine ⟨_, henc, ?_, ?_⟩
    · show (((if (!(a.tz.getD []).isEmpty) = true then 1 else 0) + (if 0 < (a.format.getD []).length then 2 else 0) + (if (!(a.tz.getD []).isEmpty) = true then 0 else 4) + (if 0 < (a.locale.getD []).length then 8 else 0)) :: (u32le (a.tz.getD []).length ++ ((a.tz.getD []) ++ (u32le (a.locale.getD []).length ++ ((a.locale.getD []) ++ (u32le (a.format.getD []).length ++ ((a.format.getD []) ++ (a.is_nat ++ (((a.year.map i16le).flatten) ++ (a.month ++ (a.day ++ ((a.ms_day.map i32le).flatten)))))))))))).length ≤ maxFieldBytes
      simp only [List.length_cons, List.length_append, u32le_length,
        hYlen, hMlen]
      omega
    · intro f hk hc hs hx
      show decodeLeaf f (((if (!(a.tz.getD []).isEmpty) = true then 1 else 0) + (if 0 < (a.format.getD []).length then 2 else 0) + (if (!(a.tz.getD []).isEmpty) = true then 0 else 4) + (if 0 < (a.locale.getD []).length then 8 else 0)) :: (u32le (a.tz.getD []).length ++ ((a.tz.getD []) ++ (u32le (a.locale.getD []).length ++ ((a.locale.getD []) ++ (u32le (a.format.getD []).length ++ ((a.format.getD []) ++ (a.is_nat ++ (((a.year.map i16le).flatten) ++ (a.month ++ (a.day ++ ((a.ms_day.map i32le).flatten)))))))))))) = .ok (.dateTime a)
      have hfn : elementCountChecked f.shape = .ok n := by rw [hs]; exact hn
      have hlenraw : (((if (!(a.tz.getD []).isEmpty) = true then 1 else 0) + (if 0 < (a.format.getD []).length then 2 else 0) + (if (!(a.tz.getD []).isEmpty) = true then 0 else 4) + (if 0 < (a.locale.getD []).length then 8 else 0)) :: (u32le (a.tz.getD []).length ++ ((a.tz.getD []) ++ (u32le (a.locale.getD []).length ++ ((a.locale.getD []) ++ (u32le (a.format.getD []).length ++ ((a.format.getD []) ++ (a.is_nat ++ (((a.year.map i16le).flatten) ++ (a.month ++ (a.day ++ ((a.ms_day.map i32le).flatten)))))))))))).length
          = 13 + (a.tz.getD []).length + (a.locale.getD []).length + (a.format.getD []).length + 9 * n := by
        simp only [List.length_cons, List.length_append, u32le_length,
          hYlen, hMlen]
        omega
      have hd1 : (((if (!(a.tz.getD []).isEmpty) = true then 1 else 0) + (if 0 < (a.format.getD []).length then 2 else 0) + (if (!(a.tz.getD []).isEmpty) = true then 0 else 4) + (if 0 < (a.locale.getD []).length then 8 else 0)) :: (u32le (a.tz.getD []).length ++ ((a.tz.getD []) ++ (u32le (a.locale.getD []).length ++ ((a.locale.getD []) ++ (u32le (a.format.getD []).length ++ ((a.format.getD []) ++ (a.is_nat ++ (((a.year.map i16le).flatten) ++ (a.month ++ (a.day ++ ((a.ms_day.map i32le).flatten)))))))))))).drop 1 = (u32le (a.tz.getD []).length ++ ((a.tz.getD []) ++ (u32le (a.locale.getD []).length ++ ((a.locale.getD []) ++ (u32le (a.format.getD []).length ++ ((a.format.getD []) ++ (a.is_nat ++ (((a.year.map i16le).flatten) ++ (a.month ++ (a.day ++ ((a.ms_day.map i32le).flatten))))))))))) := rfl
      have hd2 : (((if (!(a.tz.getD []).isEmpty) = true then 1 else 0) + (if 0 < (a.format.getD []).length then 2 else 0) + (if (!(a.tz.getD []).isEmpty) = true then 0 else 4) + (if 0 < (a.locale.getD []).length then 8 else 0)) :: (u32le (a.tz.getD []).length ++ ((a.tz.getD []) ++ (u32le (a.locale.getD []).length ++ ((a.locale.getD []) ++ (u32le (a.format.getD []).length ++ ((a.format.getD []) ++ (a.is_nat ++ (((a.year.map i16le).flatten) ++ (a.month ++ (a.day ++ ((a.ms_day.map i32le).flatten)))))))))))).drop 5 = ((a.tz.getD []) ++ (u32le (a.locale.getD []).length ++ ((a.locale.getD []) ++ (u32le (a.format.getD []).length ++ ((a.format.getD []) ++ (a.is_nat ++ (((a.year.map i16le).flatten) ++ (a.month ++ (a.day ++ ((a.ms_day.map i32le).flatten)))))))))) :=
        drop_peel _ (u32le (a.tz.getD []).length) _ 1 hd1 5 (by rw [u32le_length])
      have hd3 : (((if (!(a.tz.getD []).isEmpty) = true then 1 else 0) + (if 0 < (a.format.getD []).length then 2 else 0) + (if (!(a.tz.getD []).isEmpty) = true then 0 else 4) + (if 0 < (a.locale.getD []).length then 8 else 0)) :: (u32le (a.tz.getD []).length ++ ((a.tz.getD []) ++ (u32le (a.locale.getD []).length ++ ((a.locale.getD []) ++ (u32le (a.format.getD []).length ++ ((a.format.getD []) ++ (a.is_nat ++ (((a.year.map i16le).flatten) ++ (a.month ++ (a.day ++ ((a.ms_day.map i32le).flatten)))))))))))).drop (5 + (a.tz.getD []).length) = (u32le (a.locale.getD []).length ++ ((a.locale.getD []) ++ (u32le (a.format.getD []).length ++ ((a.format.getD []) ++ (a.is_nat ++ (((a.year.map i16le).flatten) ++ (a.month ++ (a.day ++ ((a.ms_day.map i32le).flatten))))))))) :=
        drop_peel _ (a.tz.getD []) _ 5 hd2 _ rfl
      have hd4 : (((if (!(a.tz.getD []).isEmpty) = true then 1 else 0) + (if 0 < (a.format.getD []).length then 2 else 0) + (if (!(a.tz.getD []).isEmpty) = true then 0 else 4) + (if 0 < (a.locale.getD []).length then 8 else 0)) :: (u32le (a.tz.getD []).length ++ ((a.tz.getD []) ++ (u32le (a.locale.getD []).length ++ ((a.locale.getD []) ++ (u32le (a.format.getD []).length ++ ((a.format.getD []) ++ (a.is_nat ++ (((a.year.map i16le).flatten) ++ (a.month ++ (a.day ++ ((a.ms_day.map i32le).flatten)))))))))))).drop (9 + (a.tz.getD []).length) = ((a.locale.getD []) ++ (u32le (a.format.getD []).length ++ ((a.format.getD []) ++ (a.is_nat ++ (((a.year.map i16le).flatten) ++ (a.month ++ (a.day ++ ((a.ms_day.map i32le).flatten)))))))) :=
        drop_peel _ (u32le (a.locale.getD []).length) _ (5 + (a.tz.getD []).length) hd3 _ (by rw [u32le_length]; omega)
      have hd5 : (((if (!(a.tz.getD []).isEmpty) = true then 1 else 0) + (if 0 < (a.format.getD []).length then 2 else 0) + (if (!(a.tz.getD []).isEmpty) = true then 0 else 4) + (if 0 < (a.locale.getD []).length then 8 else 0)) :: (u32le (a.tz.getD []).length ++ ((a.tz.getD []) ++ (u32le (a.locale.getD []).length ++ ((a.locale.getD []) ++ (u32le (a.format.getD []).length ++ ((a.format.getD []) ++ (a.is_nat ++ (((a.year.map i16le).flatten) ++ (a.month ++ (a.day ++ ((a.ms_day.map i32le).flatten)))))))))))).drop (9 + (a.tz.getD []).length + (a.locale.getD []).length) = (u32le (a.format.getD []).length ++ ((a.format.getD []) ++ (a.is_nat ++ (((a.year.map i16le).flatten) ++ (a.month ++ (a.day ++ ((a.ms_day.map i32le).flatten))))))) :=
        drop_peel _ (a.locale.getD []) _ (9 + (a.tz.getD []).length) hd4 _ rfl
      have hd6 : (((if (!(a.tz.getD []).isEmpty) = true then 1 else 0) + (if 0 < (a.format.getD []).length then 2 else 0) + (if (!(a.tz.getD []).isEmpty) = true then 0 else 4) + (if 0 < (a.locale.getD []).length then 8 else 0)) :: (u32le (a.tz.getD []).length ++ ((a.tz.getD []) ++ (u32le (a.locale.getD []).length ++ ((a.locale.getD []) ++ (u32le (a.format.getD []).length ++ ((a.format.getD []) ++ (a.is_nat ++ (((a.year.map i16le).flatten) ++ (a.month ++ (a.day ++ ((a.ms_day.map i32le).flatten)))))))))))).drop (13 + (a.tz.getD []).length + (a.locale.getD []).length) = ((a.format.getD []) ++ (a.is_nat ++ (((a.year.map i16le).flatten) ++ (a.month ++ (a.day ++ ((a.ms_day.map i32le).flatten)))))) :=
        drop_peel _ (u32le (a.format.getD []).length) _ (9 + (a.tz.getD []).length + (a.locale.getD []).length) hd5 _
          (by rw [u32le_length]; omega)
      have hd7 : (((if (!(a.tz.getD []).isEmpty) = true then 1 else 0) + (if 0 < (a.format.getD []).length then 2 else 0) + (if (!(a.tz.getD []).isEmpty) = true then 0 else 4) + (if 0 < (a.locale.getD []).length then 8 else 0)) :: (u32le (a.tz.getD []).length ++ ((a.tz.getD []) ++ (u32le (a.locale.getD []).length ++ ((a.locale.getD []) ++ (u32le (a.format.getD []).length ++ ((a.format.getD []) ++ (a.is_nat ++ (((a.year.map i16le).flatten) ++ (a.month ++ (a.day ++ ((a.ms_day.map i32le).flatten)))))))))))).drop (13 + (a.tz.getD []).length + (a.locale.getD []).length + (a.format.getD []).length) = (a.is_nat ++ (((a.year.map i16le).flatten) ++ (a.month ++ (a.day ++ ((a.ms_day.map i32le).flatten))))) :=
        drop_peel _ (a.format.getD []) _ (13 + (a.tz.getD []).length + (a.locale.getD []).length) hd6 _ rfl
      have hd8 : (((if (!(a.tz.getD []).isEmpty) = true then 1 else 0) + (if 0 < (a.format.getD []).length then 2 else 0) + (if (!(a.tz.getD []).isEmpty) = true then 0 else 4) + (if 0 < (a.locale.getD []).length then 8 else 0)) :: (u32le (a.tz.getD []).length ++ ((a.tz.getD []) ++ (u32le (a.locale.getD []).length ++ ((a.locale.getD []) ++ (u32le (a.format.getD []).length ++ ((a.format.getD []) ++ (a.is_nat ++ (((a.year.map i16le).flatten) ++ (a.month ++ (a.day ++ ((a.ms_day.map i32le).flatten)))))))))))).drop (13 + (a.tz.getD []).length + (a.locale.getD []).length + (a.format.getD []).length + n) = (((a.year.map i16le).flatten) ++ (a.month ++ (a.day ++ ((a.ms_day.map i32le).flatten)))) :=
        drop_peel _ a.is_nat _ (13 + (a.tz.getD []).length + (a.locale.getD []).length + (a.format.getD []).length) hd7 _ (by omega)
      have hd9 : (((if (!(a.tz.getD []).isEmpty) = true then 1 else 0) + (if 0 < (a.format.getD []).length then 2 else 0) + (if (!(a.tz.getD []).isEmpty) = true then 0 else 4) + (if 0 < (a.locale.getD []).length then 8 else 0)) :: (u32le (a.tz.getD []).length ++ ((a.tz.getD []) ++ (u32le (a.locale.getD []).length ++ ((a.locale.getD []) ++ (u32le (a.format.getD []).length ++ ((a.format.getD []) ++ (a.is_nat ++ (((a.year.map i16le).flatten) ++ (a.month ++ (a.day ++ ((a.ms_day.map i32le).flatten)))))))))))).drop (13 + (a.tz.getD []).length + (a.locale.getD []).length + (a.format.getD []).length + 3 * n) = (a.month ++ (a.day ++ ((a.ms_day.map i32le).flatten))) :=
        drop_peel _ ((a.year.map i16le).flatten) _ (13 + (a.tz.getD []).length + (a.locale.getD []).length + (a.format.getD []).length + n) hd8 _ (by omega)
      have hd10 : (((if (!(a.tz.getD []).isEmpty) = true then 1 else 0) + (if 0 < (a.format.getD []).length then 2 else 0) + (if (!(a.tz.getD []).isEmpty) = true then 0 else 4) + (if 0 < (a.locale.getD []).length then 8 else 0)) :: (u32le (a.tz.getD []).length ++ ((a.tz.getD []) ++ (u32le (a.locale.getD []).length ++ ((a.locale.getD []) ++ (u32le (a.format.getD []).length ++ ((a.format.getD []) ++ (a.is_nat ++ (((a.year.map i16le).flatten) ++ (a.month ++ (a.day ++ ((a.ms_day.map i32le).flatten)))))))))))).drop (13 + (a.tz.getD []).length + (a.locale.getD []).length + (a.format.getD []).length + 4 * n) = (a.day ++ ((a.ms_day.map i32le).flatten)) :=
        drop_peel _ a.month _ (13 + (a.tz.getD []).length + (a.locale.getD []).length + (a.format.getD []).length + 3 * n) hd9 _ (by omega)
      have hd11 : (((if (!(a.tz.getD []).isEmpty) = true then 1 else 0) + (if 0 < (a.format.getD []).length then 2 else 0) + (if (!(a.tz.getD []).isEmpty) = true then 0 else 4) + (if 0 < (a.locale.getD []).length then 8 else 0)) :: (u32le (a.tz.getD []).length ++ ((a.tz.getD []) ++ (u32le (a.locale.getD []).length ++ ((a.locale.getD []) ++ (u32le (a.format.getD []).length ++ ((a.format.getD []) ++ (a.is_nat ++ (((a.year.map i16le).flatten) ++ (a.month ++ (a.day ++ ((a.ms_day.map i32le).flatten)))))))))))).drop (13 + (a.tz.getD []).length + (a.locale.getD []).length + (a.format.getD []).length + 5 * n) = ((a.ms_day.map i32le).flatten) :=
        drop_peel _ a.day _ (13 + (a.tz.getD []).length + (a.locale.getD []).length + (a.format.getD []).length + 4 * n) hd10 _ (by omega)
      have hreadtz : readU32At (((if (!(a.tz.getD []).isEmpty) = true then 1 else 0) + (if 0 < (a.format.getD []).length then 2 else 0) + (if (!(a.tz.getD []).isEmpty) = true then 0 else 4) + (if 0 < (a.locale.getD []).length then 8 else 0)) :: (u32le (a.tz.getD []).length ++ ((a.tz.getD []) ++ (u32le (a.locale.getD []).length ++ ((a.locale.getD []) ++ (u32le (a.format.getD []).length ++ ((a.format.getD []) ++ (a.is_nat ++ (((a.year.map i16le).flatten) ++ (a.month ++ (a.day ++ ((a.ms_day.map i32le).flatten)))))))))))) 1 = (a.tz.getD []).length := by
        have h := readU32At_drop (((if (!(a.tz.getD []).isEmpty) = true then 1 else 0) + (if 0 < (a.format.getD []).length then 2 else 0) + (if (!(a.tz.getD []).isEmpty) = true then 0 else 4) + (if 0 < (a.locale.getD []).length then 8 else 0)) :: (u32le (a.tz.getD []).length ++ ((a.tz.getD []) ++ (u32le (a.locale.getD []).length ++ ((a.locale.getD []) ++ (u32le (a.format.getD []).length ++ ((a.format.getD []) ++ (a.is_nat ++ (((a.year.map i16le).flatten) ++ (a.month ++ (a.day ++ ((a.ms_day.map i32le).flatten)))))))))))) 1 0
        rw [hd1, readU32At_u32le _ _ htzlt] at h
        simpa using h.symm
      have hreadloc : readU32At (((if (!(a.tz.getD []).isEmpty) = true then 1 else 0) + (if 0 < (a.format.getD []).length then 2 else 0) + (if (!(a.tz.getD []).isEmpty) = true then 0 else 4) + (if 0 < (a.locale.getD []).length then 8 else 0)) :: (u32le (a.tz.getD []).length ++ ((a.tz.getD []) ++ (u32le (a.locale.getD []).length ++ ((a.locale.getD []) ++ (u32le (a.format.getD []).length ++ ((a.format.getD []) ++ (a.is_nat ++ (((a.year.map i16le).flatten) ++ (a.month ++ (a.day ++ ((a.ms_day.map i32le).flatten)))))))))))) (5 + (a.tz.getD []).length) = (a.locale.getD []).length := by
        have h := readU32At_drop (((if (!(a.tz.getD []).isEmpty) = true then 1 else 0) + (if 0 < (a.format.getD []).length then 2 else 0) + (if (!(a.tz.getD []).isEmpty) = true then 0 else 4) + (if 0 < (a.locale.getD []).length then 8 else 0)) :: (u32le (a.tz.getD []).length ++ ((a.tz.getD []) ++ (u32le (a.locale.getD []).length ++ ((a.locale.getD []) ++ (u32le (a.format.getD []).length ++ ((a.format.getD []) ++ (a.is_nat ++ (((a.year.map i16le).flatten) ++ (a.month ++ (a.day ++ ((a.ms_day.map i32le).flatten)))))))))))) (5 + (a.tz.getD []).length) 0
        rw [hd3, readU32At_u32le _ _ hloclt] at h
        simpa using h.symm
      have hreadfmt : readU32At (((if (!(a.tz.getD []).isEmpty) = true then 1 else 0) + (if 0 < (a.format.getD []).length then 2 else 0) + (if (!(a.tz.getD []).isEmpty) = true then 0 else 4) + (if 0 < (a.locale.getD []).length then 8 else 0)) :: (u32le (a.tz.getD []).length ++ ((a.tz.getD []) ++ (u32le (a.locale.getD []).length ++ ((a.locale.getD []) ++ (u32le (a.format.getD []).length ++ ((a.format.getD []) ++ (a.is_nat ++ (((a.year.map i16le).flatten) ++ (a.month ++ (a.day ++ ((a.ms_day.map i32le).flatten)))))))))))) (9 + (a.tz.getD []).length + (a.locale.getD []).length) = (a.format.getD []).length := by
        have h := readU32At_drop (((if (!(a.tz.getD []).isEmpty) = true then 1 else 0) + (if 0 < (a.format.getD []).length then 2 else 0) + (if (!(a.tz.getD []).isEmpty) = true then 0 else 4) + (if 0 < (a.locale.getD []).length then 8 else 0)) :: (u32le (a.tz.getD []).length ++ ((a.tz.getD []) ++ (u32le (a.locale.getD []).length ++ ((a.locale.getD []) ++ (u32le (a.format.getD []).length ++ ((a.format.getD []) ++ (a.is_nat ++ (((a.year.map i16le).flatten) ++ (a.month ++ (a.day ++ ((a.ms_day.map i32le).flatten)))))))))))) (9 + (a.tz.getD []).length + (a.locale.getD []).length) 0
        rw [hd5, readU32At_u32le _ _ hfmtlt] at h
        simpa using h.symm
      have hslicetz : sliceAt (((if (!(a.tz.getD []).isEmpty) = true then 1 else 0) + (if 0 < (a.format.getD []).length then 2 else 0) + (if (!(a.tz.getD []).isEmpty) = true then 0 else 4) + (if 0 < (a.locale.getD []).length then 8 else 0)) :: (u32le (a.tz.getD []).length ++ ((a.tz.getD []) ++ (u32le (a.locale.getD []).length ++ ((a.locale.getD []) ++ (u32le (a.format.getD []).length ++ ((a.format.getD []) ++ (a.is_nat ++ (((a.year.map i16le).flatten) ++ (a.month ++ (a.day ++ ((a.ms_day.map i32le).flatten)))))))))))) 5 (a.tz.getD []).length = (a.tz.getD []) := by
        have h := sliceAt_drop (((if (!(a.tz.getD []).isEmpty) = true then 1 else 0) + (if 0 < (a.format.getD []).length then 2 else 0) + (if (!(a.tz.getD []).isEmpty) = true then 0 else 4) + (if 0 < (a.locale.getD []).length then 8 else 0)) :: (u32le (a.tz.getD []).length ++ ((a.tz.getD []) ++ (u32le (a.locale.getD []).length ++ ((a.locale.getD []) ++ (u32le (a.format.getD []).length ++ ((a.format.getD []) ++ (a.is_nat ++ (((a.year.map i16le).flatten) ++ (a.month ++ (a.day ++ ((a.ms_day.map i32le).flatten)))))))))))) 5 0 (a.tz.getD []).length
        rw [hd2, sliceAt_zero, List.take_left] at h
        simpa using h.symm
      have hsliceloc : sliceAt (((if (!(a.tz.getD []).isEmpty) = true then 1 else 0) + (if 0 < (a.format.getD []).length then 2 else 0) + (if (!(a.tz.getD []).isEmpty) = true then 0 else 4) + (if 0 < (a.locale.getD []).length then 8 else 0)) :: (u32le (a.tz.getD []).length ++ ((a.tz.getD []) ++ (u32le (a.locale.getD []).length ++ ((a.locale.getD []) ++ (u32le (a.format.getD []).length ++ ((a.format.getD []) ++ (a.is_nat ++ (((a.year.map i16le).flatten) ++ (a.month ++ (a.day ++ ((a.ms_day.map i32le).flatten)))))))))))) (9 + (a.tz.getD []).length) (a.locale.getD []).length = (a.locale.getD []) := by
        have h := sliceAt_drop (((if (!(a.tz.getD []).isEmpty) = true then 1 else 0) + (if 0 < (a.format.getD []).length then 2 else 0) + (if (!(a.tz.getD []).isEmpty) = true then 0 else 4) + (if 0 < (a.locale.getD []).length then 8 else 0)) :: (u32le (a.tz.getD []).length ++ ((a.tz.getD []) ++ (u32le (a.locale.getD []).length ++ ((a.locale.getD []) ++ (u32le (a.format.getD []).length ++ ((a.format.getD []) ++ (a.is_nat ++ (((a.year.map i16le).flatten) ++ (a.month ++ (a.day ++ ((a.ms_day.map i32le).flatten)))))))))))) (9 + (a.tz.getD []).length) 0 (a.locale.getD []).length
        rw [hd4, sliceAt_zero, List.take_left] at h
        simpa using h.symm
      have hslicefmt : sliceAt (((if (!(a.tz.getD []).isEmpty) = true then 1 else 0) + (if 0 < (a.format.getD []).length then 2 else 0) + (if (!(a.tz.getD []).isEmpty) = true then 0 else 4) + (if 0 < (a.locale.getD []).length then 8 else 0)) :: (u32le (a.tz.getD []).length ++ ((a.tz.getD []) ++ (u32le (a.locale.getD []).length ++ ((a.locale.getD []) ++ (u32le (a.format.getD []).length ++ ((a.format.getD []) ++ (a.is_nat ++ (((a.year.map i16le).flatten) ++ (a.month ++ (a.day ++ ((a.ms_day.map i32le).flatten)))))))))))) (13 + (a.tz.getD []).length + (a.locale.getD []).length) (a.format.getD []).length = (a.format.getD []) := by
        have h := sliceAt_drop (((if (!(a.tz.getD []).isEmpty) = true then 1 else 0) + (if 0 < (a.format.getD []).length then 2 else 0) + (if (!(a.tz.getD []).isEmpty) = true then 0 else 4) + (if 0 < (a.locale.getD []).length then 8 else 0)) :: (u32le (a.tz.getD []).length ++ ((a.tz.getD []) ++ (u32le (a.locale.getD []).length ++ ((a.locale.getD []) ++ (u32le (a.format.getD []).length ++ ((a.format.getD []) ++ (a.is_nat ++ (((a.year.map i16le).flatten) ++ (a.month ++ (a.day ++ ((a.ms_day.map i32le).flatten)))))))))))) (13 + (a.tz.getD []).length + (a.locale.getD []).length) 0 (a.format.getD []).length
        rw [hd6, sliceAt_zero, List.take_left] at h
        simpa using h.symm
      have htknat : (a.is_nat ++ (((a.year.map i16le).flatten) ++ (a.month ++ (a.day ++ ((a.ms_day.map i32le).flatten))))).take n = a.is_nat := by
        rw [← hnat]
        exact List.take_left _ _
      have hslicenat : sliceAt (((if (!(a.tz.getD []).isEmpty) = true then 1 else 0) + (if 0 < (a.format.getD []).length then 2 else 0) + (if (!(a.tz.getD []).isEmpty) = true then 0 else 4) + (if 0 < (a.locale.getD []).length then 8 else 0)) :: (u32le (a.tz.getD []).length ++ ((a.tz.getD []) ++ (u32le (a.locale.getD []).length ++ ((a.locale.getD []) ++ (u32le (a.format.getD []).length ++ ((a.format.getD []) ++ (a.is_nat ++ (((a.year.map i16le).flatten) ++ (a.month ++ (a.day ++ ((a.ms_day.map i32le).flatten)))))))))))) (13 + (a.tz.getD []).length + (a.locale.getD []).length + (a.format.getD []).length) n = a.is_nat := by
        have h := sliceAt_drop (((if (!(a.tz.getD []).isEmpty) = true then 1 else 0) + (if 0 < (a.format.getD []).length then 2 else 0) + (if (!(a.tz.getD []).isEmpty) = true then 0 else 4) + (if 0 < (a.locale.getD []).length then 8 else 0)) :: (u32le (a.tz.getD []).length ++ ((a.tz.getD []) ++ (u32le (a.locale.getD []).length ++ ((a.locale.getD []) ++ (u32le (a.format.getD []).length ++ ((a.format.getD []) ++ (a.is_nat ++ (((a.year.map i16le).flatten) ++ (a.month ++ (a.day ++ ((a.ms_day.map i32le).flatten)))))))))))) (13 + (a.tz.getD []).length + (a.locale.getD []).length + (a.format.getD []).length) 0 n
        rw [hd7, sliceAt_zero, htknat] at h
        simpa using h.symm
      have htkmo : (a.month ++ (a.day ++ ((a.ms_day.map i32le).flatten))).take n = a.month := by
        rw [← hmo]
        exact List.take_left _ _
      have hslicemonth : sliceAt (((if (!(a.tz.getD []).isEmpty) = true then 1 else 0) + (if 0 < (a.format.getD []).length then 2 else 0) + (if (!(a.tz.getD []).isEmpty) = true then 0 else 4) + (if 0 < (a.locale.getD []).length then 8 else 0)) :: (u32le (a.tz.getD []).length ++ ((a.tz.getD []) ++ (u32le (a.locale.getD []).length ++ ((a.locale.getD []) ++ (u32le (a.format.getD []).length ++ ((a.format.getD []) ++ (a.is_nat ++ (((a.year.map i16le).flatten) ++ (a.month ++ (a.day ++ ((a.ms_day.map i32le).flatten)))))))))))) (13 + (a.tz.getD []).length + (a.locale.getD []).length + (a.format.getD []).length + 3 * n) n = a.month := by
        have h := sliceAt_drop (((if (!(a.tz.getD []).isEmpty) = true then 1 else 0) + (if 0 < (a.format.getD []).length then 2 else 0) + (if (!(a.tz.getD []).isEmpty) = true then 0 else 4) + (if 0 < (a.locale.getD []).length then 8 else 0)) :: (u32le (a.tz.getD []).length ++ ((a.tz.getD []) ++ (u32le (a.locale.getD []).length ++ ((a.locale.getD []) ++ (u32le (a.format.getD []).length ++ ((a.format.getD []) ++ (a.is_nat ++ (((a.year.map i16le).flatten) ++ (a.month ++ (a.day ++ ((a.ms_day.map i32le).flatten)))))))))))) (13 + (a.tz.getD []).length + (a.locale.getD []).length + (a.format.getD []).length + 3 * n) 0 n
        rw [hd9, sliceAt_zero, htkmo] at h
        simpa using h.symm
      have htkdy : (a.day ++ ((a.ms_day.map i32le).flatten)).take n = a.day := by
        rw [← hdy]
        exact List.take_left _ _
      have hsliceday : sliceAt (((if (!(a.tz.getD []).isEmpty) = true then 1 else 0) + (if 0 < (a.format.getD []).length then 2 else 0) + (if (!(a.tz.getD []).isEmpty) = true then 0 else 4) + (if 0 < (a.locale.getD []).length then 8 else 0)) :: (u32le (a.tz.getD []).length ++ ((a.tz.getD []) ++ (u32le (a.locale.getD []).length ++ ((a.locale.getD []) ++ (u32le (a.format.getD []).length ++ ((a.format.getD []) ++ (a.is_nat ++ (((a.year.map i16le).flatten) ++ (a.month ++ (a.day ++ ((a.ms_day.map i32le).flatten)))))))))))) (13 + (a.tz.getD []).length + (a.locale.getD []).length + (a.format.getD []).length + 4 * n) n = a.day := by
        have h := sliceAt_drop (((if (!(a.tz.getD []).isEmpty) = true then 1 else 0) + (if 0 < (a.format.getD []).length then 2 else 0) + (if (!(a.tz.getD []).isEmpty) = true then 0 else 4) + (if 0 < (a.locale.getD []).length then 8 else 0)) :: (u32le (a.tz.getD []).length ++ ((a.tz.getD []) ++ (u32le (a.locale.getD []).length ++ ((a.locale.getD []) ++ (u32le (a.format.getD []).length ++ ((a.format.getD []) ++ (a.is_nat ++ (((a.year.map i16le).flatten) ++ (a.month ++ (a.day ++ ((a.ms_day.map i32le).flatten)))))))))))) (13 + (a.tz.getD []).length + (a.locale.getD []).length + (a.format.getD []).length + 4 * n) 0 n
        rw [hd10, sliceAt_zero, htkdy] at h
        simpa using h.symm
      have hyear : (List.range n).map
          (fun i => readI16At (((if (!(a.tz.getD []).isEmpty) = true then 1 else 0) + (if 0 < (a.format.getD []).length then 2 else 0) + (if (!(a.tz.getD []).isEmpty) = true then 0 else 4) + (if 0 < (a.locale.getD []).length then 8 else 0)) :: (u32le (a.tz.getD []).length ++ ((a.tz.getD []) ++ (u32le (a.locale.getD []).length ++ ((a.locale.getD []) ++ (u32le (a.format.getD []).length ++ ((a.format.getD []) ++ (a.is_nat ++ (((a.year.map i16le).flatten) ++ (a.month ++ (a.day ++ ((a.ms_day.map i32le).flatten)))))))))))) (13 + (a.tz.getD []).length + (a.locale.getD []).length + (a.format.getD []).length + n + 2 * i)) = a.year := by
        refine List.ext_getElem (by simp [hyr]) ?_
        intro i h1 h2
        simp only [List.getElem_map, List.getElem_range]
        have hi : i < a.year.length := by simpa using h2
        have h := readI16At_drop (((if (!(a.tz.getD []).isEmpty) = true then 1 else 0) + (if 0 < (a.format.getD []).length then 2 else 0) + (if (!(a.tz.getD []).isEmpty) = true then 0 else 4) + (if 0 < (a.locale.getD []).length then 8 else 0)) :: (u32le (a.tz.getD []).length ++ ((a.tz.getD []) ++ (u32le (a.locale.getD []).length ++ ((a.locale.getD []) ++ (u32le (a.format.getD []).length ++ ((a.format.getD []) ++ (a.is_nat ++ (((a.year.map i16le).flatten) ++ (a.month ++ (a.day ++ ((a.ms_day.map i32le).flatten)))))))))))) (13 + (a.tz.getD []).length + (a.locale.getD []).length + (a.format.getD []).length + n) (2 * i)
        rw [hd8, read_flatten_at a.year i16le 2 i16le_length readI16At
          readI16At_drop (fun x hx r => readI16At_i16le x r (hyall x hx))
          _ i hi] at h
        exact h.symm
      have hmsday : (List.range n).map
          (fun i => readI32At (((if (!(a.tz.getD []).isEmpty) = true then 1 else 0) + (if 0 < (a.format.getD []).length then 2 else 0) + (if (!(a.tz.getD []).isEmpty) = true then 0 else 4) + (if 0 < (a.locale.getD []).length then 8 else 0)) :: (u32le (a.tz.getD []).length ++ ((a.tz.getD []) ++ (u32le (a.locale.getD []).length ++ ((a.locale.getD []) ++ (u32le (a.format.getD []).length ++ ((a.format.getD []) ++ (a.is_nat ++ (((a.year.map i16le).flatten) ++ (a.month ++ (a.day ++ ((a.ms_day.map i32le).flatten)))))))))))) (13 + (a.tz.getD []).length + (a.locale.getD []).length + (a.format.getD []).length + 5 * n + 4 * i)) = a.ms_day := by
        refine List.ext_getElem (by simp [hms]) ?_
        intro i h1 h2
        simp only [List.getElem_map, List.getElem_range]
        have hi : i < a.ms_day.length := by simpa using h2
        have h := readI32At_drop (((if (!(a.tz.getD []).isEmpty) = true then 1 else 0) + (if 0 < (a.format.getD []).length then 2 else 0) + (if (!(a.tz.getD []).isEmpty) = true then 0 else 4) + (if 0 < (a.locale.getD []).length then 8 else 0)) :: (u32le (a.tz.getD []).length ++ ((a.tz.getD []) ++ (u32le (a.locale.getD []).length ++ ((a.locale.getD []) ++ (u32le (a.format.getD []).length ++ ((a.format.getD []) ++ (a.is_nat ++ (((a.year.map i16le).flatten) ++ (a.month ++ (a.day ++ ((a.ms_day.map i32le).flatten)))))))))))) (13 + (a.tz.getD []).length + (a.locale.getD []).length + (a.format.getD []).length + 5 * n) (4 * i)
        rw [hd11, ← List.append_nil ((a.ms_day.map i32le).flatten)] at h
        rw [read_flatten_at a.ms_day i32le 4 i32le_length readI32At
          readI32At_drop (fun x hx r => readI32At_i32le x r (hmsall x hx))
          [] i hi] at h
        rw [List.append_nil] at h
        exact h.symm
      simp only [decodeLeaf, hk, hfn, bind, exceptBind_ok]
      rw [if_neg (by decide : ¬ (asciiLower ("datetime") = "struct"))]
      rw [if_neg (by decide : ¬ (asciiLower ("datetime") = "numeric"))]
      rw [if_neg (by decide : ¬ (asciiLower ("datetime") = "logical"))]
      rw [if_neg (by decide : ¬ (asciiLower ("datetime") = "char"))]
      rw [if_neg (by decide : ¬ (asciiLower ("datetime") = "string"))]
      rw [if_pos (by decide : asciiLower ("datetime") = "datetime")]
      rw [if_neg (by omega : ¬ (((if (!(a.tz.getD []).isEmpty) = true then 1 else 0) + (if 0 < (a.format.getD []).length then 2 else 0) + (if (!(a.tz.getD []).isEmpty) = true then 0 else 4) + (if 0 < (a.locale.getD []).length then 8 else 0)) :: (u32le (a.tz.getD []).length ++ ((a.tz.getD []) ++ (u32le (a.locale.getD []).length ++ ((a.locale.getD []) ++ (u32le (a.format.getD []).length ++ ((a.format.getD []) ++ (a.is_nat ++ (((a.year.map i16le).flatten) ++ (a.month ++ (a.day ++ ((a.ms_day.map i32le).flatten)))))))))))).length < 1 + 4 + 4 + 4)]
      rw [hreadtz]
      have hc2 : ¬ (5 + (a.tz.getD []).length > (((if (!(a.tz.getD []).isEmpty) = true then 1 else 0) + (if 0 < (a.format.getD []).length then 2 else 0) + (if (!(a.tz.getD []).isEmpty) = true then 0 else 4) + (if 0 < (a.locale.getD []).length then 8 else 0)) :: (u32le (a.tz.getD []).length ++ ((a.tz.getD []) ++ (u32le (a.locale.getD []).length ++ ((a.locale.getD []) ++ (u32le (a.format.getD []).length ++ ((a.format.getD []) ++ (a.is_nat ++ (((a.year.map i16le).flatten) ++ (a.month ++ (a.day ++ ((a.ms_day.map i32le).flatten)))))))))))).length) := by omega
      rw [if_neg hc2]
      rw [hslicetz]
      rw [decMetaOpt_getD a.tz _ htzm]
      simp only [bind, exceptBind_ok]
      rw [hreadloc]
      have hc3 : ¬ (9 + (a.tz.getD []).length + (a.locale.getD []).length > (((if (!(a.tz.getD []).isEmpty) = true then 1 else 0) + (if 0 < (a.format.getD []).length then 2 else 0) + (if (!(a.tz.getD []).isEmpty) = true then 0 else 4) + (if 0 < (a.locale.getD []).length then 8 else 0)) :: (u32le (a.tz.getD []).length ++ ((a.tz.getD []) ++ (u32le (a.locale.getD []).length ++ ((a.locale.getD []) ++ (u32le (a.format.getD []).length ++ ((a.format.getD []) ++ (a.is_nat ++ (((a.year.map i16le).flatten) ++ (a.month ++ (a.day ++ ((a.ms_day.map i32le).flatten)))))))))))).length) := by omega
      rw [if_neg hc3]
      rw [hsliceloc]
      rw [decMetaOpt_getD a.locale _ hlocm]
      simp only [bind, exceptBind_ok]
      rw [hreadfmt]
      have hc4 : ¬ (13 + (a.tz.getD []).length + (a.locale.getD []).length + (a.format.getD []).length > (((if (!(a.tz.getD []).isEmpty) = true then 1 else 0) + (if 0 < (a.format.getD []).length then 2 else 0) + (if (!(a.tz.getD []).isEmpty) = true then 0 else 4) + (if 0 < (a.locale.getD []).length then 8 else 0)) :: (u32le (a.tz.getD []).length ++ ((a.tz.getD []) ++ (u32le (a.locale.getD []).length ++ ((a.locale.getD []) ++ (u32le (a.format.getD []).length ++ ((a.format.getD []) ++ (a.is_nat ++ (((a.year.map i16le).flatten) ++ (a.month ++ (a.day ++ ((a.ms_day.map i32le).flatten)))))))))))).length) := by omega
      rw [if_neg hc4]
      rw [hslicefmt]
      rw [decMetaOpt_getD a.format _ hfmtm]
      simp only [bind, exceptBind_ok]
      have hc5 : ¬ (13 + (a.tz.getD []).length + (a.locale.getD []).length + (a.format.getD []).length + n > (((if (!(a.tz.getD []).isEmpty) = true then 1 else 0) + (if 0 < (a.format.getD []).length then 2 else 0) + (if (!(a.tz.getD []).isEmpty) = true then 0 else 4) + (if 0 < (a.locale.getD []).length then 8 else 0)) :: (u32le (a.tz.getD []).length ++ ((a.tz.getD []) ++ (u32le (a.locale.getD []).length ++ ((a.locale.getD []) ++ (u32le (a.format.getD []).length ++ ((a.format.getD []) ++ (a.is_nat ++ (((a.year.map i16le).flatten) ++ (a.month ++ (a.day ++ ((a.ms_day.map i32le).flatten)))))))))))).length) := by omega
      rw [if_neg hc5]
      have hc6 : ¬ (13 + (a.tz.getD []).length + (a.locale.getD []).length + (a.format.getD []).length + n + (n * 2 + n + n + n * 4) > (((if (!(a.tz.getD []).isEmpty) = true then 1 else 0) + (if 0 < (a.format.getD []).length then 2 else 0) + (if (!(a.tz.getD []).isEmpty) = true then 0 else 4) + (if 0 < (a.locale.getD []).length then 8 else 0)) :: (u32le (a.tz.getD []).length ++ ((a.tz.getD []) ++ (u32le (a.locale.getD []).length ++ ((a.locale.getD []) ++ (u32le (a.format.getD []).length ++ ((a.format.getD []) ++ (a.is_nat ++ (((a.year.map i16le).flatten) ++ (a.month ++ (a.day ++ ((a.ms_day.map i32le).flatten)))))))))))).length) := by
        omega
      rw [if_neg hc6]
      rw [hslicenat, hyear, hslicemonth, hsliceday, hmsday]
      rw [hs]

/-- Round trip of every well-formed leaf value through `encode_leaf`
and `decode_leaf`. -/
theorem leaf_roundtrip (v : GbfValue) (hleaf : isLeafVal v = true)
    (hwf : wfVal v = true) :
    ∃ e, encodeLeaf v = .ok e
      ∧ e.raw.length ≤ maxFieldBytes
      ∧ ∀ f : FieldMeta, f.kind = e.kind → f.className = e.className →
          f.shape = e.shape → f.complex = e.complex →
          decodeLeaf f e.raw = .ok v := by
  cases v with
  | struct m => exact Bool.noConfusion hleaf
  | numeric a => exact leaf_roundtrip_numeric a hwf
  | logical a => exact leaf_roundtrip_logical a hwf
  | char a => exact leaf_roundtrip_char a hwf
  | string a => exact leaf_roundtrip_string a hwf
  | dateTime a => exact leaf_roundtrip_datetime a hwf
  | duration a => exact leaf_roundtrip_duration a hwf
  | calendarDuration a => exact leaf_roundtrip_calendar a hwf
  | categorical a => exact leaf_roundtrip_categorical a hwf
  | emptyStruct => exact leaf_roundtrip_emptyStruct

/-- Round trip of a well-formed leaf through the writer's per-field
pipeline (encode, optional CRC, compression decision) and the reader's
`decode_field_bytes` plus `decode_leaf`, for an inverse pair of zlib
routines. -/
theorem encodeField_roundtrip (zc : Nat → List Byte → List Byte)
    (zd : List Byte → Except String (List Byte))
    (hz : ∀ lvl x, zd (zc lvl x) = .ok x)
    (opts : WriteOptions) (name : Name) (v : GbfValue)
    (hleaf : isLeafVal v = true) (hwf : wfVal v = true) :
    ∃ fm stored, encodeField zc opts name v = .ok (fm, stored)
      ∧ fm.name = name
      ∧ fm.csize = stored.length
      ∧ fm.csize ≤ maxFieldBytes
      ∧ fm.usize ≤ maxFieldBytes
      ∧ ∀ validate : Bool, ∃ raw,
          decodeFieldBytes zd fm stored validate = .ok raw
          ∧ decodeLeaf fm raw = .ok v := by
  obtain ⟨e, henc, hcap, hdec⟩ := leaf_roundtrip v hleaf hwf
  have hcrcneg : ∀ validate : Bool,
      ¬ (validate = true ∧ (if opts.crc then crc32 e.raw else 0) ≠ 0
         ∧ crc32 e.raw ≠ (if opts.crc then crc32 e.raw else 0)) := by
    intro validate hc
    cases hoc : opts.crc with
    | true =>
      rw [hoc] at hc
      simp only [if_true] at hc
      exact hc.2.2 rfl
    | false =>
      rw [hoc] at hc
      simp only [Bool.false_eq_true, if_false] at hc
      exact hc.2.1 rfl
  cases hkeep : ((if opts.compression then
        match opts.compressionMode with
        | .never => false
        | .always => decide (1024 ≤ e.raw.length)
        | .auto => shouldTryCompress e.kind e.className e.raw
      else false)
      && decide ((zlibCompress zc e.raw opts.compressionLevel).length
        < e.raw.length)) with
  | true =>
    have hlt : (zlibCompress zc e.raw opts.compressionLevel).length
        < e.raw.length := by
      have := (Bool.and_eq_true _ _).mp hkeep
      exact of_decide_eq_true this.2
    refine ⟨{ name := name, kind := e.kind, className := e.className,
              shape := e.shape, complex := e.complex, encoding := e.encoding,
              compression := "zlib", offset := 0,
              csize := (zlibCompress zc e.raw opts.compressionLevel).length,
              usize := e.raw.length,
              crc32 := if opts.crc then crc32 e.raw else 0 },
          zlibCompress zc e.raw opts.compressionLevel, ?_, rfl, rfl,
          (by show (zlibCompress zc e.raw opts.compressionLevel).length ≤ _
              omega),
          (by show e.raw.length ≤ _
              omega), ?_⟩
    · simp only [encodeField, henc, bind, exceptBind_ok, hkeep, if_true]
    · intro validate
      refine ⟨e.raw, ?_, hdec _ rfl rfl rfl rfl⟩
      simp only [decodeFieldBytes]
      rw [if_pos (by decide : eqIgnoreAsciiCase ("zlib") ("zlib") = true)]
      have hcapneg : ¬ (e.raw.length
          > min (if e.raw.length > 0 then e.raw.length else maxFieldBytes)
              maxFieldBytes) := by
        rw [if_pos (by omega : e.raw.length > 0)]
        omega
      have hzd : zlibDecompress zd (zlibCompress zc e.raw opts.compressionLevel)
          (if e.raw.length > 0 then e.raw.length else maxFieldBytes)
          = .ok e.raw := by
        simp only [zlibDecompress, zlibCompress, hz]
        rw [if_neg hcapneg]
      rw [hzd]
      simp only [bind, exceptBind_ok]
      rw [if_neg (by intro hc; exact hc.2.2 rfl)]
      rw [if_neg (hcrcneg validate)]
  | false =>
    refine ⟨{ name := name, kind := e.kind, className := e.className,
              shape := e.shape, complex := e.complex, encoding := e.encoding,
              compression := "none", offset := 0,
              csize := e.raw.length, usize := e.raw.length,
              crc32 := if opts.crc then crc32 e.raw else 0 },
          e.raw, ?_, rfl, rfl,
          (by show e.raw.length ≤ _
              omega),
          (by show e.raw.length ≤ _
              omega), ?_⟩
    · simp only [encodeField, henc, bind, exceptBind_ok, hkeep,
        Bool.false_eq_true, if_false]
    · intro validate
      refine ⟨e.raw, ?_, hdec _ rfl rfl rfl rfl⟩
      simp only [decodeFieldBytes]
      rw [if_neg (by decide : ¬ (eqIgnoreAsciiCase ("none") ("zlib") = true))]
      rw [if_neg (by omega : ¬ (e.raw.length > maxFieldBytes))]
      simp only [bind, exceptBind_ok]
      rw [if_neg (by intro hc; exact hc.2.2 rfl)]
      rw [if_neg (hcrcneg validate)]

/-- `splitDots` never returns an empty part list. -/
theorem splitDots_ne_nil : ∀ l : Name, splitDots l ≠ [] := by
  intro l
  induction l with
  | nil => simp [splitDots]
  | cons c t ih =>
    cases hs : splitDots t with
    | nil => exact absurd hs ih
    | cons s rs =>
      simp only [splitDots, hs]
      by_cases hc : c = '.'
      · simp [hc]
      · simp [hc]

/-- `splitDots` splits at an explicit dot. -/
theorem splitDots_append : ∀ a b : Name,
    splitDots (a ++ '.' :: b) = splitDots a ++ splitDots b := by
  intro a b
  induction a with
  | nil =>
    cases hs : splitDots b with
    | nil => exact absurd hs (splitDots_ne_nil b)
    | cons s rs =>
      simp only [List.nil_append, splitDots, hs]
      simp
  | cons c t ih =>
    cases hs : splitDots t with
    | nil => exact absurd hs (splitDots_ne_nil t)
    | cons s rs =>
      simp only [List.cons_append, splitDots, List.append_eq, ih, hs]
      by_cases hc : c = '.'
      · simp [hc]
      · simp [hc]

/-- A non-empty dot-free name splits into itself alone. -/
theorem splitDots_no_dot : ∀ k : Name, hasDot k = false → k ≠ [] →
    splitDots k = [k] := by
  intro k
  induction k with
  | nil => intro _ h; exact absurd rfl h
  | cons c t ih =>
    intro hd _
    have hcd : ¬ (c = '.') := by
      intro hc
      rw [hasDot] at hd
      simp only [List.any_cons, Bool.or_eq_false_iff] at hd
      have := hd.1
      rw [hc] at this
      simp at this
    have htd : hasDot t = false := by
      rw [hasDot] at hd ⊢
      simp only [List.any_cons, Bool.or_eq_false_iff] at hd
      exact hd.2
    cases ht : t with
    | nil => simp [splitDots, hcd]
    | cons c2 t2 =>
      have hne : t ≠ [] := by rw [ht]; simp
      have h2 := ih htd hne
      rw [ht] at h2
      conv_lhs => rw [splitDots]
      rw [h2]
      simp [hcd]

/-- Joining with a non-empty prefix stays non-empty. -/
theorem joinName_ne_nil : ∀ (ps : List Name) (pre : Name), pre ≠ [] →
    joinName pre ps ≠ [] := by
  intro ps
  induction ps with
  | nil => intro pre h; exact h
  | cons k t ih =>
    intro pre h
    show joinName (pre ++ '.' :: k) t ≠ []
    exact ih _ (by cases pre <;> simp)

/-- `splitDots` inverts `joinName` on well-formed parts. -/
theorem splitDots_joinName : ∀ (ps : List Name) (pre : Name),
    (∀ p ∈ ps, p ≠ [] ∧ hasDot p = false) →
    splitDots (joinName pre ps) = splitDots pre ++ ps := by
  intro ps
  induction ps with
  | nil => intro pre _; simp [joinName]
  | cons k t ih =>
    intro pre hwf
    show splitDots (joinName (pre ++ '.' :: k) t) = splitDots pre ++ k :: t
    rw [ih _ (fun p hp => hwf p (List.mem_cons_of_mem k hp))]
    rw [splitDots_append]
    obtain ⟨hk1, hk2⟩ := hwf k (List.mem_cons_self _ _)
    rw [splitDots_no_dot k hk2 hk1]
    simp

/-- `splitDots` inverts `joinParts` on well-formed non-empty paths. -/
theorem splitDots_joinParts (k : Name) (ps : List Name)
    (hk1 : k ≠ []) (hk2 : hasDot k = false)
    (hps : ∀ p ∈ ps, p ≠ [] ∧ hasDot p = false) :
    splitDots (joinParts (k :: ps)) = k :: ps := by
  show splitDots (joinName k ps) = k :: ps
  rw [splitDots_joinName ps k hps, splitDots_no_dot k hk2 hk1]
  simp

/-- A joined non-empty path is a non-empty name. -/
theorem joinParts_ne_nil (k : Name) (ps : List Name) (hk : k ≠ []) :
    joinParts (k :: ps) ≠ [] :=
  joinName_ne_nil ps k hk

/-- Irreflexivity of the byte-wise name order. -/
theorem nameLt_irrefl : ∀ a : Name, nameLt a a = false := by
  intro a
  induction a with
  | nil => rfl
  | cons x xs ih =>
    simp only [nameLt, lt_irrefl, if_false]
    exact ih

/-- The byte-wise name order is asymmetric. -/
theorem nameLt_asymm : ∀ a b : Name, nameLt a b = true → nameLt b a = false := by
  intro a
  induction a with
  | nil =>
    intro b h
    cases b with
    | nil => rfl
    | cons y ys => rfl
  | cons x xs ih =>
    intro b h
    cases b with
    | nil => exact Bool.noConfusion h
    | cons y ys =>
      simp only [nameLt] at h ⊢
      by_cases hxy : x < y
      · rw [if_neg (lt_asymm hxy), if_pos hxy]
      · rw [if_neg hxy] at h
        by_cases hyx : y < x
        · rw [if_pos hyx] at h; exact Bool.noConfusion h
        · rw [if_neg hyx] at h
          rw [if_neg hyx, if_neg hxy]
          exact ih ys h

/-- The byte-wise name order is irreflexive, as an inequality. -/
theorem nameLt_ne (a b : Name) (h : nameLt a b = true) : a ≠ b := by
  intro he
  rw [he] at h
  rw [nameLt_irrefl] at h
  exact Bool.noConfusion h

/-- Transitivity of the byte-wise name order. -/
theorem nameLt_trans : ∀ a b c : Name,
    nameLt a b = true → nameLt b c = true → nameLt a c = true := by
  intro a
  induction a with
  | nil =>
    intro b c h1 h2
    cases b with
    | nil => exact h2
    | cons y ys =>
      cases c with
      | nil => exact Bool.noConfusion h2
      | cons z zs => rfl
  | cons x xs ih =>
    intro b c h1 h2
    cases b with
    | nil => exact Bool.noConfusion h1
    | cons y ys =>
      cases c with
      | nil => exact Bool.noConfusion h2
      | cons z zs =>
        simp only [nameLt] at h1 h2 ⊢
        by_cases hxy : x < y
        · by_cases hyz : y < z
          · rw [if_pos (lt_trans hxy hyz)]
          · rw [if_neg hyz] at h2
            by_cases hzy : z < y
            · rw [if_pos hzy] at h2; exact Bool.noConfusion h2
            · have heq : y = z := le_antisymm (not_lt.mp hzy) (not_lt.mp hyz)
              subst heq
              rw [if_pos hxy]
        · rw [if_neg hxy] at h1
          by_cases hyx : y < x
          · rw [if_pos hyx] at h1; exact Bool.noConfusion h1
          · rw [if_neg hyx] at h1
            have heq : x = y := le_antisymm (not_lt.mp hyx) (not_lt.mp hxy)
            subst heq
            by_cases hxz : x < z
            · rw [if_pos hxz]
            · rw [if_neg hxz] at h2 ⊢
              by_cases hzx : z < x
              · rw [if_pos hzx] at h2; exact Bool.noConfusion h2
              · rw [if_neg hzx] at h2 ⊢
                exact ih ys zs h1 h2

/-- The head key of a sorted map is below every later key. -/
theorem sorted_head_lt : ∀ (t : Smap) (k : Name) (v : GbfValue),
    smapSortedKeys ((k, v) :: t) = true →
    ∀ p ∈ t, nameLt k p.1 = true := by
  intro t
  induction t with
  | nil => intro k v _ p hp; cases hp
  | cons kv2 t2 ih =>
    intro k v hs p hp
    obtain ⟨k2, v2⟩ := kv2
    rw [smapSortedKeys] at hs
    simp only [Bool.and_eq_true] at hs
    rcases List.mem_cons.mp hp with h1 | h1
    · rw [h1]
      exact hs.1
    · exact nameLt_trans _ _ _ hs.1 (ih k2 v2 hs.2 p h1)

/-- Sortedness of a map's tail. -/
theorem smapSortedKeys_tail (k : Name) (v : GbfValue) (t : Smap)
    (h : smapSortedKeys ((k, v) :: t) = true) : smapSortedKeys t = true := by
  cases t with
  | nil => rfl
  | cons kv2 t2 =>
    obtain ⟨k2, v2⟩ := kv2
    rw [smapSortedKeys] at h
    simp only [Bool.and_eq_true] at h
    exact h.2

/-- Inserting a key above every existing key appends. -/
theorem minsert_gt : ∀ (m : Smap) (k : Name) (v : GbfValue),
    (∀ p ∈ m, nameLt p.1 k = true) →
    minsert k v m = m ++ [(k, v)] := by
  intro m
  induction m with
  | nil => intro k v _; rfl
  | cons kv2 t ih =>
    intro k v h
    obtain ⟨k2, v2⟩ := kv2
    have h2 := h (k2, v2) (List.mem_cons_self _ _)
    rw [minsert]
    rw [if_neg (by rw [nameLt_asymm k2 k h2]; simp)]
    rw [if_neg (fun he => nameLt_ne k2 k h2 he.symm)]
    rw [ih k v (fun p hp => h p (List.mem_cons_of_mem _ hp))]
    rfl

/-- A key above every existing key is absent. -/
theorem mlookup_none_gt : ∀ (m : Smap) (k : Name),
    (∀ p ∈ m, nameLt p.1 k = true) →
    mlookup k m = none := by
  intro m
  induction m with
  | nil => intro k _; rfl
  | cons kv2 t ih =>
    intro k h
    obtain ⟨k2, v2⟩ := kv2
    rw [mlookup]
    rw [if_neg (fun he => nameLt_ne k2 k (h (k2, v2) (List.mem_cons_self _ _)) he.symm)]
    exact ih k (fun p hp => h p (List.mem_cons_of_mem _ hp))

/-- Looking up a freshly inserted key. -/
theorem mlookup_minsert_self : ∀ (m : Smap) (k : Name) (v : GbfValue),
    mlookup k (minsert k v m) = some v := by
  intro m
  induction m with
  | nil => intro k v; simp [minsert, mlookup]
  | cons kv2 t ih =>
    intro k v
    obtain ⟨k2, v2⟩ := kv2
    rw [minsert]
    by_cases h1 : nameLt k k2 = true
    · rw [if_pos h1, mlookup, if_pos rfl]
    · rw [if_neg h1]
      by_cases h2 : k = k2
      · rw [if_pos h2, mlookup, if_pos rfl]
      · rw [if_neg h2, mlookup, if_neg h2]
        exact ih k v

/-- Re-inserting at the same key overwrites. -/
theorem minsert_minsert_same : ∀ (m : Smap) (k : Name) (v1 v2 : GbfValue),
    minsert k v2 (minsert k v1 m) = minsert k v2 m := by
  intro m
  induction m with
  | nil =>
    intro k v1 v2
    show minsert k v2 [(k, v1)] = [(k, v2)]
    rw [minsert]
    rw [if_neg (by rw [nameLt_irrefl]; simp)]
    rw [if_pos rfl]
  | cons kv2 t ih =>
    intro k v1 v2
    obtain ⟨k2, u2⟩ := kv2
    rw [minsert]
    by_cases h1 : nameLt k k2 = true
    · rw [if_pos h1]
      conv_lhs => rw [minsert]
      rw [if_neg (by rw [nameLt_irrefl]; simp), if_pos rfl]
      rw [minsert, if_pos h1]
    · rw [if_neg h1]
      by_cases h2 : k = k2
      · rw [if_pos h2]
        conv_lhs => rw [minsert]
        rw [if_neg (by rw [nameLt_irrefl]; simp), if_pos rfl]
        rw [minsert, if_neg h1, if_pos h2]
      · rw [if_neg h2]
        conv_lhs => rw [minsert]
        rw [if_neg h1, if_neg h2]
        rw [ih k v1 v2]
        rw [minsert, if_neg h1, if_neg h2]

/-- Structural facts about the relative leaf paths of well-formed
values: counts, well-formed parts, head keys, and distinctness. -/
theorem leafPaths_facts : ∀ N : Nat,
    (∀ v : GbfValue, sizeOf v ≤ N → wfVal v = true →
      1 ≤ numLeaves v
      ∧ (leafPaths v).length = numLeaves v
      ∧ (∀ it ∈ leafPaths v,
          (∀ part ∈ it.1, part ≠ [] ∧ hasDot part = false)
          ∧ isLeafVal it.2 = true ∧ wfVal it.2 = true)
      ∧ ((leafPaths v).map (fun p => p.1)).Nodup)
    ∧ (∀ m : Smap, sizeOf m ≤ N → wfEntries m = true →
        smapSortedKeys m = true →
      (m ≠ [] → 1 ≤ numLeavesList m)
      ∧ (leafPathsList m).length = numLeavesList m
      ∧ (∀ it ∈ leafPathsList m,
          (∀ part ∈ it.1, part ≠ [] ∧ hasDot part = false)
          ∧ isLeafVal it.2 = true ∧ wfVal it.2 = true
          ∧ ∃ k p2 w, it.1 = k :: p2 ∧ (k, w) ∈ m)
      ∧ ((leafPathsList m).map (fun p => p.1)).Nodup) := by
  intro N
  induction N with
  | zero =>
    constructor
    · intro v hv
      exfalso
      cases v <;> simp_all
    · intro m hm
      exfalso
      cases m <;> simp_all
  | succ N ih =>
    constructor
    · intro v hv hwf
      cases v with
      | struct m =>
        have hm : sizeOf m ≤ N := by
          simp only [GbfValue.struct.sizeOf_spec] at hv
          omega
        rw [wfVal] at hwf
        simp only [Bool.and_eq_true] at hwf
        obtain ⟨⟨hne, hsort⟩, hent⟩ := hwf
        obtain ⟨h1, h2, h3, h4⟩ := ih.2 m hm hent hsort
        have hmne : m ≠ [] := by
          intro hc
          rw [hc] at hne
          simp at hne
        refine ⟨h1 hmne, h2, ?_, h4⟩
        intro it hit
        exact ⟨(h3 it hit).1, (h3 it hit).2.1, (h3 it hit).2.2.1⟩
      | numeric a => exact ⟨le_refl 1, rfl, by intro it hit; simp [leafPaths] at hit; simp [hit, isLeafVal, hwf], by simp [leafPaths]⟩
      | logical a => exact ⟨le_refl 1, rfl, by intro it hit; simp [leafPaths] at hit; simp [hit, isLeafVal, hwf], by simp [leafPaths]⟩
      | char a => exact ⟨le_refl 1, rfl, by intro it hit; simp [leafPaths] at hit; simp [hit, isLeafVal, hwf], by simp [leafPaths]⟩
      | string a => exact ⟨le_refl 1, rfl, by intro it hit; simp [leafPaths] at hit; simp [hit, isLeafVal, hwf], by simp [leafPaths]⟩
      | dateTime a => exact ⟨le_refl 1, rfl, by intro it hit; simp [leafPaths] at hit; simp [hit, isLeafVal, hwf], by simp [leafPaths]⟩
      | duration a => exact ⟨le_refl 1, rfl, by intro it hit; simp [leafPaths] at hit; simp [hit, isLeafVal, hwf], by simp [leafPaths]⟩
      | calendarDuration a => exact ⟨le_refl 1, rfl, by intro it hit; simp [leafPaths] at hit; simp [hit, isLeafVal, hwf], by simp [leafPaths]⟩
      | categorical a => exact ⟨le_refl 1, rfl, by intro it hit; simp [leafPaths] at hit; simp [hit, isLeafVal, hwf], by simp [leafPaths]⟩
      | emptyStruct => exact ⟨le_refl 1, rfl, by intro it hit; simp [leafPaths] at hit; simp [hit, isLeafVal, hwf], by simp [leafPaths]⟩
    · intro m hm hent hsort
      cases m with
      | nil =>
        refine ⟨by intro h; exact absurd rfl h, rfl, ?_, by simp [leafPathsList]⟩
        intro it hit
        cases hit
      | cons kv t =>
        obtain ⟨k, v⟩ := kv
        have hszv : sizeOf v ≤ N := by
          simp only [List.cons.sizeOf_spec, Prod.mk.sizeOf_spec] at hm
          omega
        have hszt : sizeOf t ≤ N := by
          simp only [List.cons.sizeOf_spec, Prod.mk.sizeOf_spec] at hm
          omega
        rw [wfEntries] at hent
        simp only [Bool.and_eq_true] at hent
        obtain ⟨⟨⟨hk1, hk2⟩, hwv⟩, hent2⟩ := hent
        have hk1' : k ≠ [] := by
          intro hc
          rw [hc] at hk1
          simp at hk1
        have hk2' : hasDot k = false := by
          cases h : hasDot k with
          | false => rfl
          | true => rw [h] at hk2; simp at hk2
        obtain ⟨hv1, hv2, hv3, hv4⟩ := ih.1 v hszv hwv
        obtain ⟨ht1, ht2, ht3, ht4⟩ :=
          ih.2 t hszt hent2 (smapSortedKeys_tail k v t hsort)
        refine ⟨?_, ?_, ?_, ?_⟩
        · intro _
          rw [numLeavesList]
          omega
        · rw [leafPathsList, numLeavesList, List.length_append,
            List.length_map, hv2, ht2]
        · intro it hit
          rw [leafPathsList] at hit
          rcases List.mem_append.mp hit with h1 | h1
          · obtain ⟨p, hp, hpe⟩ := List.mem_map.mp h1
            obtain ⟨hpw, hpl, hpwf⟩ := hv3 p hp
            refine ⟨?_, ?_, ?_, ?_⟩
            · rw [← hpe]
              intro part hpart
              rcases List.mem_cons.mp hpart with h2 | h2
              · rw [h2]; exact ⟨hk1', hk2'⟩
              · exact hpw part h2
            · rw [← hpe]; exact hpl
            · rw [← hpe]; exact hpwf
            · exact ⟨k, p.1, v, by rw [← hpe], List.mem_cons_self _ _⟩
          · obtain ⟨hw1, hw2, hw3, k2, p2, w2, hke, hkm⟩ := ht3 it h1
            exact ⟨hw1, hw2, hw3, k2, p2, w2, hke,
              List.mem_cons_of_mem _ hkm⟩
        · rw [leafPathsList, List.map_append]
          rw [List.nodup_append]
          refine ⟨?_, ht4, ?_⟩
          · have hcomp : (List.map (fun p => p.1)
                ((leafPaths v).map (fun p => (k :: p.1, p.2))))
                = ((leafPaths v).map (fun p => p.1)).map (fun q => k :: q) := by
              simp [List.map_map]
            rw [hcomp]
            exact hv4.map (fun q1 q2 he => by injection he)
          · intro x hx1 hx2
            have hcomp : (List.map (fun p => p.1)
                ((leafPaths v).map (fun p => (k :: p.1, p.2))))
                = ((leafPaths v).map (fun p => p.1)).map (fun q => k :: q) := by
              simp [List.map_map]
            rw [hcomp] at hx1
            obtain ⟨q, hq, hqe⟩ := List.mem_map.mp hx1
            obtain ⟨it2, hit2, hit2e⟩ := List.mem_map.mp hx2
            obtain ⟨-, -, -, k2, p2, w2, hke, hkm⟩ := ht3 it2 hit2
            have h2 := sorted_head_lt t k v hsort (k2, w2) hkm
            have hkne : k ≠ k2 := nameLt_ne k k2 h2
            have h3 : k :: q = k2 :: p2 := by
              rw [hqe, ← hke]
              exact hit2e.symm
            injection h3 with h4 h5
            exact hkne h4

/-- `flatten_to_leaves` emits exactly the relative leaf paths joined
onto the prefix. -/
theorem flatten_paths : ∀ N : Nat,
    (∀ v : GbfValue, sizeOf v ≤ N → wfVal v = true → ∀ pre : Name,
      pre ≠ [] →
      flattenToLeaves v pre
        = .ok ((leafPaths v).map (fun p => (joinName pre p.1, p.2))))
    ∧ (∀ m : Smap, sizeOf m ≤ N → wfEntries m = true → ∀ pre : Name,
      pre ≠ [] →
      flattenKeyList m pre
        = .ok ((leafPathsList m).map (fun p => (joinName pre p.1, p.2)))) := by
  intro N
  induction N with
  | zero =>
    constructor
    · intro v hv
      exfalso
      cases v <;> simp_all
    · intro m hm
      exfalso
      cases m <;> simp_all
  | succ N ih =>
    have hprene : ∀ pre : Name, pre ≠ [] → (pre.isEmpty = true) → False := by
      intro pre h1 h2
      cases pre with
      | nil => exact h1 rfl
      | cons a t => simp at h2
    constructor
    · intro v hv hwf pre hpre
      cases v with
      | struct m =>
        have hm : sizeOf m ≤ N := by
          simp only [GbfValue.struct.sizeOf_spec] at hv
          omega
        rw [wfVal] at hwf
        simp only [Bool.and_eq_true] at hwf
        exact ih.2 m hm hwf.2 pre hpre
      | numeric a =>
        simp only [flattenToLeaves, leafPaths, List.map_cons, List.map_nil]
        rw [if_neg (hprene pre hpre)]
        rfl
      | logical a =>
        simp only [flattenToLeaves, leafPaths, List.map_cons, List.map_nil]
        rw [if_neg (hprene pre hpre)]
        rfl
      | char a =>
        simp only [flattenToLeaves, leafPaths, List.map_cons, List.map_nil]
        rw [if_neg (hprene pre hpre)]
        rfl
      | string a =>
        simp only [flattenToLeaves, leafPaths, List.map_cons, List.map_nil]
        rw [if_neg (hprene pre hpre)]
        rfl
      | dateTime a =>
        simp only [flattenToLeaves, leafPaths, List.map_cons, List.map_nil]
        rw [if_neg (hprene pre hpre)]
        rfl
      | duration a =>
        simp only [flattenToLeaves, leafPaths, List.map_cons, List.map_nil]
        rw [if_neg (hprene pre hpre)]
        rfl
      | calendarDuration a =>
        simp only [flattenToLeaves, leafPaths, List.map_cons, List.map_nil]
        rw [if_neg (hprene pre hpre)]
        rfl
      | categorical a =>
        simp only [flattenToLeaves, leafPaths, List.map_cons, List.map_nil]
        rw [if_neg (hprene pre hpre)]
        rfl
      | emptyStruct =>
        simp only [flattenToLeaves, leafPaths, List.map_cons, List.map_nil]
        rw [if_neg (hprene pre hpre)]
        rfl
    · intro m hm hent pre hpre
      cases m with
      | nil => rfl
      | cons kv t =>
        obtain ⟨k, v⟩ := kv
        have hszv : sizeOf v ≤ N := by
          simp only [List.cons.sizeOf_spec, Prod.mk.sizeOf_spec] at hm
          omega
        have hszt : sizeOf t ≤ N := by
          simp only [List.cons.sizeOf_spec, Prod.mk.sizeOf_spec] at hm
          omega
        rw [wfEntries] at hent
        simp only [Bool.and_eq_true] at hent
        obtain ⟨⟨⟨hk1, hk2⟩, hwv⟩, hent2⟩ := hent
        have hk2' : hasDot k = false := by
          cases h : hasDot k with
          | false => rfl
          | true => rw [h] at hk2; simp at hk2
        simp only [flattenKeyList]
        rw [if_neg (by rw [hk2']; simp : ¬ (hasDot k = true))]
        rw [if_neg (hprene pre hpre)]
        rw [ih.1 v hszv hwv (pre ++ '.' :: k) (by cases pre <;> simp)]
        rw [ih.2 t hszt hent2 pre hpre]
        simp only [bind, exceptBind_ok]
        simp only [leafPathsList, List.map_append, List.map_map]
        rfl

/-- Inversion of one step of a successful `Except` fold. -/
theorem exceptFold_cons_inv {α β : Type} (f : β → α → Except GbfErr β)
    (x : α) (l : List α) (init out : β)
    (h : List.foldlM f init (x :: l) = .ok out) :
    ∃ mid, f init x = .ok mid ∧ List.foldlM f mid l = .ok out := by
  rw [List.foldlM_cons] at h
  cases hx : f init x with
  | error e =>
    rw [hx] at h
    simp only [bind, exceptBind_err] at h
    exact Except.noConfusion h
  | ok mid =>
    rw [hx] at h
    simp only [bind, exceptBind_ok] at h
    exact ⟨mid, rfl, h⟩

/-- Descending one path component of `assign_by_path`: the enclosing
map gets the updated child struct re-inserted. -/
theorem assignParts_cons (w : GbfValue) (k : Name) (ps : List Name)
    (acc sub₀ mid : Smap) (hk : k ≠ []) (hps : ps ≠ [])
    (hdisj : mlookup k acc = some (.struct sub₀)
      ∨ (mlookup k acc = none ∧ sub₀ = []))
    (hsub : assignParts w ps sub₀ = .ok mid) :
    assignParts w (k :: ps) acc = .ok (minsert k (.struct mid) acc) := by
  cases ps with
  | nil => exact absurd rfl hps
  | cons p2 ps2 =>
    have hke : (k.isEmpty = true) → False := by
      intro h2
      cases k with
      | nil => exact hk rfl
      | cons a t => simp at h2
    rcases hdisj with hl | ⟨hl, hsube⟩
    · simp only [assignParts, hl]
      rw [if_neg hke]
      simp only [hsub, bind, exceptBind_ok]
    · simp only [assignParts, hl]
      rw [if_neg hke]
      rw [hsube] at hsub
      simp only [hsub, bind, exceptBind_ok]

/-- Lifting a successful fold of relative paths one level down into an
enclosing key. -/
theorem assignPartsFold_lift (k : Name) (hk : k ≠ []) :
    ∀ (rest : List (List Name × GbfValue)) (it : List Name × GbfValue)
      (acc sub₀ mid sub₁ : Smap),
      it.1 ≠ [] → (∀ it2 ∈ rest, it2.1 ≠ []) →
      (mlookup k acc = some (.struct sub₀)
        ∨ (mlookup k acc = none ∧ sub₀ = [])) →
      assignParts it.2 it.1 sub₀ = .ok mid →
      assignPartsFold rest mid = .ok sub₁ →
      assignPartsFold ((it :: rest).map (fun q => (k :: q.1, q.2))) acc
        = .ok (minsert k (.struct sub₁) acc) := by
  intro rest
  induction rest with
  | nil =>
    intro it acc sub₀ mid sub₁ hit _ hdisj hmid hfold
    have h1 := assignParts_cons it.2 k it.1 acc sub₀ mid hk hit hdisj hmid
    have hms : mid = sub₁ := by
      have h2 : (pure mid : Except GbfErr Smap) = .ok sub₁ := hfold
      exact Except.ok.inj h2
    rw [← hms]
    simp only [assignPartsFold, List.map_cons, List.map_nil,
      List.foldlM_cons, List.foldlM_nil, h1, bind, exceptBind_ok]
    rfl
  | cons it2 rest2 ih =>
    intro it acc sub₀ mid sub₁ hit hrest hdisj hmid hfold
    unfold assignPartsFold at hfold
    obtain ⟨mid2, hmid2, hfold2⟩ :=
      exceptFold_cons_inv _ it2 rest2 mid sub₁ hfold
    have h1 := assignParts_cons it.2 k it.1 acc sub₀ mid hk hit hdisj hmid
    have hacc2 : mlookup k (minsert k (.struct mid) acc)
        = some (.struct mid) := mlookup_minsert_self acc k (.struct mid)
    have h2 := ih it2 (minsert k (.struct mid) acc) mid mid2 sub₁
      (hrest it2 (List.mem_cons_self _ _))
      (fun q hq => hrest q (List.mem_cons_of_mem _ hq))
      (Or.inl hacc2) hmid2 hfold2
    rw [minsert_minsert_same] at h2
    simp only [assignPartsFold, List.map_cons, List.foldlM_cons, h1, bind,
      exceptBind_ok]
    simp only [assignPartsFold, List.map_cons] at h2
    exact h2

/-- A non-struct leaf has the single empty relative path. -/
theorem leafPaths_leaf (v : GbfValue) (h : isLeafVal v = true) :
    leafPaths v = [([], v)] := by
  cases v <;> simp_all [leafPaths, isLeafVal]

/-- Folding the relative paths of a well-formed sorted key list into an
accumulator whose keys all lie below rebuilds the key list, appended. -/
theorem assignFold_entries : ∀ (N : Nat) (m : Smap), sizeOf m ≤ N →
    wfEntries m = true → smapSortedKeys m = true →
    ∀ sub₀ : Smap, (∀ p1 ∈ sub₀, ∀ p2 ∈ m, nameLt p1.1 p2.1 = true) →
    assignPartsFold (leafPathsList m) sub₀ = .ok (sub₀ ++ m) := by
  intro N
  induction N with
  | zero =>
    intro m hm
    exfalso
    cases m <;> simp_all
  | succ N ih =>
    intro m hm hent hsort sub₀ hgt
    cases m with
    | nil =>
      simp only [leafPathsList, assignPartsFold, List.foldlM_nil,
        List.append_nil]
      rfl
    | cons kv t =>
      obtain ⟨k, v⟩ := kv
      have hszv : sizeOf v ≤ N := by
        simp only [List.cons.sizeOf_spec, Prod.mk.sizeOf_spec] at hm
        omega
      have hszt : sizeOf t ≤ N := by
        simp only [List.cons.sizeOf_spec, Prod.mk.sizeOf_spec] at hm
        omega
      rw [wfEntries] at hent
      simp only [Bool.and_eq_true] at hent
      obtain ⟨⟨⟨hk1, hk2⟩, hwv⟩, hent2⟩ := hent
      have hk1' : k ≠ [] := by
        intro hc
        rw [hc] at hk1
        simp at hk1
      have hgt0 : ∀ p1 ∈ sub₀, nameLt p1.1 k = true := by
        intro p1 hp1
        exact hgt p1 hp1 (k, v) (List.mem_cons_self _ _)
      have hgrp : assignPartsFold
          ((leafPaths v).map (fun q => (k :: q.1, q.2))) sub₀
          = .ok (sub₀ ++ [(k, v)]) := by
        cases hleaf : isLeafVal v with
        | true =>
          rw [leafPaths_leaf v hleaf]
          have hstep : assignParts v [k] sub₀ = .ok (minsert k v sub₀) := by
            simp only [assignParts]
            rw [if_neg (by
              intro h2
              cases k with
              | nil => exact hk1' rfl
              | cons a t2 => simp at h2)]
          simp only [assignPartsFold, List.map_cons, List.map_nil,
            List.foldlM_cons, List.foldlM_nil, hstep, bind, exceptBind_ok]
          rw [minsert_gt sub₀ k v hgt0]
          rfl
        | false =>
          cases v with
          | struct m2 =>
            have hwv2 := hwv
            rw [wfVal] at hwv2
            simp only [Bool.and_eq_true] at hwv2
            obtain ⟨⟨hne2, hsort2⟩, hent2b⟩ := hwv2
            have hinner := ih m2 (by
                simp only [GbfValue.struct.sizeOf_spec] at hszv
                omega) hent2b hsort2 [] (by intro p1 hp1 p2 hp2; cases hp1)
            have hfacts := (leafPaths_facts (sizeOf m2)).2 m2 (le_refl _)
              hent2b hsort2
            have hm2ne : m2 ≠ [] := by
              intro hc
              rw [hc] at hne2
              simp at hne2
            have hlpne : leafPathsList m2 ≠ [] := by
              intro hc
              have := hfacts.2.1
              rw [hc] at this
              simp only [List.length_nil] at this
              have h1 := hfacts.1 hm2ne
              omega
            cases hlp : leafPathsList m2 with
            | nil => exact absurd hlp hlpne
            | cons it rest =>
              rw [hlp] at hinner
              unfold assignPartsFold at hinner
              obtain ⟨mid, hmid, hfold2⟩ :=
                exceptFold_cons_inv _ it rest [] ([] ++ m2) hinner
              have hpne : ∀ it2 ∈ leafPathsList m2, it2.1 ≠ [] := by
                intro it2 hit2
                obtain ⟨-, -, -, k2, p2, w2, hke, -⟩ := hfacts.2.2.1 it2 hit2
                rw [hke]
                simp
              have hlift := assignPartsFold_lift k hk1' rest it sub₀ [] mid
                ([] ++ m2)
                (hpne it (by rw [hlp]; exact List.mem_cons_self _ _))
                (fun q hq => hpne q (by rw [hlp]; exact List.mem_cons_of_mem _ hq))
                (Or.inr ⟨mlookup_none_gt sub₀ k hgt0, rfl⟩)
                hmid
                (by unfold assignPartsFold; exact hfold2)
              show assignPartsFold
                  ((leafPaths (GbfValue.struct m2)).map
                    (fun q => (k :: q.1, q.2))) sub₀ = _
              have hlpv : leafPaths (GbfValue.struct m2) = it :: rest := by
                rw [← hlp]
                rfl
              rw [hlpv]
              rw [hlift]
              rw [minsert_gt sub₀ k _ hgt0]
              simp
          | numeric a => exact Bool.noConfusion hleaf
          | logical a => exact Bool.noConfusion hleaf
          | char a => exact Bool.noConfusion hleaf
          | string a => exact Bool.noConfusion hleaf
          | dateTime a => exact Bool.noConfusion hleaf
          | duration a => exact Bool.noConfusion hleaf
          | calendarDuration a => exact Bool.noConfusion hleaf
          | categorical a => exact Bool.noConfusion hleaf
          | emptyStruct => exact Bool.noConfusion hleaf
      have htail := ih t hszt hent2 (smapSortedKeys_tail k v t hsort)
        (sub₀ ++ [(k, v)])
        (by
          intro p1 hp1 p2 hp2
          rcases List.mem_append.mp hp1 with h1 | h1
          · exact hgt p1 h1 p2 (List.mem_cons_of_mem _ hp2)
          · rw [List.mem_singleton.mp h1]
            exact sorted_head_lt t k v hsort p2 hp2)
      show assignPartsFold (leafPathsList ((k, v) :: t)) sub₀ = _
      rw [leafPathsList]
      unfold assignPartsFold
      rw [List.foldlM_append]
      unfold assignPartsFold at hgrp htail
      rw [hgrp]
      simp only [bind, exceptBind_ok]
      rw [htail]
      simp

/-- Hexadecimal digit bytes are never whitespace. -/
theorem isWsByte_hexDigit (d : Nat) : isWsByte (hexDigitByte d) = false := by
  have key : ∀ b : Nat, 47 ≤ b → isWsByte b = false := by
    intro b h1
    unfold isWsByte
    simp only [Bool.or_eq_false_iff, decide_eq_false_iff_not]
    refine ⟨⟨⟨⟨⟨?_, ?_⟩, ?_⟩, ?_⟩, ?_⟩, ?_⟩ <;> · show ¬ (b = _); omega
  unfold hexDigitByte
  by_cases h : d < 10
  · rw [if_pos h]
    exact key _ (by show 47 ≤ 48 + d; omega)
  · rw [if_neg h]
    exact key _ (by show 47 ≤ 55 + d; omega)

/-- Trimming is a no-op on the 8-digit hex text. -/
theorem trimBytes_hex8 (n : Nat) : trimBytes (hex8 n) = hex8 n := by
  unfold trimBytes hex8
  simp [List.dropWhile_cons, isWsByte_hexDigit]

/-- Upper-casing is a no-op on the 8-digit hex text. -/
theorem asciiUpperBytes_hex8 (n : Nat) : asciiUpperBytes (hex8 n) = hex8 n := by
  have h : ∀ m : Nat, upperByte (hexDigitByte (m % 16)) = hexDigitByte (m % 16) :=
    fun m => upperByte_hexDigit _ (Nat.mod_lt _ (by omega))
  unfold asciiUpperBytes hex8
  simp only [List.map_cons, List.map_nil, h]

/-- A header whose stored CRC is the recomputed CRC validates. -/
theorem validateHeaderCrc_self (json : List Byte) :
    validateHeaderCrc (computeHeaderCrcHex json) json = .ok () := by
  unfold validateHeaderCrc computeHeaderCrcHex
  rw [trimBytes_hex8]
  rw [if_neg (by simp [hex8] :
    ¬ (hex8 (crc32 (headerJsonWithPlaceholderCrc json)) = []))]
  rw [asciiUpperBytes_hex8]
  simp

/-- Length of the modelled file bytes. -/
theorem fileBytes_length (json payload : List Byte) :
    (fileBytes json payload).length = 12 + json.length + payload.length := by
  simp only [fileBytes, List.length_append, u32le_length]
  show 8 + (4 + (json.length + payload.length)) = _
  omega

/-- The payload of the modelled file starts at `12 + header_len`. -/
theorem fileBytes_drop (json payload : List Byte) :
    (fileBytes json payload).drop (12 + json.length) = payload := by
  have h : fileBytes json payload
      = (magicBytes ++ (u32le json.length ++ json)) ++ payload := by
    simp [fileBytes]
  have hl : (magicBytes ++ (u32le json.length ++ json)).length
      = 12 + json.length := by
    simp only [List.length_append, u32le_length]
    show 8 + (4 + json.length) = _
    omega
  rw [h, ← hl]
  exact drop_append_len _ _

/-- A sum of naturals each below a cap is below length-times-cap. -/
theorem sum_le_bound : ∀ (l : List Nat) (c : Nat), (∀ x ∈ l, x ≤ c) →
    l.sum ≤ l.length * c := by
  intro l c
  induction l with
  | nil => intro _; simp
  | cons x t ih =>
    intro h
    simp only [List.sum_cons, List.length_cons]
    have h1 := h x (List.mem_cons_self _ _)
    have h2 := ih (fun y hy => h y (List.mem_cons_of_mem _ hy))
    calc x + t.sum ≤ c + t.length * c := by omega
    _ = (t.length + 1) * c := by ring

/-- Right-membership extraction from a pointwise relation. -/
theorem forall2_mem_right {α β : Type} {R : α → β → Prop} :
    ∀ {l1 : List α} {l2 : List β}, List.Forall₂ R l1 l2 →
      ∀ b ∈ l2, ∃ a ∈ l1, R a b := by
  intro l1 l2 h
  induction h with
  | nil => intro b hb; cases hb
  | cons hr _ ih =>
    intro b hb
    rcases List.mem_cons.mp hb with h1 | h1
    · exact ⟨_, List.mem_cons_self _ _, h1 ▸ hr⟩
    · obtain ⟨a, ha, har⟩ := ih b h1
      exact ⟨a, List.mem_cons_of_mem _ ha, har⟩

/-- Left-membership extraction from a pointwise relation. -/
theorem forall2_mem_left {α β : Type} {R : α → β → Prop} :
    ∀ {l1 : List α} {l2 : List β}, List.Forall₂ R l1 l2 →
      ∀ a ∈ l1, ∃ b ∈ l2, R a b := by
  intro l1 l2 h
  induction h with
  | nil => intro a ha; cases ha
  | cons hr _ ih =>
    intro a ha
    rcases List.mem_cons.mp ha with h1 | h1
    · exact ⟨_, List.mem_cons_self _ _, h1 ▸ hr⟩
    · obtain ⟨b, hb, hbr⟩ := ih a h1
      exact ⟨b, List.mem_cons_of_mem _ hb, hbr⟩

/-- Transitive composition of two pointwise relations through a shared
middle list. -/
theorem forall2_comp {α β γ : Type} {R : α → β → Prop} {S : γ → β → Prop} :
    ∀ {l1 : List α} {l2 : List β} {l3 : List γ},
      List.Forall₂ R l1 l2 → List.Forall₂ S l3 l2 →
      List.Forall₂ (fun a c => ∃ b, R a b ∧ S c b) l1 l3 := by
  intro l1 l2 l3 h
  induction h generalizing l3 with
  | nil =>
    intro h2
    cases h2
    exact List.Forall₂.nil
  | cons hr _ ih =>
    intro h2
    cases h2 with
    | cons hs ht => exact List.Forall₂.cons ⟨_, hr, hs⟩ (ih ht)

/-- Pushing a map through the left side of a pointwise relation. -/
theorem forall2_map_left {α β γ : Type} (f : α → γ) {R : γ → β → Prop} :
    ∀ {l1 : List α} {l2 : List β},
      List.Forall₂ (fun a b => R (f a) b) l1 l2 →
      List.Forall₂ R (l1.map f) l2 := by
  intro l1 l2 h
  induction h with
  | nil => exact List.Forall₂.nil
  | cons hr _ ih => exact List.Forall₂.cons hr ih

/-- `find?` by name returns the member itself when names are distinct. -/
theorem find_name_nodup : ∀ (fields : List FieldMeta),
    (fields.map (fun f => f.name)).Nodup →
    ∀ f0 ∈ fields, fields.find? (fun f => f.name = f0.name) = some f0 := by
  intro fields
  induction fields with
  | nil => intro _ f0 h0; cases h0
  | cons g t ih =>
    intro hnd f0 h0
    simp only [List.map_cons, List.nodup_cons] at hnd
    rcases List.mem_cons.mp h0 with h1 | h1
    · rw [h1]
      exact List.find?_cons_of_pos _ (by simp)
    · have hne : ¬ (g.name = f0.name) := by
        intro hc
        exact hnd.1 (hc ▸ List.mem_map.mpr ⟨f0, h1, rfl⟩)
      rw [List.find?_cons_of_neg _ (by simpa using hne)]
      exact ih hnd.2 f0 h1

/-- Offset assignment preserves the csize column. -/
theorem assignOffsetsGo_csizes : ∀ (fs : List FieldMeta) (off : Nat),
    (assignOffsetsGo off fs).map (fun f => f.csize)
      = fs.map (fun f => f.csize) := by
  intro fs
  induction fs with
  | nil => intro off; rfl
  | cons g t ih =>
    intro off
    simp only [assignOffsetsGo, List.map_cons, ih]

/-- Offset assignment preserves the name column. -/
theorem assignOffsetsGo_names : ∀ (fs : List FieldMeta) (off : Nat),
    (assignOffsetsGo off fs).map (fun f => f.name)
      = fs.map (fun f => f.name) := by
  intro fs
  induction fs with
  | nil => intro off; rfl
  | cons g t ih =>
    intro off
    simp only [assignOffsetsGo, List.map_cons, ih]

/-- Every assigned offset is at least the starting offset, and the
assigned list is nondecreasing in offset. -/
theorem assignOffsetsGo_sorted : ∀ (fs : List FieldMeta) (off : Nat),
    off ≤ 2 ^ 64 - 1 →
    (∀ g ∈ assignOffsetsGo off fs, off ≤ g.offset)
    ∧ List.Pairwise (fun a b : FieldMeta => a.offset ≤ b.offset)
        (assignOffsetsGo off fs) := by
  intro fs
  induction fs with
  | nil => intro off _; exact ⟨fun g hg => absurd hg (by simp [assignOffsetsGo]), List.Pairwise.nil⟩
  | cons f t ih =>
    intro off hoff
    have hsat1 : off ≤ satAddU64 off f.csize := by
      unfold satAddU64
      omega
    have hsat2 : satAddU64 off f.csize ≤ 2 ^ 64 - 1 := by
      unfold satAddU64
      omega
    obtain ⟨ihmem, ihpw⟩ := ih (satAddU64 off f.csize) hsat2
    constructor
    · intro g hg
      rw [assignOffsetsGo] at hg
      rcases List.mem_cons.mp hg with h1 | h1
      · rw [h1]
      · exact le_trans hsat1 (ihmem g h1)
    · rw [assignOffsetsGo]
      exact List.Pairwise.cons
        (fun g hg => le_trans hsat1 (ihmem g hg)) ihpw

/-- A list already nondecreasing in offset is left unchanged by the
reader's stable sort. -/
theorem sortFieldsByOffset_id (fields : List FieldMeta)
    (h : List.Pairwise (fun a b : FieldMeta => a.offset ≤ b.offset) fields) :
    sortFieldsByOffset fields = fields :=
  List.Sorted.insertionSort_eq h

/-- A field whose slice lies inside the file is read naively without
error, yielding exactly that slice. -/
theorem readFieldRaw_of_bounds (file : List Byte) (ps : Nat) (g : FieldMeta)
    (h1 : g.csize ≤ maxFieldBytes) (h2 : g.usize ≤ maxFieldBytes)
    (h3 : ps + g.offset + g.csize ≤ file.length)
    (h4 : file.length < 2 ^ 64) :
    readFieldRaw file ps g = .ok (sliceAt file (ps + g.offset) g.csize) := by
  unfold readFieldRaw
  rw [if_neg (by omega : ¬ (g.csize > maxFieldBytes))]
  rw [if_neg (by omega : ¬ (g.usize > maxFieldBytes))]
  rw [checkedAddU64_eq_ok ps g.offset (by omega)]
  simp only [bind, exceptBind_ok]
  rw [checkedAddU64_eq_ok (ps + g.offset) g.csize (by omega)]
  simp only [bind, exceptBind_ok]
  rw [if_neg (by omega : ¬ (ps + g.offset + g.csize > file.length))]

/-- Positional characterization of the offset-assignment loop: each
assigned field is its input with the running offset patched in, its
slice of the file is its own chunk, and the slice stays in bounds. -/
theorem assignOffsetsGo_spec (file : List Byte) (ps : Nat)
    (hlen : file.length < 2 ^ 64) :
    ∀ (encoded : List (FieldMeta × List Byte)) (off : Nat) (tail : List Byte),
    (∀ p ∈ encoded, p.1.csize = p.2.length) →
    ps + off ≤ file.length →
    file.drop (ps + off) = (encoded.map (fun p => p.2)).flatten ++ tail →
    List.Forall₂ (fun g p => ∃ o : Nat, g = { p.1 with offset := o }
        ∧ ps + o + p.1.csize ≤ file.length
        ∧ sliceAt file (ps + o) p.1.csize = p.2)
      (assignOffsetsGo off (encoded.map (fun p => p.1))) encoded := by
  intro encoded
  induction encoded with
  | nil => intro off tail _ _ _; exact List.Forall₂.nil
  | cons p rest ih =>
    intro off tail hcs hpo hdrop
    obtain ⟨f, c⟩ := p
    have hc : f.csize = c.length := hcs (f, c) (List.mem_cons_self _ _)
    simp only [List.map_cons, List.flatten_cons, List.append_assoc] at hdrop
    have hlendrop : (file.drop (ps + off)).length = file.length - (ps + off) :=
      List.length_drop _ _
    have hbound : ps + off + c.length ≤ file.length := by
      rw [hdrop] at hlendrop
      simp only [List.length_append] at hlendrop
      omega
    have hslice : sliceAt file (ps + off) f.csize = c := by
      rw [hc]
      unfold sliceAt
      rw [hdrop]
      exact List.take_left _ _
    have hsat : satAddU64 off f.csize = off + f.csize := by
      unfold satAddU64
      omega
    have hdrop2 : file.drop (ps + (off + f.csize))
        = ((rest.map (fun p => p.2)).flatten) ++ tail := by
      refine drop_peel file c ((rest.map (fun p => p.2)).flatten ++ tail)
        (ps + off) hdrop (ps + (off + f.csize)) ?_
      omega
    have ihr := ih (off + f.csize) tail
      (fun q hq => hcs q (List.mem_cons_of_mem _ hq))
      (by omega) hdrop2
    simp only [List.map_cons, assignOffsetsGo, hsat]
    refine List.Forall₂.cons ⟨off, rfl, ?_, hslice⟩ ihr
    show ps + off + f.csize ≤ file.length
    omega

/-- Joined names of distinct well-formed part paths are distinct. -/
theorem nodup_joined (pitems : List (List Name × GbfValue))
    (hwf : ∀ it ∈ pitems, ∃ k ps, it.1 = k :: ps ∧ k ≠ []
      ∧ hasDot k = false ∧ ∀ p ∈ ps, p ≠ [] ∧ hasDot p = false)
    (hnd : (pitems.map (fun p => p.1)).Nodup) :
    (pitems.map (fun p => joinParts p.1)).Nodup := by
  have hcomp : pitems.map (fun p => joinParts p.1)
      = (pitems.map (fun p => p.1)).map joinParts := by
    simp [List.map_map]
  rw [hcomp]
  refine List.Nodup.map_on ?_ hnd
  intro x hx y hy hxy
  obtain ⟨itx, hitx, hitxe⟩ := List.mem_map.mp hx
  obtain ⟨ity, hity, hitye⟩ := List.mem_map.mp hy
  obtain ⟨kx, psx, hxe, hk1x, hk2x, hpsx⟩ := hwf itx hitx
  obtain ⟨ky, psy, hye, hk1y, hk2y, hpsy⟩ := hwf ity hity
  have hsx : splitDots (joinParts x) = x := by
    rw [← hitxe, hxe]
    exact splitDots_joinParts kx psx hk1x hk2x hpsx
  have hsy : splitDots (joinParts y) = y := by
    rw [← hitye, hye]
    exact splitDots_joinParts ky psy hk1y hk2y hpsy
  rw [← hsx, ← hsy, hxy]

/-- Byte decoding ignores the offset column. -/
theorem decodeFieldBytes_offset (zd : List Byte → Except String (List Byte))
    (f : FieldMeta) (o : Nat) (b : List Byte) (validate : Bool) :
    decodeFieldBytes zd { f with offset := o } b validate
      = decodeFieldBytes zd f b validate := rfl

/-- Leaf decoding ignores the offset column. -/
theorem decodeLeaf_offset (f : FieldMeta) (o : Nat) (raw : List Byte) :
    decodeLeaf { f with offset := o } raw = decodeLeaf f raw := rfl

/-- The writer's stabilized header passes every check of a validating
read of the file it describes. -/
theorem readHeaderChecks_written (root : String) (fields : List FieldMeta)
    (json payload : List Byte) (validate : Bool)
    (hj1 : 2 ≤ json.length) (hj2 : json.length ≤ maxHeaderLen)
    (hpt : payloadTotal fields = payload.length)
    (hlt : 12 + json.length + payload.length < 2 ^ 64) :
    readHeaderChecks (writtenHeader root fields json) json payload validate
      = .ok () := by
  unfold readHeaderChecks
  rw [if_neg (by omega : ¬ (json.length < 2 ∨ json.length > maxHeaderLen))]
  cases validate with
  | false => rfl
  | true =>
    unfold validateHeaderRead
    rw [if_pos (show (true : Bool) = true from rfl)]
    have hcrc : validateHeaderCrc
        (writtenHeader root fields json).headerCrcHex json = .ok () := by
      show validateHeaderCrc (computeHeaderCrcHex json) json = .ok ()
      exact validateHeaderCrc_self json
    rw [hcrc]
    simp only [bind, exceptBind_ok]
    have hfs : (writtenHeader root fields json).fileSize
        = (fileBytes json payload).length := by
      show (8 + 4 + json.length + payloadTotal fields) % 2 ^ 64 = _
      rw [hpt, fileBytes_length]
      rw [Nat.mod_eq_of_lt (by omega)]
    rw [if_neg (by
      intro hcon
      exact hcon.2 hfs.symm)]
    rw [if_neg (by
      intro hcon
      exact hcon.2 rfl)]

/-- Encoding a list of well-formed leaves succeeds, and each produced
field/chunk pair decodes back to its leaf. -/
theorem mapM_encode (zc : Nat → List Byte → List Byte)
    (zd : List Byte → Except String (List Byte))
    (hz : ∀ lvl x, zd (zc lvl x) = .ok x) (opts : WriteOptions) :
    ∀ (items : List (Name × GbfValue)),
    (∀ it ∈ items, isLeafVal it.2 = true ∧ wfVal it.2 = true) →
    ∃ encoded : List (FieldMeta × List Byte),
      items.mapM (fun kv => encodeField zc opts kv.1 kv.2) = .ok encoded
      ∧ List.Forall₂ (fun it p =>
          p.1.name = it.1 ∧ p.1.csize = p.2.length
          ∧ p.1.csize ≤ maxFieldBytes ∧ p.1.usize ≤ maxFieldBytes
          ∧ ∀ validate : Bool, ∃ raw,
              decodeFieldBytes zd p.1 p.2 validate = .ok raw
              ∧ decodeLeaf p.1 raw = .ok it.2) items encoded := by
  intro items
  induction items with
  | nil => intro _; exact ⟨[], rfl, List.Forall₂.nil⟩
  | cons it rest ih =>
    intro h
    obtain ⟨fm, stored, henc, hname, hcs, hcap1, hcap2, hdec⟩ :=
      encodeField_roundtrip zc zd hz opts it.1 it.2
        (h it (List.mem_cons_self _ _)).1 (h it (List.mem_cons_self _ _)).2
    obtain ⟨encr, hmapr, hFr⟩ :=
      ih (fun q hq => h q (List.mem_cons_of_mem _ hq))
    refine ⟨(fm, stored) :: encr, ?_,
      List.Forall₂.cons ⟨hname, hcs, hcap1, hcap2, hdec⟩ hFr⟩
    rw [List.mapM_cons]
    simp only [henc, hmapr, bind, exceptBind_ok]
    rfl

/-- The writer's top-level flattening of a well-formed struct root
emits the joined leaf paths of its key list. -/
theorem flattenRoot_paths : ∀ (m : Smap), wfEntries m = true →
    flattenRoot m
      = .ok ((leafPathsList m).map (fun p => (joinParts p.1, p.2))) := by
  intro m
  induction m with
  | nil => intro _; rfl
  | cons kv t ih =>
    intro hent
    obtain ⟨k, v⟩ := kv
    rw [wfEntries] at hent
    simp only [Bool.and_eq_true] at hent
    obtain ⟨⟨⟨hk1, hk2⟩, hwv⟩, hent2⟩ := hent
    have hk1' : k ≠ [] := by
      intro hc
      rw [hc] at hk1
      simp at hk1
    have hflat := (flatten_paths (sizeOf v)).1 v (le_refl _) hwv k hk1'
    show (do
      let here ← flattenToLeaves v k
      let rest ← flattenRoot t
      (.ok (here ++ rest) : Except GbfErr (List (Name × GbfValue)))) = _
    simp only [hflat, ih hent2, bind, exceptBind_ok]
    simp only [leafPathsList, List.map_append, List.map_map]
    have hmap : List.map ((fun p => (joinParts p.1, p.2))
          ∘ fun p : List Name × GbfValue => (k :: p.1, p.2)) (leafPaths v)
        = List.map (fun p => (joinName k p.1, p.2)) (leafPaths v) := by
      refine List.map_congr_left ?_
      intro p _
      rfl
    rw [hmap]

/-- Assigning joined names is assigning their part paths. -/
theorem assignFold_eq_partsFold :
    ∀ (pitems : List (List Name × GbfValue)) (acc : Smap),
    (∀ it ∈ pitems, ∃ k ps, it.1 = k :: ps ∧ k ≠ [] ∧ hasDot k = false
      ∧ ∀ p ∈ ps, p ≠ [] ∧ hasDot p = false) →
    assignFold (pitems.map (fun p => (joinParts p.1, p.2))) acc
      = assignPartsFold pitems acc := by
  intro pitems
  induction pitems with
  | nil => intro acc _; rfl
  | cons it rest ih =>
    intro acc hwf
    obtain ⟨k, ps, he, hk1, hk2, hps⟩ := hwf it (List.mem_cons_self _ _)
    have hne : joinParts it.1 ≠ [] := by
      rw [he]
      exact joinParts_ne_nil k ps hk1
    have hstep : assignByPath acc (joinParts it.1) it.2
        = assignParts it.2 it.1 acc := by
      unfold assignByPath
      rw [if_neg (by
        intro hc
        exact hne (List.isEmpty_iff.mp hc))]
      rw [he, splitDots_joinParts k ps hk1 hk2 hps]
    unfold assignFold assignPartsFold
    simp only [List.map_cons, List.foldlM_cons]
    rw [hstep]
    cases hres : assignParts it.2 it.1 acc with
    | error e => simp only [bind, exceptBind_err]
    | ok m2 =>
      simp only [bind, exceptBind_ok]
      have := ih m2 (fun q hq => hwf q (List.mem_cons_of_mem _ hq))
      unfold assignFold assignPartsFold at this
      exact this

/-- Fold congruence: two monadic folds agree when their steps agree
pointwise along related traversals. -/
theorem foldlM_congr_rel {α α2 β : Type} (g : β → α → Except GbfErr β)
    (g2 : β → α2 → Except GbfErr β) :
    ∀ {l : List α} {l2 : List α2},
      List.Forall₂ (fun a a2 => ∀ b, g b a = g2 b a2) l l2 →
      ∀ init, List.foldlM g init l = List.foldlM g2 init l2 := by
  intro l l2 h
  induction h with
  | nil => intro init; rfl
  | cons hstep htail ih =>
    intro init
    rw [List.foldlM_cons, List.foldlM_cons, hstep init]
    cases hres : g2 init _ with
    | error e => simp only [bind, exceptBind_err]
    | ok b =>
      simp only [bind, exceptBind_ok]
      exact ih b

/-- Membership-aware weakening of a pointwise relation. -/
theorem forall2_imp_mem {α β : Type} {R S : α → β → Prop} :
    ∀ {l1 : List α} {l2 : List β}, List.Forall₂ R l1 l2 →
      (∀ a ∈ l1, ∀ b ∈ l2, R a b → S a b) → List.Forall₂ S l1 l2 := by
  intro l1 l2 h
  induction h with
  | nil => intro _; exact List.Forall₂.nil
  | cons hr ht ih =>
    intro himp
    exact List.Forall₂.cons
      (himp _ (List.mem_cons_self _ _) _ (List.mem_cons_self _ _) hr)
      (ih (fun a ha b hb hr2 =>
        himp a (List.mem_cons_of_mem _ ha) b (List.mem_cons_of_mem _ hb) hr2))

/-- Two maps agree along a pointwise relation that matches them up. -/
theorem forall2_map_eq {α β γ : Type} (f : α → γ) (g : β → γ)
    {R : α → β → Prop} (hfg : ∀ a b, R a b → f a = g b) :
    ∀ {l1 : List α} {l2 : List β}, List.Forall₂ R l1 l2 →
      l1.map f = l2.map g := by
  intro l1 l2 h
  induction h with
  | nil => rfl
  | cons hr _ ih => simp only [List.map_cons, hfg _ _ hr, ih]

/-- The reader's reassembly loop, run over chunks that each look up
their field and decode to a value, is the `assign_by_path` fold over
those named values. -/
theorem readFold_ok (zd : List Byte → Except String (List Byte))
    (validate : Bool) (fields : List FieldMeta) :
    ∀ (C : List (Name × List Byte)) (items : List (Name × GbfValue)),
    List.Forall₂ (fun nb it =>
      ∃ field, fields.find? (fun f => f.name = nb.1) = some field
        ∧ field.name = it.1
        ∧ ∃ raw, decodeFieldBytes zd field nb.2 validate = .ok raw
            ∧ decodeLeaf field raw = .ok it.2) C items →
    ∀ (acc : Smap),
    List.foldlM (fun acc nb =>
      match fields.find? (fun f => f.name = nb.1) with
      | none => .error (.format ("internal field lookup failure"))
      | some field =>
        (decodeFieldBytes zd field nb.2 validate).bind (fun raw =>
          (decodeLeaf field raw).bind (fun val =>
            assignByPath acc field.name val))) acc C
      = assignFold items acc := by
  intro C items h
  induction h with
  | nil => intro acc; rfl
  | @cons nb it C2 items2 hr ht ih =>
    intro acc
    obtain ⟨field, hfind, hname, raw, hdecb, hdecl⟩ := hr
    rw [List.foldlM_cons]
    simp only [hfind, hdecb, hdecl, bind, exceptBind_ok]
    rw [hname]
    have hrhs : assignFold (it :: items2) acc
        = bind (assignByPath acc it.1 it.2)
            (fun b => List.foldlM (fun acc nv => assignByPath acc nv.1 nv.2) b items2) := by
      unfold assignFold
      rw [List.foldlM_cons]
    rw [hrhs]
    cases hres : assignByPath acc it.1 it.2 with
    | error e => simp only [bind, exceptBind_err]
    | ok m2 =>
      simp only [bind, exceptBind_ok]
      have := ih m2
      unfold assignFold at this
      exact this

/-- Core of the write-then-read round trip: with the writer's leaves
given as joined well-formed distinct paths and the part-level
reassembly result known, the whole pipeline reduces to the reader's
root dispatch over the reassembled map. -/
theorem pipeline_core (zc : Nat → List Byte → List Byte)
    (zd : List Byte → Except String (List Byte))
    (hz : ∀ lvl x, zd (zc lvl x) = .ok x)
    (opts : WriteOptions) (validate : Bool) (json : List Byte)
    (hj1 : 2 ≤ json.length) (hj2 : json.length ≤ maxHeaderLen)
    (v : GbfValue) (pitems : List (List Name × GbfValue)) (out : Smap)
    (hleaves : rootLeaves v = .ok (pitems.map (fun p => (joinParts p.1, p.2))))
    (hwfit : ∀ it ∈ pitems,
      (∃ k ps, it.1 = k :: ps ∧ k ≠ [] ∧ hasDot k = false
        ∧ ∀ p ∈ ps, p ≠ [] ∧ hasDot p = false)
      ∧ isLeafVal it.2 = true ∧ wfVal it.2 = true)
    (hnd : (pitems.map (fun p => p.1)).Nodup)
    (hcnt : pitems.length ≤ 2 ^ 29)
    (hfold : assignPartsFold pitems [] = .ok out) :
    writePipeline zc zd opts validate json v
      = rootFinish (rootTag v) out := by
  obtain ⟨encoded, hmapM, hF⟩ := mapM_encode zc zd hz opts
    (pitems.map (fun p => (joinParts p.1, p.2)))
    (by
      intro it hit
      obtain ⟨p, hp, hpe⟩ := List.mem_map.mp hit
      obtain ⟨-, hl, hw⟩ := hwfit p hp
      rw [← hpe]
      exact ⟨hl, hw⟩)
  have hellen : encoded.length = pitems.length := by
    have h1 := hF.length_eq
    simpa using h1.symm
  have hcs_mem : ∀ p ∈ encoded, p.1.csize = p.2.length ∧
      p.1.csize ≤ maxFieldBytes ∧ p.1.usize ≤ maxFieldBytes := by
    intro p hp
    obtain ⟨it, hit, hrel⟩ := forall2_mem_right hF p hp
    exact ⟨hrel.2.1, hrel.2.2.1, hrel.2.2.2.1⟩
  have hchlen : ((List.map (fun p => p.2) encoded).flatten).length
      = ((List.map (fun p => p.1) encoded).map (fun f => f.csize)).sum := by
    rw [List.length_flatten, List.map_map, List.map_map]
    refine congrArg List.sum (List.map_congr_left ?_)
    intro p hp
    show p.2.length = p.1.csize
    exact (hcs_mem p hp).1.symm
  have hmaxF : maxFieldBytes = 2 ^ 34 := by norm_num [maxFieldBytes]
  have hmaxH : maxHeaderLen = 2 ^ 26 := by norm_num [maxHeaderLen]
  have hsum_le : ((List.map (fun p => p.1) encoded).map (fun f => f.csize)).sum
      ≤ 2 ^ 63 := by
    have hb := sum_le_bound
      ((List.map (fun p => p.1) encoded).map (fun f => f.csize))
      maxFieldBytes (by
        intro x hx
        obtain ⟨f, hf, hfe⟩ := List.mem_map.mp hx
        obtain ⟨p, hp, hpe⟩ := List.mem_map.mp hf
        rw [← hfe, ← hpe]
        exact (hcs_mem p hp).2.1)
    have hlen2 : ((List.map (fun p => p.1) encoded).map (fun f => f.csize)).length
        = encoded.length := by simp
    rw [hlen2] at hb
    have h63 : (2 : Nat) ^ 29 * 2 ^ 34 = 2 ^ 63 := by norm_num
    calc ((List.map (fun p => p.1) encoded).map (fun f => f.csize)).sum
        ≤ encoded.length * maxFieldBytes := hb
      _ ≤ 2 ^ 29 * maxFieldBytes := Nat.mul_le_mul_right _ (by omega)
      _ = 2 ^ 63 := by rw [hmaxF, h63]
  have hfilelen : (fileBytes json ((List.map (fun p => p.2) encoded).flatten)).length
      = 12 + json.length + ((List.map (fun p => p.2) encoded).flatten).length :=
    fileBytes_length _ _
  have hfile64 : (fileBytes json ((List.map (fun p => p.2) encoded).flatten)).length
      < 2 ^ 64 := by
    rw [hfilelen, hchlen]
    omega
  have hdrop0 : (fileBytes json ((List.map (fun p => p.2) encoded).flatten)).drop
      (12 + json.length + 0) = (List.map (fun p => p.2) encoded).flatten ++ [] := by
    rw [Nat.add_zero, List.append_nil]
    exact fileBytes_drop _ _
  have hspec := assignOffsetsGo_spec
    (fileBytes json ((List.map (fun p => p.2) encoded).flatten))
    (12 + json.length) hfile64 encoded 0 []
    (fun p hp => (hcs_mem p hp).1)
    (by rw [hfilelen]; omega)
    hdrop0
  have hAO : assignOffsets (List.map (fun p => p.1) encoded)
      = assignOffsetsGo 0 (List.map (fun p => p.1) encoded) := rfl
  rw [← hAO] at hspec
  have hsorted := (assignOffsetsGo_sorted (List.map (fun p => p.1) encoded) 0
    (by omega)).2
  have hsortid : sortFieldsByOffset (assignOffsets (List.map (fun p => p.1) encoded))
      = assignOffsets (List.map (fun p => p.1) encoded) := by
    rw [hAO]
    exact sortFieldsByOffset_id _ hsorted
  have hok : ∀ f ∈ assignOffsets (List.map (fun p => p.1) encoded),
      readFieldRaw (fileBytes json ((List.map (fun p => p.2) encoded).flatten))
        (12 + json.length) f
      = .ok (sliceAt (fileBytes json ((List.map (fun p => p.2) encoded).flatten))
          (12 + json.length + f.offset) f.csize) := by
    intro g hg
    obtain ⟨p, hp, hR⟩ := forall2_mem_left hspec g hg
    obtain ⟨o, hgo, hbnd, hsl⟩ := hR
    have hcaps := hcs_mem p hp
    have hgoff : g.offset = o := by rw [hgo]
    have hgcs : g.csize = p.1.csize := by rw [hgo]
    have hgus : g.usize = p.1.usize := by rw [hgo]
    refine readFieldRaw_of_bounds _ _ _ ?_ ?_ ?_ hfile64
    · rw [hgcs]; exact hcaps.2.1
    · rw [hgus]; exact hcaps.2.2
    · rw [hgoff, hgcs]; exact hbnd
  obtain ⟨hcoalEq, hpw2, hperm2⟩ := coalescedRead_spec_all
    (fileBytes json ((List.map (fun p => p.2) encoded).flatten))
    (12 + json.length)
    (assignOffsets (List.map (fun p => p.1) encoded)) hok
  rw [hsortid] at hcoalEq
  have hnames1 : (assignOffsets (List.map (fun p => p.1) encoded)).map
      (fun f => f.name) = pitems.map (fun p => joinParts p.1) := by
    rw [hAO, assignOffsetsGo_names]
    have h2 := forall2_map_eq (fun it : Name × GbfValue => it.1)
      (fun p : FieldMeta × List Byte => p.1.name)
      (fun a b hr => hr.1.symm) hF
    have h3 : (List.map (fun p => p.1) encoded).map (fun f => f.name)
        = List.map (fun p : FieldMeta × List Byte => p.1.name) encoded := by
      rw [List.map_map]
      exact List.map_congr_left (fun p _ => rfl)
    rw [h3, ← h2, List.map_map]
    exact List.map_congr_left (fun p _ => rfl)
  have hndnames : ((assignOffsets (List.map (fun p => p.1) encoded)).map
      (fun f => f.name)).Nodup := by
    rw [hnames1]
    exact nodup_joined pitems (fun it hit => (hwfit it hit).1) hnd
  have hcomp := forall2_comp hspec hF
  have hfa0 : List.Forall₂ (fun (g : FieldMeta) (it : Name × GbfValue) =>
      ∃ field, (assignOffsets (List.map (fun p => p.1) encoded)).find?
          (fun f => f.name = (g.name, sliceAt
            (fileBytes json ((List.map (fun p => p.2) encoded).flatten))
            (12 + json.length + g.offset) g.csize).1) = some field
        ∧ field.name = it.1
        ∧ ∃ raw, decodeFieldBytes zd field (g.name, sliceAt
            (fileBytes json ((List.map (fun p => p.2) encoded).flatten))
            (12 + json.length + g.offset) g.csize).2 validate = .ok raw
            ∧ decodeLeaf field raw = .ok it.2)
      (assignOffsets (List.map (fun p => p.1) encoded))
      (pitems.map (fun p => (joinParts p.1, p.2))) := by
    refine forall2_imp_mem hcomp ?_
    intro g hg it hit hrel
    obtain ⟨p, hR1, hR2⟩ := hrel
    obtain ⟨o, hgo, hbnd, hsl⟩ := hR1
    obtain ⟨hn, hc, hc1, hc2, hdec⟩ := hR2
    have hgoff : g.offset = o := by rw [hgo]
    have hgcs : g.csize = p.1.csize := by rw [hgo]
    refine ⟨g, find_name_nodup _ hndnames g hg, ?_, ?_⟩
    · show g.name = it.1
      rw [hgo]
      exact hn
    · obtain ⟨raw, hdb, hdl⟩ := hdec validate
      refine ⟨raw, ?_, ?_⟩
      · show decodeFieldBytes zd g (sliceAt
            (fileBytes json ((List.map (fun p => p.2) encoded).flatten))
            (12 + json.length + g.offset) g.csize) validate = .ok raw
        rw [hgoff, hgcs, hsl, hgo, decodeFieldBytes_offset]
        exact hdb
      · show decodeLeaf g raw = .ok it.2
        rw [hgo, decodeLeaf_offset]
        exact hdl
  have hfa : List.Forall₂ (fun (nb : Name × List Byte) (it : Name × GbfValue) =>
      ∃ field, (assignOffsets (List.map (fun p => p.1) encoded)).find?
          (fun f => f.name = nb.1) = some field
        ∧ field.name = it.1
        ∧ ∃ raw, decodeFieldBytes zd field nb.2 validate = .ok raw
            ∧ decodeLeaf field raw = .ok it.2)
      ((assignOffsets (List.map (fun p => p.1) encoded)).map
        (fun f => (f.name, sliceAt
          (fileBytes json ((List.map (fun p => p.2) encoded).flatten))
          (12 + json.length + f.offset) f.csize)))
      (pitems.map (fun p => (joinParts p.1, p.2))) :=
    forall2_map_left _ hfa0
  have hpt : payloadTotal (assignOffsets (List.map (fun p => p.1) encoded))
      = ((List.map (fun p => p.2) encoded).flatten).length := by
    have h1 : (assignOffsets (List.map (fun p => p.1) encoded)).map
        (fun f => f.csize)
        = (List.map (fun p => p.1) encoded).map (fun f => f.csize) := by
      rw [hAO, assignOffsetsGo_csizes]
    rw [payloadTotal_eq_sum _ (by rw [h1]; omega), h1, hchlen]
  have hhc := readHeaderChecks_written (rootTag v)
    (assignOffsets (List.map (fun p => p.1) encoded))
    json ((List.map (fun p => p.2) encoded).flatten) validate hj1 hj2 hpt
    (by rw [hchlen]; omega)
  unfold writePipeline writeCore
  rw [hleaves]
  simp only [bind, exceptBind_ok]
  rw [hmapM]
  simp only [bind, exceptBind_ok]
  simp only [readFileModel]
  rw [hhc]
  simp only [bind, exceptBind_ok]
  have hproj1 : (writtenHeader (rootTag v)
      (assignOffsets (List.map (fun p => p.1) encoded)) json).payloadStart
      = 8 + 4 + json.length := rfl
  have hps2 : fieldPayloadStart json.length (8 + 4 + json.length)
      = 12 + json.length := by
    unfold fieldPayloadStart
    rw [if_pos (by omega)]
  have hproj2 : (writtenHeader (rootTag v)
      (assignOffsets (List.map (fun p => p.1) encoded)) json).fields
      = assignOffsets (List.map (fun p => p.1) encoded) := rfl
  rw [hproj1, hps2, hproj2]
  rw [hcoalEq]
  simp only [bind, exceptBind_ok]
  rw [readFold_ok zd validate
    (assignOffsets (List.map (fun p => p.1) encoded)) _ _ hfa []]
  rw [assignFold_eq_partsFold pitems [] (fun it hit => (hwfit it hit).1)]
  rw [hfold]
  simp only [bind, exceptBind_ok]
  have hproj3 : (writtenHeader (rootTag v)
      (assignOffsets (List.map (fun p => p.1) encoded)) json).root
      = rootTag v := rfl
  rw [hproj3]
  rfl

/-- C1 counterexample: a `DateTime` leaf whose `tz` metadata is an
empty string (`Some("")`) is a representable input value, but the
write/read round trip silently canonicalizes it to `None`:
`encode_leaf` writes a zero-length metadata block and `decode_leaf`
reads a zero length back as absent, so read-after-write returns a
different value than the one written, and the claimed unconditional
per-value round trip fails. -/
theorem datetime_empty_tz_not_round_tripped :
    writePipeline (fun _ x => x) (fun x => .ok x) defaultWriteOptions true
      [123, 125]
      (.dateTime (DateTimeArray.mk [0] (some []) none none [] [] [] [] []))
      = .ok (.dateTime (DateTimeArray.mk [0] none none none [] [] [] [] []))
    ∧ (some ([] : List Byte)) ≠ (none : Option (List Byte)) := by
  exact ⟨by rfl, by decide⟩

/-- C1 amended: for every well-formed value (component lengths
matching the declared shapes, integers in their machine ranges, valid
UTF-8 text within the u32 framing limits, metadata options absent or
non-empty, struct nodes non-empty sorted maps with non-empty dot-free
keys, each leaf encoding within the 16 GiB field cap) with at most
2^29 leaves, and any serialized header JSON of admissible length,
writing with ANY options (any compression mode/level, CRC on or off)
and reading back with or without validation returns exactly the
original value, for any inverse zlib pair. -/
theorem write_read_round_trip (zc : Nat → List Byte → List Byte)
    (zd : List Byte → Except String (List Byte))
    (hz : ∀ lvl x, zd (zc lvl x) = .ok x)
    (opts : WriteOptions) (validate : Bool) (json : List Byte)
    (hj1 : 2 ≤ json.length) (hj2 : json.length ≤ maxHeaderLen)
    (v : GbfValue) (hwf : wfVal v = true) (hcnt : numLeaves v ≤ 2 ^ 29) :
    writePipeline zc zd opts validate json v = .ok v := by
  cases hv : isLeafVal v with
  | true =>
    have hleaves : rootLeaves v
        = .ok ([([dataName], v)].map (fun p => (joinParts p.1, p.2))) := by
      cases v <;> first | exact Bool.noConfusion hv | rfl
    have hstep : assignParts v [dataName] [] = .ok [(dataName, v)] := by
      simp only [assignParts]
      rw [if_neg (by decide : ¬ (dataName.isEmpty = true))]
      rfl
    have hfold : assignPartsFold [([dataName], v)] [] = .ok [(dataName, v)] := by
      unfold assignPartsFold
      simp only [List.foldlM_cons, List.foldlM_nil, hstep, bind, exceptBind_ok]
      rfl
    have hcore := pipeline_core zc zd hz opts validate json hj1 hj2 v
      [([dataName], v)] [(dataName, v)] hleaves
      (by
        intro it hit
        rw [List.mem_singleton] at hit
        rw [hit]
        exact ⟨⟨dataName, [], rfl, by decide, by decide,
          fun p hp => absurd hp (List.not_mem_nil _)⟩, hv, hwf⟩)
      (by simp)
      (by norm_num)
      hfold
    rw [hcore]
    have hroot : rootTag v = "single" := by
      cases v <;> first | exact Bool.noConfusion hv | rfl
    rw [hroot]
    unfold rootFinish
    rw [if_pos (by decide)]
    have hlk : mlookup dataName [(dataName, v)] = some v := by
      unfold mlookup
      rw [if_pos rfl]
    rw [hlk]
  | false =>
    cases v with
    | struct m =>
      rw [wfVal] at hwf
      simp only [Bool.and_eq_true] at hwf
      obtain ⟨⟨hne, hsort⟩, hent⟩ := hwf
      have hfacts := (leafPaths_facts (sizeOf m)).2 m (le_refl _) hent hsort
      have hfold : assignPartsFold (leafPathsList m) [] = .ok m := by
        have h1 := assignFold_entries (sizeOf m) m (le_refl _) hent hsort []
          (fun p1 hp1 p2 hp2 => absurd hp1 (List.not_mem_nil _))
        simpa using h1
      have hcore := pipeline_core zc zd hz opts validate json hj1 hj2
        (GbfValue.struct m) (leafPathsList m) m
        (by
          show flattenRoot m = _
          exact flattenRoot_paths m hent)
        (by
          intro it hit
          obtain ⟨hparts, hl, hw, k, p2, w, hke, hkm⟩ := hfacts.2.2.1 it hit
          refine ⟨⟨k, p2, hke, ?_, ?_, ?_⟩, hl, hw⟩
          · exact (hparts k (by rw [hke]; exact List.mem_cons_self _ _)).1
          · exact (hparts k (by rw [hke]; exact List.mem_cons_self _ _)).2
          · intro p hp
            exact hparts p (by rw [hke]; exact List.mem_cons_of_mem _ hp))
        hfacts.2.2.2
        (by
          rw [hfacts.2.1]
          exact hcnt)
        hfold
      rw [hcore]
      have hroot : rootTag (GbfValue.struct m) = "struct" := rfl
      rw [hroot]
      unfold rootFinish
      rw [if_neg (by decide)]
    | numeric a => exact Bool.noConfusion hv
    | logical a => exact Bool.noConfusion hv
    | char a => exact Bool.noConfusion hv
    | string a => exact Bool.noConfusion hv
    | dateTime a => exact Bool.noConfusion hv
    | duration a => exact Bool.noConfusion hv
    | calendarDuration a => exact Bool.noConfusion hv
    | categorical a => exact Bool.noConfusion hv
    | emptyStruct => exact Bool.noConfusion hv

/-- Closed instance of the round trip: the default options, a
validating read, the minimal header and an empty-struct value, with
the identity zlib pair. -/
theorem write_read_round_trip_witness :
    writePipeline (fun _ x => x) (fun x => .ok x) defaultWriteOptions true
      [123, 125] .emptyStruct = .ok .emptyStruct := by
  exact write_read_round_trip (fun _ x => x) (fun x => .ok x) (fun _ _ => rfl)
    defaultWriteOptions true [123, 125] (by decide) (by decide)
    .emptyStruct (by decide) (by decide)

end GBin
